import Mathlib

/-!
# Asynchronous sparse convolution layer (`src/src/async_sparse_conv2d.cpp`)

A shallow embedding of `AsynSparseConvolution2D`: its parameter setter, its lazily
allocated feature-map buffers, the first-layer active-site classifier and the
incremental update engine (the five-argument `forward`).

Conventions of the embedding:

* Scalars (`float` in the source) range over an arbitrary linearly ordered commutative
  ring `R`, i.e. arithmetic is exact; `ℤ` and `ℚ` are executable instances.
* A dense matrix (`Eigen::MatrixXf`) is the list of its rows, a vector a list of
  coefficients.  Shapes are run-time data, as in Eigen, so a buffer of the wrong shape
  can be represented.
* Eigen does not define coefficient access outside a buffer.  The embedding is total:
  such a read yields the empty row (or `INACTIVE`), such a write leaves the buffer as it
  is, and a coefficient-wise operation on rows of different lengths stops at the shorter.
* Pixel indices stored in the rule book are naturals; update coordinates and the linear
  indices derived from them are integers (`int` in the source, overflow not modelled).
* The rule-book class and its builder (`updateRulebooks`) live outside this file of the
  repository.  The engine takes the builder as a parameter; where a statement depends on
  what the builder answers, its interface contract is modelled from the specification.
-/

namespace AsynSparseConv

/-! ## Data model -/

/-- Activity state of one pixel (`Site` in the source). -/
inductive Site where
  | INACTIVE
  | ACTIVE
  | NEW_ACTIVE
  | NEW_INACTIVE
  deriving DecidableEq, Repr

/-- Modelled from the spec: the `RuleBook` class, declared outside `src/`.  It records the
image width used for linearisation and, per kernel offset, the list of
`(input pixel index, output pixel index)` rules. -/
structure RuleBook where
  W_ : Int
  rules : List (List (Nat × Nat))
  deriving DecidableEq, Repr

/-- Modelled from the spec: `RuleBook::getRules(k, input, output)`, the rules of kernel
offset `k` as pairs `(input[r], output[r])`. -/
def RuleBook.getRules (rb : RuleBook) (k : Nat) : List (Nat × Nat) :=
  rb.rules.getD k []

/-- Modelled from the spec: `RuleBook::nrules(k)`, the number of rules of offset `k`. -/
def RuleBook.nrules (rb : RuleBook) (k : Nat) : Nat :=
  (rb.getRules k).length

/-- The rule-book collaborator, whose code is outside `src/`; the engine is parametric
in it.  `updateRulebooks was_inactive became_zero update_indices classification rule_book`
returns the revised classification, the pixel indices to propagate and the revised rule
book (the source passes the three by reference). -/
structure RuleBookBuilder where
  initialise : RuleBook → Int → Int → Nat → Nat → RuleBook
  updateRulebooks :
    List Bool → List Bool → List Int → List Site → RuleBook →
      List Site × List Int × RuleBook

/-- State of one `AsynSparseConvolution2D` instance (the members the code reads or
writes; `debug_` only drives printing and is left out). -/
structure AsynSparseConvolution2D (R : Type) where
  dimension_ : Nat
  nIn_ : Nat
  nOut_ : Nat
  filter_size_ : Nat
  first_layer_ : Bool
  use_bias_ : Bool
  filter_volume_ : Nat
  bias_ : List R
  weights_ : List (List R)
  padding_ : List Nat
  kernel_indices_ : List (Nat × Nat)
  initialized_input_maps_ : Bool
  initialized_output_maps_ : Bool
  H_ : Int
  W_ : Int
  num_pixels_ : Int
  old_input_feature_map_ : List (List R)
  output_feature_map_ : List (List R)

/-- What the five-argument `forward` returns (`ReturnType`). -/
structure ReturnType (R : Type) where
  new_update_location : List (Int × Int)
  output_feature_map : List (List R)
  active_sites_map : List Site

section Embedding

variable {R : Type} [LinearOrderedCommRing R]

/-! ## Dense-buffer primitives (the Eigen operations the code uses) -/

/-- A `rows × cols` buffer filled with zero (`setConstant(0)`). -/
def zeroMap (rows cols : Nat) : List (List R) :=
  List.replicate rows (List.replicate cols 0)

/-- Row `i` of a buffer: `m(i, Eigen::all)`. -/
def rowAt (m : List (List R)) (i : Nat) : List R :=
  m.getD i []

/-- Row at an `int` index. -/
def rowAtInt (m : List (List R)) (i : Int) : List R :=
  if i < 0 then [] else rowAt m i.toNat

/-- Classification of pixel `i`: `active_sites_map(i)`. -/
def siteAt (c : List Site) (i : Nat) : Site :=
  c.getD i Site.INACTIVE

/-- Writes `s` at an `int` index of a classification vector. -/
def setSiteInt (c : List Site) (i : Int) (s : Site) : List Site :=
  if i < 0 then c else c.set i.toNat s

/-- L1 norm of a row: `.array().abs().sum()`. -/
def l1norm (v : List R) : R :=
  (v.map fun x => |x|).sum

/-- Coefficient-wise difference of two rows. -/
def vsub (a b : List R) : List R :=
  List.zipWith (fun x y => x - y) a b

/-- Coefficient-wise sum of two rows. -/
def vadd (a b : List R) : List R :=
  List.zipWith (fun x y => x + y) a b

/-- Inner product of two rows. -/
def dot (a b : List R) : R :=
  (List.zipWith (fun x y => x * y) a b).sum

/-- Matrix-vector product `matrix * v.transpose()`. -/
def matVec (matrix : List (List R)) (v : List R) : List R :=
  matrix.map fun row => dot row v

/-- The block `v.reshaped(nRows, nCols)` of a flat row `v`.  Eigen's `reshaped` walks the
coefficients in column-major order by default, so coefficient `(r, c)` of the block is
coefficient `r + c * nRows` of `v`. -/
def reshaped (v : List R) (nRows nCols : Nat) : List (List R) :=
  (List.range nRows).map fun r => (List.range nCols).map fun c => v.getD (r + c * nRows) 0

/-- The statement `m(i, Eigen::all) += v`. -/
def addToRow (m : List (List R)) (i : Nat) (v : List R) : List (List R) :=
  m.set i (vadd (rowAt m i) v)

/-- The statement `m(i, j) = x`. -/
def setEntry (m : List (List R)) (i j : Nat) (x : R) : List (List R) :=
  m.set i ((rowAt m i).set j x)

/-! ## Parameters and buffers -/

/-- The constructor.  Eigen leaves the coefficients of `bias_` and `weights_` and the
members `H_`, `W_`, `num_pixels_` indeterminate until they are assigned; the embedding
puts zero there.  The two feature-map buffers start empty. -/
def construct (dimension nIn nOut filter_size : Nat) (first_layer use_bias : Bool) :
    AsynSparseConvolution2D R :=
  { dimension_ := dimension
    nIn_ := nIn
    nOut_ := nOut
    filter_size_ := filter_size
    first_layer_ := first_layer
    use_bias_ := use_bias
    filter_volume_ := filter_size ^ dimension
    bias_ := List.replicate nOut 0
    weights_ := zeroMap (filter_size ^ dimension) (nIn * nOut)
    padding_ := List.replicate (dimension * 2) (filter_size / 2)
    kernel_indices_ :=
      (List.range (filter_size ^ dimension)).map fun i => (i / filter_size, i % filter_size)
    initialized_input_maps_ := false
    initialized_output_maps_ := false
    H_ := 0
    W_ := 0
    num_pixels_ := 0
    old_input_feature_map_ := []
    output_feature_map_ := [] }

/-- The method `setParameters(bias, weights)`: two plain assignments, no check. -/
def setParameters (L : AsynSparseConvolution2D R) (bias : List R) (weights : List (List R)) :
    AsynSparseConvolution2D R :=
  { L with bias_ := bias, weights_ := weights }

/-- The method `initMaps(H, W)`: records the dimensions, and allocates each zero buffer
unless its flag says it already exists. -/
def initMaps (L : AsynSparseConvolution2D R) (H W : Int) : AsynSparseConvolution2D R :=
  let L1 := { L with H_ := H, W_ := W, num_pixels_ := H * W }
  let L2 :=
    if !L1.initialized_input_maps_ then
      { L1 with
        old_input_feature_map_ := zeroMap L1.num_pixels_.toNat L1.nIn_
        initialized_input_maps_ := true }
    else L1
  if !L2.initialized_output_maps_ then
    { L2 with
      output_feature_map_ := zeroMap L2.num_pixels_.toNat L2.nOut_
      initialized_output_maps_ := true }
  else L2

/-! ## Active-site classifier -/

/-- Linearisation `col + W * row` of a coordinate list, as an exact integer.  The source
computes it in 32-bit `int`; `linearize32` below is that computation, and the two agree
whenever the index fits a 32-bit `int`, as every index into an allocated buffer does. -/
def linearize (W : Int) (update_location : List (Int × Int)) : List Int :=
  update_location.map fun p => p.2 + W * p.1

/-- The value a 32-bit `int` holds after an arithmetic result `x` (two's-complement
wrap-around into `[-2^31, 2^31)`). -/
def wrapInt32 (x : Int) : Int :=
  (x + 2147483648) % 4294967296 - 2147483648

/-- The linearisation `col + W * row` as the 32-bit `int` arithmetic of the source computes
it: the product and the sum wrap around.  It agrees with `linearize` whenever the exact
values fit a 32-bit `int`. -/
def linearize32 (W : Int) (update_location : List (Int × Int)) : List Int :=
  update_location.map fun p => wrapInt32 (p.2 + wrapInt32 (W * p.1))

/-- First loop of `initActiveMap`: every row index of the feature map whose row has a
positive L1 norm is marked `ACTIVE`. -/
def markNonzero (input_feature_map : List (List R)) (c : List Site) : List Site :=
  (List.range input_feature_map.length).foldl
    (fun m i => if 0 < l1norm (rowAt input_feature_map i) then m.set i Site.ACTIVE else m) c

/-- Second loop of `initActiveMap`: every linearised update location is marked `ACTIVE`. -/
def markUpdated (update_location_linear : List Int) (c : List Site) : List Site :=
  update_location_linear.foldl (fun m i => setSiteInt m i Site.ACTIVE) c

/-- The method `initActiveMap(input_feature_map, update_location)`: all sites `INACTIVE`,
then the two marking loops. -/
def initActiveMap (L : AsynSparseConvolution2D R) (input_feature_map : List (List R))
    (update_location : List (Int × Int)) : List Site :=
  let update_location_linear := linearize L.W_ update_location
  let active_sites_map := List.replicate L.num_pixels_.toNat Site.INACTIVE
  markUpdated update_location_linear (markNonzero input_feature_map active_sites_map)

/-! ## Incremental update engine -/

/-- The hint `zero_input_update`: for each updated pixel, whether its new feature row has
zero L1 norm (first layer), else all `false`. -/
def zeroInputUpdate (L : AsynSparseConvolution2D R) (input_feature_map : List (List R))
    (update_location_linear : List Int) : List Bool :=
  if L.first_layer_ then
    update_location_linear.map fun i => decide (l1norm (rowAtInt input_feature_map i) = 0)
  else List.replicate update_location_linear.length false

/-- The hint `bool_new_active_site`: for each updated pixel, whether its previous feature
row had zero L1 norm (first layer), else all `false`. -/
def boolNewActiveSite (L : AsynSparseConvolution2D R) (update_location_linear : List Int) :
    List Bool :=
  if L.first_layer_ then
    update_location_linear.map fun i =>
      decide (l1norm (rowAtInt L.old_input_feature_map_ i) = 0)
  else List.replicate update_location_linear.length false

/-- The rule-book step of `forward`: skipped when `no_update_locations` is set, in which
case the classification and the rule book stay as passed in and the list of pixels to
propagate is empty. -/
def ruleBookStep (B : RuleBookBuilder) (L : AsynSparseConvolution2D R)
    (update_location : List (Int × Int)) (input_feature_map : List (List R))
    (active_sites_map : List Site) (rule_book : RuleBook) (no_update_locations : Bool) :
    List Site × List Int × RuleBook :=
  let update_location_linear := linearize rule_book.W_ update_location
  if !no_update_locations then
    B.updateRulebooks (boolNewActiveSite L update_location_linear)
      (zeroInputUpdate L input_feature_map update_location_linear)
      update_location_linear active_sites_map rule_book
  else (active_sites_map, [], rule_book)

/-- Back-conversion of the propagated pixel indices: `(x / W, x % W)` with C++ integer
division. -/
def delinearize (W : Int) (new_update_location_linear : List Int) : List (Int × Int) :=
  new_update_location_linear.map fun x => (Int.tdiv x W, Int.tmod x W)

/-- The weight block of kernel offset `k`:
`weights_(kernel_index, Eigen::all).reshaped(nOut_, nIn_)`. -/
def weightBlock (L : AsynSparseConvolution2D R) (kernel_index : Nat) : List (List R) :=
  reshaped (rowAt L.weights_ kernel_index) L.nOut_ L.nIn_

/-- The row `delta_feature(r, Eigen::all)` of one rule `(i, o)`: the full input row when
`o` is `NEW_ACTIVE`, else the difference to the previous input row. -/
def deltaFeature (L : AsynSparseConvolution2D R) (input_feature_map : List (List R))
    (c : List Site) (rule : Nat × Nat) : List R :=
  if siteAt c rule.2 ≠ Site.NEW_ACTIVE then
    vsub (rowAt input_feature_map rule.1) (rowAt L.old_input_feature_map_ rule.1)
  else rowAt input_feature_map rule.1

/-- Body of the loop over the rules of one kernel offset. -/
def accumulateRule (L : AsynSparseConvolution2D R) (input_feature_map : List (List R))
    (c : List Site) (matrix : List (List R)) (out : List (List R)) (rule : Nat × Nat) :
    List (List R) :=
  addToRow out rule.2 (matVec matrix (deltaFeature L input_feature_map c rule))

/-- Body of the loop over the kernel offsets. -/
def accumulateKernel (L : AsynSparseConvolution2D R) (input_feature_map : List (List R))
    (c : List Site) (rule_book : RuleBook) (out : List (List R)) (kernel_index : Nat) :
    List (List R) :=
  if rule_book.nrules kernel_index = 0 then out
  else
    (rule_book.getRules kernel_index).foldl
      (accumulateRule L input_feature_map c (weightBlock L kernel_index)) out

/-- The accumulation loop, started from the persisted output buffer. -/
def accumulate (L : AsynSparseConvolution2D R) (input_feature_map : List (List R))
    (c : List Site) (rule_book : RuleBook) : List (List R) :=
  (List.range L.filter_volume_).foldl (accumulateKernel L input_feature_map c rule_book)
    L.output_feature_map_

/-- Body of the final loop over the pixels: zero the row of a `NEW_INACTIVE` pixel, add
the bias to the row of a `NEW_ACTIVE` pixel when `use_bias_` holds. -/
def resetBiasPixel (L : AsynSparseConvolution2D R) (c : List Site) (out : List (List R))
    (i : Nat) : List (List R) :=
  let out1 :=
    if siteAt c i = Site.NEW_INACTIVE then
      (List.range L.nOut_).foldl (fun m j => setEntry m i j 0) out
    else out
  if L.use_bias_ && decide (siteAt c i = Site.NEW_ACTIVE) then addToRow out1 i L.bias_
  else out1

/-- The final loop over `active_sites_map.rows()` pixels. -/
def resetAndBias (L : AsynSparseConvolution2D R) (c : List Site) (out : List (List R)) :
    List (List R) :=
  (List.range c.length).foldl (resetBiasPixel L c) out

/-- The five-argument `forward` (the update engine): returns the new instance state, the
rule book as the builder left it, and the returned triple. -/
def forward (B : RuleBookBuilder) (L : AsynSparseConvolution2D R)
    (update_location : List (Int × Int)) (input_feature_map : List (List R))
    (active_sites_map : List Site) (rule_book : RuleBook) (no_update_locations : Bool) :
    AsynSparseConvolution2D R × RuleBook × ReturnType R :=
  let step := ruleBookStep B L update_location input_feature_map active_sites_map rule_book
    no_update_locations
  let active_sites_map1 := step.1
  let new_update_location_linear := step.2.1
  let rule_book1 := step.2.2
  let new_update_location := delinearize rule_book1.W_ new_update_location_linear
  let output_feature_map :=
    resetAndBias L active_sites_map1 (accumulate L input_feature_map active_sites_map1 rule_book1)
  ({ L with
      old_input_feature_map_ := input_feature_map
      output_feature_map_ := output_feature_map },
    rule_book1,
    { new_update_location := new_update_location
      output_feature_map := output_feature_map
      active_sites_map := active_sites_map1 })

/-! ## Vocabulary of the statements -/

/-- Channel `j` of a row. -/
def chan (v : List R) (j : Nat) : R :=
  v.getD j 0

/-- The sum, over every kernel offset `k` below `filter_volume_` and every rule `(i, o)`
of offset `k` whose output pixel is `o`, of channel `j` of `W_k * d i`, where `W_k` is
the weight block of offset `k` and `d i` the row contributed by input pixel `i`. -/
def ruleSum (L : AsynSparseConvolution2D R) (rule_book : RuleBook) (d : Nat → List R)
    (o j : Nat) : R :=
  ((List.range L.filter_volume_).map fun k =>
    (((rule_book.getRules k).filter fun rule => decide (rule.2 = o)).map fun rule =>
      chan (matVec (weightBlock L k) (d rule.1)) j).sum).sum

/-- The delta sum of a steady pixel written out in scalars: the sum, over every kernel
offset `k` below `filter_volume_`, every rule `(i, o)` of offset `k` whose output pixel is
`o` and every input channel `c` below `nIn_`, of
`W_k(j, c) * (input(i, c) - previous_input(i, c))`, where `W_k(j, c)` is coefficient
`j + c * nOut_` of row `k` of the weights. -/
def steadyDeltaSum (L : AsynSparseConvolution2D R) (rule_book : RuleBook)
    (input_feature_map : List (List R)) (o j : Nat) : R :=
  ((List.range L.filter_volume_).map fun k =>
    (((rule_book.getRules k).filter fun rule => decide (rule.2 = o)).map fun rule =>
      ((List.range L.nIn_).map fun c =>
        (L.weights_.getD k []).getD (j + c * L.nOut_) 0 *
          ((input_feature_map.getD rule.1 []).getD c 0 -
            (L.old_input_feature_map_.getD rule.1 []).getD c 0)).sum).sum).sum

/-- Every rule of every visited kernel offset names an input row of both input buffers
and an output pixel of the output buffer and of the classification. -/
def RulesInRange (L : AsynSparseConvolution2D R) (input_feature_map : List (List R))
    (c : List Site) (rule_book : RuleBook) : Prop :=
  ∀ k, k < L.filter_volume_ → ∀ rule ∈ rule_book.getRules k,
    rule.1 < input_feature_map.length ∧ rule.1 < L.old_input_feature_map_.length ∧
    rule.2 < L.output_feature_map_.length ∧ rule.2 < c.length

instance (L : AsynSparseConvolution2D R) (input_feature_map : List (List R))
    (c : List Site) (rule_book : RuleBook) :
    Decidable (RulesInRange L input_feature_map c rule_book) := by
  unfold RulesInRange
  infer_instance

/-- Every row of the buffer has `cols` coefficients. -/
def RowsHaveLength (m : List (List R)) (cols : Nat) : Prop :=
  ∀ row ∈ m, row.length = cols

instance (m : List (List R)) (cols : Nat) : Decidable (RowsHaveLength m cols) := by
  unfold RowsHaveLength
  infer_instance

/-- Every coefficient of the buffer is zero. -/
def AllZero (m : List (List R)) : Prop :=
  ∀ row ∈ m, ∀ x ∈ row, x = 0

instance (m : List (List R)) : Decidable (AllZero m) := by
  unfold AllZero
  infer_instance

/-- What the final loop does to the row of a pixel classified `s`: the first `nOut_`
coefficients are overwritten with zero for `NEW_INACTIVE`, the bias is added for `NEW_ACTIVE`
when `use_bias_` holds. -/
def resetBiasRow (L : AsynSparseConvolution2D R) (s : Site) (row : List R) : List R :=
  let row1 :=
    if s = Site.NEW_INACTIVE then (List.range L.nOut_).foldl (fun r j => r.set j 0) row
    else row
  if L.use_bias_ && decide (s = Site.NEW_ACTIVE) then vadd row1 L.bias_ else row1

/-- The arguments of one call of the update engine. -/
structure Call (R : Type) where
  update_location : List (Int × Int)
  input_feature_map : List (List R)
  active_sites_map : List Site
  rule_book : RuleBook
  no_update_locations : Bool

/-- The instance state after a sequence of engine calls, each with its own arguments. -/
def runCalls (B : RuleBookBuilder) (L : AsynSparseConvolution2D R) (calls : List (Call R)) :
    AsynSparseConvolution2D R :=
  calls.foldl
    (fun L call =>
      (forward B L call.update_location call.input_feature_map call.active_sites_map
        call.rule_book call.no_update_locations).1)
    L

/-! ## Top-level forward entry -/

/-- Number of columns (`cols()`) of a buffer given by its rows: the length of its first
row, and 0 for a buffer without rows. -/
def colsOf (m : List (List R)) : Nat :=
  (m.headD []).length

/-- The call `m.resize(Eigen::NoChange, cols)`.  Eigen keeps the row count; the call is a
no-operation when the number of coefficients does not change, otherwise the storage is
reallocated and the coefficients of the new `rows × cols` buffer are indeterminate: the
embedding takes them from `fresh`. -/
def resizeNoChange (fresh : Nat → Nat → R) (m : List (List R)) (cols : Nat) : List (List R) :=
  if m.length * colsOf m = m.length * cols then m
  else (List.range m.length).map fun r => (List.range cols).map fun c => fresh r c

/-- The four-argument `forward` up to its call of the engine: the instance state after
`initMaps` and the arguments the engine is called with.  The classification is kept as
the flat, pixel-indexed vector; the source's `resize` of it to one column only relabels
its shape. -/
def engineArguments (B : RuleBookBuilder) (fresh : Nat → Nat → R)
    (L : AsynSparseConvolution2D R) (update_location : List (Int × Int))
    (feature_map : List (List R)) (active_sites_map : List Site) (rulebook : RuleBook) :
    AsynSparseConvolution2D R × Call R :=
  let H : Int := feature_map.length
  let W : Int := Int.tdiv (colsOf feature_map) L.nIn_
  let no_updates := decide (update_location.length = 0)
  let updated_location := if no_updates then [(0, 0)] else update_location
  let reshaped_feature_map := resizeNoChange fresh feature_map L.nIn_
  if L.first_layer_ then
    let L1 := initMaps L H W
    let active_sites_map1 := initActiveMap L1 reshaped_feature_map updated_location
    let rulebook1 := B.initialise rulebook H W L.filter_size_ L.dimension_
    (L1,
      { update_location := update_location
        input_feature_map := reshaped_feature_map
        active_sites_map := active_sites_map1
        rule_book := rulebook1
        no_update_locations := no_updates })
  else
    let L1 := initMaps L H W
    (L1,
      { update_location := update_location
        input_feature_map := reshaped_feature_map
        active_sites_map := active_sites_map
        rule_book := rulebook
        no_update_locations := no_updates })

/-- The four-argument `forward`: it prepares the arguments and calls the engine, which the
source names `compute` there and which is the five-argument `forward`.  The two `resize`
calls on the results only relabel their shape; the embedding returns the flat, pixel-indexed
buffers. -/
def forwardTopLevel (B : RuleBookBuilder) (fresh : Nat → Nat → R)
    (L : AsynSparseConvolution2D R) (update_location : List (Int × Int))
    (feature_map : List (List R)) (active_sites_map : List Site) (rulebook : RuleBook) :
    AsynSparseConvolution2D R × RuleBook × ReturnType R :=
  let args := engineArguments B fresh L update_location feature_map active_sites_map rulebook
  forward B args.1 args.2.update_location args.2.input_feature_map args.2.active_sites_map
    args.2.rule_book args.2.no_update_locations

/-- The arguments of one call of the four-argument `forward`. -/
structure TopCall (R : Type) where
  update_location : List (Int × Int)
  feature_map : List (List R)
  active_sites_map : List Site
  rulebook : RuleBook

/-- The instance state after a sequence of calls of the four-argument `forward`, each with
its own arguments. -/
def runTopLevel (B : RuleBookBuilder) (fresh : Nat → Nat → R)
    (L : AsynSparseConvolution2D R) (calls : List (TopCall R)) : AsynSparseConvolution2D R :=
  calls.foldl
    (fun L call =>
      (forwardTopLevel B fresh L call.update_location call.feature_map
        call.active_sites_map call.rulebook).1)
    L

/-- The accumulation loop with the kernel offsets visited in the order `ks`; the source
visits `0, 1, …, filter_volume_ - 1`. -/
def accumulateInOrder (L : AsynSparseConvolution2D R) (input_feature_map : List (List R))
    (c : List Site) (rule_book : RuleBook) (ks : List Nat) : List (List R) :=
  ks.foldl (accumulateKernel L input_feature_map c rule_book) L.output_feature_map_

/-- The partial sum of kernel offset `k`: its rules accumulated into a zero buffer of the
shape of the output buffer. -/
def partialBuffer (L : AsynSparseConvolution2D R) (input_feature_map : List (List R))
    (c : List Site) (rule_book : RuleBook) (k : Nat) : List (List R) :=
  accumulateKernel L input_feature_map c rule_book
    (zeroMap L.output_feature_map_.length L.nOut_) k

/-- Coefficient-wise sum of two buffers. -/
def addBuffers (a b : List (List R)) : List (List R) :=
  List.zipWith vadd a b

/-- The persisted output with the partial sums of the offsets `ks` merged into it. -/
def mergePartials (L : AsynSparseConvolution2D R) (input_feature_map : List (List R))
    (c : List Site) (rule_book : RuleBook) (ks : List Nat) : List (List R) :=
  ks.foldl (fun m k => addBuffers m (partialBuffer L input_feature_map c rule_book k))
    L.output_feature_map_

/-! ## The rule-book builder's contract -/

/-- Modelled from the spec: the transition marker of a pixel that was active or not
before the call and is active or not after it (`NEW_ACTIVE`: became active during this
step, `NEW_INACTIVE`: became inactive, else the steady state). -/
def transition (was now : Bool) : Site :=
  match was, now with
  | false, false => Site.INACTIVE
  | true, true => Site.ACTIVE
  | false, true => Site.NEW_ACTIVE
  | true, false => Site.NEW_INACTIVE

/-- Modelled from the spec: the contribution of the pair `(i, o)` of kernel offset `k` to
output pixel `o` under the feature map `X`: the weight block times `X[i]` while `o` is
active, the zero row while it is not.  `act X o` tells whether pixel `o` is active
under `X`. -/
def contribution (act : List (List R) → Nat → Bool) (L : AsynSparseConvolution2D R)
    (X : List (List R)) (k : Nat) (rule : Nat × Nat) : List R :=
  if act X rule.2 then matVec (weightBlock L k) (rowAt X rule.1)
  else List.replicate L.nOut_ 0

/-- Modelled from the spec: the interface contract of `updateRulebooks`, whose code is
outside `src/`, for one call on the instance `L` with the feature map `F`.  `field` holds,
per kernel offset, every `(input, output)` pair of the receptive-field relation.  The
revised classification `c` marks the transitions between the previous and the current
feature map, and the rules answered for each kernel offset are exactly the pairs whose
contribution differs between the previous and the current call, none left out and none
twice. -/
def MeetsContract (field : RuleBook) (act : List (List R) → Nat → Bool)
    (L : AsynSparseConvolution2D R) (F : List (List R)) (c : List Site) (rb : RuleBook) :
    Prop :=
  c = (List.range L.output_feature_map_.length).map
      (fun o => transition (act L.old_input_feature_map_ o) (act F o)) ∧
  ∀ k, k < L.filter_volume_ →
    (rb.getRules k).Nodup ∧
    List.Perm (rb.getRules k)
      ((field.getRules k).filter fun rule =>
        decide (contribution act L L.old_input_feature_map_ k rule ≠
          contribution act L F k rule))

instance (field : RuleBook) (act : List (List R) → Nat → Bool)
    (L : AsynSparseConvolution2D R) (F : List (List R)) (c : List Site) (rb : RuleBook) :
    Decidable (MeetsContract field act L F c rb) := by
  unfold MeetsContract
  infer_instance

/-- Modelled from the spec: the running invariant of the layer, "the output equals the
convolution of the current input": every output row has `nOut_` coefficients and is, for
an active pixel, the sum of the contributions of the pairs of `field` that end in it plus
the bias (when `use_bias_` holds), and the zero row for an inactive pixel. -/
def Consistent (field : RuleBook) (act : List (List R) → Nat → Bool)
    (L : AsynSparseConvolution2D R) : Prop :=
  ∀ o, o < L.output_feature_map_.length →
    (rowAt L.output_feature_map_ o).length = L.nOut_ ∧
    ∀ j, j < L.nOut_ →
      chan (rowAt L.output_feature_map_ o) j =
        if act L.old_input_feature_map_ o then
          ruleSum L field (fun i => rowAt L.old_input_feature_map_ i) o j +
            (if L.use_bias_ then chan L.bias_ j else 0)
        else 0

instance (field : RuleBook) (act : List (List R) → Nat → Bool)
    (L : AsynSparseConvolution2D R) : Decidable (Consistent field act L) := by
  unfold Consistent
  infer_instance

/-- A pixel is active when its feature row has a non-zero L1 norm. -/
def nonzeroActive (X : List (List R)) (o : Nat) : Bool :=
  decide (l1norm (rowAt X o) ≠ 0)

/-! ## Sample data -/

/-- A rule-book builder that answers every `updateRulebooks` call with the given
classification, propagation list and rule lists, and whose `initialize` records the width. -/
def scriptedBuilder (c : List Site) (new_update_location_linear : List Int)
    (rules : List (List (Nat × Nat))) : RuleBookBuilder :=
  { initialise := fun rb _ W _ _ => { rb with W_ := W }
    updateRulebooks := fun _ _ _ _ rb =>
      (c, new_update_location_linear, { rb with rules := rules }) }

/-- A downstream layer over `ℤ` with `nIn = nOut = 2`, a `1 × 1` kernel, bias enabled and
three pixels, in the middle of a stream. -/
def sampleLayer : AsynSparseConvolution2D ℤ :=
  { initMaps (setParameters (construct 2 2 2 1 false true) [1, -1] [[1, 2, 3, 4]]) 1 3 with
    old_input_feature_map_ := [[1, 0], [0, 2], [3, 3]]
    output_feature_map_ := [[5, 6], [7, 8], [9, 10]] }

/-- A feature map for `sampleLayer`. -/
def sampleInput : List (List ℤ) :=
  [[2, 1], [0, 5], [3, 4]]

/-- The classification the sample builder answers with. -/
def sampleSites : List Site :=
  [Site.ACTIVE, Site.NEW_ACTIVE, Site.NEW_INACTIVE]

/-- The rules the sample builder answers with (one kernel offset). -/
def sampleRules : List (List (Nat × Nat)) :=
  [[(0, 0), (1, 0), (1, 1), (2, 1), (2, 2)]]

/-- The sample builder. -/
def sampleBuilder : RuleBookBuilder :=
  scriptedBuilder sampleSites [0, 1, 2] sampleRules

/-- The rule book handed to the sample call. -/
def sampleBook : RuleBook :=
  { W_ := 3, rules := [] }

/-- A first layer over `ℤ` with `nIn = nOut = 1`, a `1 × 1` kernel and bias enabled, whose
weight and bias have been set to zero. -/
def zeroLayer : AsynSparseConvolution2D ℤ :=
  setParameters (construct 2 1 1 1 true true) [0] [[0]]

/-- A builder that marks pixel 0 `NEW_ACTIVE` and answers with the single rule `(0, 0)`. -/
def activatingBuilder : RuleBookBuilder :=
  scriptedBuilder [Site.NEW_ACTIVE, Site.INACTIVE, Site.INACTIVE, Site.INACTIVE] [0] [[(0, 0)]]

/-- A call on a `2 × 2` image that touches pixel `(0, 0)`. -/
def touchCall : Call ℤ :=
  { update_location := [(0, 0)]
    input_feature_map := [[5], [0], [0], [0]]
    active_sites_map := [Site.ACTIVE, Site.INACTIVE, Site.INACTIVE, Site.INACTIVE]
    rule_book := { W_ := 2, rules := [] }
    no_update_locations := false }

/-- The layer of the concrete scenario: `dimension = 2`, `nIn = nOut = 1`,
`filter_size = 1`, first layer, `weights = [[2]]`, `bias = [0]`, buffers freshly allocated
for `H = W = 2`. -/
def scenarioLayer (use_bias : Bool) : AsynSparseConvolution2D R :=
  initMaps (setParameters (construct 2 1 1 1 true use_bias) [0] [[2]]) 2 2

/-- The feature map of the concrete scenario, one row per pixel. -/
def scenarioInput : List (List R) :=
  [[5], [0], [0], [0]]

/-- A downstream layer over `ℤ` with one pixel, `nIn = nOut = 1`, zero weight and bias
`[1]` enabled, on freshly allocated buffers. -/
def biasLayer : AsynSparseConvolution2D ℤ :=
  initMaps (setParameters (construct 2 1 1 1 false true) [1] [[0]]) 1 1

/-- A first layer over `ℤ` on a `1 × 2` image with `nIn = nOut = 1`, a `1 × 1` kernel,
weight `2` and bias `[1]`, on freshly allocated buffers. -/
def pairLayer : AsynSparseConvolution2D ℤ :=
  initMaps (setParameters (construct 2 1 1 1 true true) [1] [[2]]) 1 2

/-- The receptive-field relation of a `1 × 1` kernel on two pixels. -/
def pairField : RuleBook :=
  { W_ := 2, rules := [[(0, 0), (1, 1)]] }

/-- A builder for the two-pixel image: asked about pixel 0 alone it activates pixel 0,
asked about pixel 1 alone it activates pixel 1 and keeps pixel 0 active, asked about
both it activates both. -/
def pairBuilder : RuleBookBuilder :=
  { initialise := fun rb _ W _ _ => { rb with W_ := W }
    updateRulebooks := fun _ _ update_indices _ rb =>
      if update_indices = [0] then
        ([Site.NEW_ACTIVE, Site.INACTIVE], [0], { rb with rules := [[(0, 0)]] })
      else if update_indices = [1] then
        ([Site.ACTIVE, Site.NEW_ACTIVE], [1], { rb with rules := [[(1, 1)]] })
      else ([Site.NEW_ACTIVE, Site.NEW_ACTIVE], [0, 1], { rb with rules := [[(0, 0), (1, 1)]] }) }

/-- A downstream layer over `ℤ` with two kernel offsets (`dimension = 1`,
`filter_size = 2`), `nIn = nOut = 1`, bias enabled and three pixels, in the middle of a
stream. -/
def orderLayer : AsynSparseConvolution2D ℤ :=
  { initMaps (setParameters (construct 1 1 1 2 false true) [1] [[2], [3]]) 1 3 with
    old_input_feature_map_ := [[1], [0], [2]]
    output_feature_map_ := [[5], [6], [7]] }

/-- Rules for the two offsets of `orderLayer`. -/
def orderRules : List (List (Nat × Nat)) :=
  [[(0, 0), (1, 0), (2, 1)], [(0, 1), (1, 2)]]

/-- The rules of `orderRules` in another order inside each offset. -/
def orderRulesPermuted : List (List (Nat × Nat)) :=
  [[(2, 1), (0, 0), (1, 0)], [(1, 2), (0, 1)]]

end Embedding

/-! ## Lemmas on the buffer primitives -/

section BufferLemmas

variable {R : Type}

theorem rowAt_of_length_le (m : List (List R)) (o : Nat) (h : m.length ≤ o) :
    rowAt m o = [] := by
  simp [rowAt, List.getD_eq_getElem?_getD, List.getElem?_eq_none h]

theorem rowAt_mem (m : List (List R)) (o : Nat) (h : o < m.length) : rowAt m o ∈ m := by
  simp [rowAt, List.getD_eq_getElem?_getD, List.getElem?_eq_getElem h, List.getElem_mem]

theorem rowAt_set (m : List (List R)) (i o : Nat) (r : List R) :
    rowAt (m.set i r) o = if i = o ∧ i < m.length then r else rowAt m o := by
  unfold rowAt
  rw [List.getD_eq_getElem?_getD, List.getD_eq_getElem?_getD, List.getElem?_set]
  by_cases hio : i = o
  · subst hio
    by_cases hi : i < m.length
    · simp [hi]
    · simp [hi, List.getElem?_eq_none (Nat.le_of_not_lt hi)]
  · simp [hio]

theorem rowAt_length_of_shape (m : List (List R)) (n o : Nat) (hm : RowsHaveLength m n)
    (h : o < m.length) : (rowAt m o).length = n :=
  hm _ (rowAt_mem m o h)

theorem rowAt_setEntry (m : List (List R)) (i j o : Nat) (x : R) :
    rowAt (setEntry m i j x) o = if i = o then (rowAt m o).set j x else rowAt m o := by
  unfold setEntry
  rw [rowAt_set]
  by_cases hio : i = o
  · subst hio
    by_cases hi : i < m.length
    · simp [hi]
    · simp [hi, rowAt_of_length_le m i (Nat.le_of_not_lt hi)]
  · simp [hio]

theorem length_setEntry (m : List (List R)) (i j : Nat) (x : R) :
    (setEntry m i j x).length = m.length := by
  simp [setEntry]

/-- Two buffers with the same number of rows and the same rows are equal. -/
theorem buffer_ext (m1 m2 : List (List R)) (hlen : m1.length = m2.length)
    (hrows : ∀ o, o < m1.length → rowAt m1 o = rowAt m2 o) : m1 = m2 := by
  apply List.ext_getElem?
  intro o
  by_cases ho : o < m1.length
  · have ho2 : o < m2.length := hlen ▸ ho
    have := hrows o ho
    simp only [rowAt, List.getD_eq_getElem?_getD, List.getElem?_eq_getElem ho,
      List.getElem?_eq_getElem ho2, Option.getD_some] at this
    rw [List.getElem?_eq_getElem ho, List.getElem?_eq_getElem ho2, this]
  · rw [List.getElem?_eq_none (by omega), List.getElem?_eq_none (by omega)]

theorem siteAt_ne_of_forall (cs : List Site) (s0 : Site) (h0 : s0 ≠ Site.INACTIVE)
    (hc : ∀ s ∈ cs, s ≠ s0) (o : Nat) : siteAt cs o ≠ s0 := by
  unfold siteAt
  rw [List.getD_eq_getElem?_getD]
  cases hget : cs[o]? with
  | none => exact fun h => h0 h.symm
  | some s => exact hc s (List.mem_iff_getElem?.mpr ⟨o, hget⟩)

theorem rowsHaveLength_of_rowAt (m : List (List R)) (n : Nat)
    (h : ∀ o, o < m.length → (rowAt m o).length = n) : RowsHaveLength m n := by
  intro row hrow
  obtain ⟨o, ho, rfl⟩ := List.getElem_of_mem hrow
  have := h o ho
  simpa [rowAt, List.getD_eq_getElem?_getD, List.getElem?_eq_getElem ho] using this

theorem rowAt_length_of_rows (m1 m2 : List (List R)) (n : Nat) (hlen : m1.length = m2.length)
    (h1 : RowsHaveLength m1 n) (h2 : RowsHaveLength m2 n) (i : Nat) :
    (rowAt m1 i).length = (rowAt m2 i).length := by
  by_cases hi : i < m1.length
  · rw [rowAt_length_of_shape m1 n i h1 hi, rowAt_length_of_shape m2 n i h2 (hlen ▸ hi)]
  · rw [rowAt_of_length_le m1 i (Nat.le_of_not_lt hi),
      rowAt_of_length_le m2 i (hlen ▸ Nat.le_of_not_lt hi)]

end BufferLemmas

section Lemmas

variable {R : Type} [LinearOrderedCommRing R]

theorem vadd_nil (v : List R) : vadd ([] : List R) v = [] := by
  simp [vadd]

theorem length_vadd (a b : List R) (h : a.length = b.length) : (vadd a b).length = a.length := by
  simp [vadd, List.length_zipWith, h]

theorem chan_vadd (a b : List R) (h : a.length = b.length) (j : Nat) :
    chan (vadd a b) j = chan a j + chan b j := by
  unfold chan vadd
  rw [List.getD_eq_getElem?_getD, List.getD_eq_getElem?_getD, List.getD_eq_getElem?_getD,
    List.getElem?_zipWith]
  by_cases hj : j < a.length
  · have hj2 : j < b.length := h ▸ hj
    simp [List.getElem?_eq_getElem hj, List.getElem?_eq_getElem hj2]
  · have hj1 : a.length ≤ j := Nat.le_of_not_lt hj
    have hj2 : b.length ≤ j := h ▸ hj1
    simp [List.getElem?_eq_none hj1, List.getElem?_eq_none hj2]

theorem length_matVec (matrix : List (List R)) (v : List R) :
    (matVec matrix v).length = matrix.length := by
  simp [matVec]

theorem length_reshaped (v : List R) (nRows nCols : Nat) :
    (reshaped v nRows nCols).length = nRows := by
  simp [reshaped]

theorem length_weightBlock (L : AsynSparseConvolution2D R) (k : Nat) :
    (weightBlock L k).length = L.nOut_ := by
  simp [weightBlock, length_reshaped]

theorem rowAt_addToRow (m : List (List R)) (i o : Nat) (v : List R) :
    rowAt (addToRow m i v) o = if i = o then vadd (rowAt m o) v else rowAt m o := by
  unfold addToRow
  rw [rowAt_set]
  by_cases hio : i = o
  · subst hio
    by_cases hi : i < m.length
    · simp [hi]
    · simp [hi, rowAt_of_length_le m i (Nat.le_of_not_lt hi), vadd_nil]
  · simp [hio]

theorem length_addToRow (m : List (List R)) (i : Nat) (v : List R) :
    (addToRow m i v).length = m.length := by
  simp [addToRow]

/-! ## Lemmas on the accumulation loop -/

theorem accumulateKernel_eq_foldl (L : AsynSparseConvolution2D R)
    (input_feature_map : List (List R)) (c : List Site) (rule_book : RuleBook)
    (out : List (List R)) (k : Nat) :
    accumulateKernel L input_feature_map c rule_book out k =
      (rule_book.getRules k).foldl
        (accumulateRule L input_feature_map c (weightBlock L k)) out := by
  unfold accumulateKernel RuleBook.nrules
  by_cases h : (rule_book.getRules k).length = 0
  · rw [if_pos h, List.length_eq_zero.mp h]
    rfl
  · rw [if_neg h]

theorem length_foldl_accumulateRule (L : AsynSparseConvolution2D R)
    (input_feature_map : List (List R)) (c : List Site) (matrix : List (List R))
    (rules : List (Nat × Nat)) (out : List (List R)) :
    (rules.foldl (accumulateRule L input_feature_map c matrix) out).length = out.length := by
  induction rules generalizing out with
  | nil => rfl
  | cons rule rest ih =>
    rw [List.foldl_cons, ih]
    simp [accumulateRule, length_addToRow]

theorem length_accumulate_kernels (L : AsynSparseConvolution2D R)
    (input_feature_map : List (List R)) (c : List Site) (rule_book : RuleBook)
    (ks : List Nat) (out : List (List R)) :
    (ks.foldl (accumulateKernel L input_feature_map c rule_book) out).length = out.length := by
  induction ks generalizing out with
  | nil => rfl
  | cons k rest ih =>
    rw [List.foldl_cons, ih, accumulateKernel_eq_foldl, length_foldl_accumulateRule]

/-- Row `o` after the rules of one kernel offset: one summand per rule whose output is `o`. -/
theorem rowAt_foldl_accumulateRule (L : AsynSparseConvolution2D R)
    (input_feature_map : List (List R)) (c : List Site) (matrix : List (List R)) (n o : Nat)
    (hm : matrix.length = n) (rules : List (Nat × Nat)) (out : List (List R))
    (hrow : (rowAt out o).length = n) :
    (rowAt (rules.foldl (accumulateRule L input_feature_map c matrix) out) o).length = n ∧
    ∀ j, chan (rowAt (rules.foldl (accumulateRule L input_feature_map c matrix) out) o) j =
      chan (rowAt out o) j +
        ((rules.filter fun rule => decide (rule.2 = o)).map fun rule =>
          chan (matVec matrix (deltaFeature L input_feature_map c rule)) j).sum := by
  induction rules generalizing out with
  | nil => exact ⟨hrow, fun j => by simp⟩
  | cons rule rest ih =>
    rw [List.foldl_cons]
    have hv : (rowAt out o).length =
        (matVec matrix (deltaFeature L input_feature_map c rule)).length := by
      rw [length_matVec, hrow, hm]
    by_cases ho : rule.2 = o
    · have hstep : rowAt (accumulateRule L input_feature_map c matrix out rule) o =
          vadd (rowAt out o) (matVec matrix (deltaFeature L input_feature_map c rule)) := by
        simp [accumulateRule, rowAt_addToRow, ho]
      have hlen : (rowAt (accumulateRule L input_feature_map c matrix out rule) o).length = n := by
        rw [hstep, length_vadd _ _ hv, hrow]
      obtain ⟨h1, h2⟩ := ih (accumulateRule L input_feature_map c matrix out rule) hlen
      refine ⟨h1, fun j => ?_⟩
      rw [h2 j, hstep, chan_vadd _ _ hv, List.filter_cons_of_pos (by simpa using ho),
        List.map_cons, List.sum_cons, add_assoc]
    · have hstep : rowAt (accumulateRule L input_feature_map c matrix out rule) o =
          rowAt out o := by
        simp [accumulateRule, rowAt_addToRow, ho]
      obtain ⟨h1, h2⟩ := ih (accumulateRule L input_feature_map c matrix out rule)
        (by rw [hstep, hrow])
      refine ⟨h1, fun j => ?_⟩
      rw [h2 j, hstep, List.filter_cons_of_neg (by simpa using ho)]

/-- Row `o` after the loop over a list of kernel offsets. -/
theorem rowAt_foldl_accumulateKernel (L : AsynSparseConvolution2D R)
    (input_feature_map : List (List R)) (c : List Site) (rule_book : RuleBook) (o : Nat)
    (ks : List Nat) (out : List (List R)) (hrow : (rowAt out o).length = L.nOut_) :
    (rowAt (ks.foldl (accumulateKernel L input_feature_map c rule_book) out) o).length
        = L.nOut_ ∧
    ∀ j, chan (rowAt (ks.foldl (accumulateKernel L input_feature_map c rule_book) out) o) j =
      chan (rowAt out o) j +
        (ks.map fun k =>
          (((rule_book.getRules k).filter fun rule => decide (rule.2 = o)).map fun rule =>
            chan (matVec (weightBlock L k) (deltaFeature L input_feature_map c rule))
              j).sum).sum := by
  induction ks generalizing out with
  | nil => exact ⟨hrow, fun j => by simp⟩
  | cons k rest ih =>
    rw [List.foldl_cons, accumulateKernel_eq_foldl]
    obtain ⟨a1, a2⟩ := rowAt_foldl_accumulateRule L input_feature_map c (weightBlock L k)
      L.nOut_ o (length_weightBlock L k) (rule_book.getRules k) out hrow
    obtain ⟨h1, h2⟩ := ih _ a1
    refine ⟨h1, fun j => ?_⟩
    rw [h2 j, a2 j, List.map_cons, List.sum_cons, add_assoc]

/-- The accumulated row of a pixel whose rules all contribute the row `d i`. -/
theorem rowAt_accumulate (L : AsynSparseConvolution2D R) (input_feature_map : List (List R))
    (c : List Site) (rule_book : RuleBook) (o : Nat) (d : Nat → List R)
    (hrow : (rowAt L.output_feature_map_ o).length = L.nOut_)
    (hd : ∀ rule : Nat × Nat, rule.2 = o →
      deltaFeature L input_feature_map c rule = d rule.1) :
    (rowAt (accumulate L input_feature_map c rule_book) o).length = L.nOut_ ∧
    ∀ j, chan (rowAt (accumulate L input_feature_map c rule_book) o) j =
      chan (rowAt L.output_feature_map_ o) j + ruleSum L rule_book d o j := by
  obtain ⟨h1, h2⟩ := rowAt_foldl_accumulateKernel L input_feature_map c rule_book o
    (List.range L.filter_volume_) L.output_feature_map_ hrow
  refine ⟨h1, fun j => ?_⟩
  unfold accumulate ruleSum
  rw [h2 j]
  congr 2
  apply List.map_congr_left
  intro k _
  congr 1
  apply List.map_congr_left
  intro rule hrule
  rw [hd rule (by simpa using (List.mem_filter.mp hrule).2)]

/-! ## Lemmas on the final loop -/

theorem rowAt_foldl_setEntry (i o n : Nat) (m : List (List R)) :
    rowAt ((List.range n).foldl (fun m j => setEntry m i j 0) m) o =
      if i = o then (List.range n).foldl (fun r j => r.set j 0) (rowAt m o) else rowAt m o := by
  induction n with
  | zero => simp
  | succ n ih =>
    rw [List.range_succ, List.foldl_append, List.foldl_append]
    simp only [List.foldl_cons, List.foldl_nil]
    rw [rowAt_setEntry, ih]
    by_cases hio : i = o <;> simp [hio]

theorem length_foldl_setEntry (i n : Nat) (m : List (List R)) :
    ((List.range n).foldl (fun m j => setEntry m i j 0) m).length = m.length := by
  induction n with
  | zero => simp
  | succ n ih =>
    rw [List.range_succ, List.foldl_append]
    simp only [List.foldl_cons, List.foldl_nil]
    rw [length_setEntry, ih]

theorem getElem?_foldl_set_zero (n j : Nat) (row : List R) :
    ((List.range n).foldl (fun r j => r.set j 0) row)[j]? =
      if j < n then (if j < row.length then some 0 else none) else row[j]? := by
  induction n with
  | zero => simp
  | succ n ih =>
    rw [List.range_succ, List.foldl_append]
    simp only [List.foldl_cons, List.foldl_nil]
    have hlen : ∀ k, ((List.range k).foldl (fun r j => r.set j 0) row).length = row.length := by
      intro k
      induction k with
      | zero => simp
      | succ k ihk =>
        rw [List.range_succ, List.foldl_append]
        simp only [List.foldl_cons, List.foldl_nil]
        rw [List.length_set, ihk]
    rw [List.getElem?_set, hlen n, ih]
    by_cases hnj : n = j
    · subst hnj
      by_cases hl : n < row.length
      · simp [hl]
      · simp [hl]
    · by_cases h1 : j < n
      · have h2 : j < n + 1 := by omega
        simp [hnj, h1, h2]
      · have h2 : ¬ j < n + 1 := by omega
        simp [hnj, h1, h2]

/-- Zeroing the first `n` coefficients of a row of length `n` gives the zero row. -/
theorem foldl_set_zero_eq_replicate (n : Nat) (row : List R) (h : row.length = n) :
    (List.range n).foldl (fun r j => r.set j 0) row = List.replicate n 0 := by
  apply List.ext_getElem?
  intro j
  rw [getElem?_foldl_set_zero, List.getElem?_replicate, h]
  by_cases hj : j < n
  · simp [hj]
  · simp [hj, List.getElem?_eq_none (by omega : row.length ≤ j)]

theorem rowAt_resetBiasPixel (L : AsynSparseConvolution2D R) (c : List Site)
    (out : List (List R)) (i o : Nat) :
    rowAt (resetBiasPixel L c out i) o =
      if i = o then resetBiasRow L (siteAt c i) (rowAt out o) else rowAt out o := by
  unfold resetBiasPixel resetBiasRow
  generalize siteAt c i = s
  generalize (L.use_bias_ && decide (s = Site.NEW_ACTIVE)) = b
  by_cases hio : i = o
  · subst hio
    cases b <;> by_cases hs : s = Site.NEW_INACTIVE <;>
      simp [hs, rowAt_addToRow, rowAt_foldl_setEntry]
  · cases b <;> by_cases hs : s = Site.NEW_INACTIVE <;>
      simp [hs, hio, rowAt_addToRow, rowAt_foldl_setEntry]

theorem length_resetBiasPixel (L : AsynSparseConvolution2D R) (c : List Site)
    (out : List (List R)) (i : Nat) :
    (resetBiasPixel L c out i).length = out.length := by
  unfold resetBiasPixel
  generalize siteAt c i = s
  generalize (L.use_bias_ && decide (s = Site.NEW_ACTIVE)) = b
  cases b <;> by_cases hs : s = Site.NEW_INACTIVE <;>
    simp [hs, length_addToRow, length_foldl_setEntry]

theorem rowAt_foldl_resetBiasPixel (L : AsynSparseConvolution2D R) (c : List Site)
    (out : List (List R)) (o n : Nat) :
    rowAt ((List.range n).foldl (resetBiasPixel L c) out) o =
      if o < n then resetBiasRow L (siteAt c o) (rowAt out o) else rowAt out o := by
  induction n with
  | zero => simp
  | succ n ih =>
    rw [List.range_succ, List.foldl_append]
    simp only [List.foldl_cons, List.foldl_nil]
    rw [rowAt_resetBiasPixel, ih]
    by_cases hno : n = o
    · subst hno
      simp
    · by_cases h1 : o < n
      · have h2 : o < n + 1 := by omega
        simp [hno, h1, h2]
      · have h2 : ¬ o < n + 1 := by omega
        simp [hno, h1, h2]

/-- Row `o` after the final loop. -/
theorem rowAt_resetAndBias (L : AsynSparseConvolution2D R) (c : List Site)
    (out : List (List R)) (o : Nat) :
    rowAt (resetAndBias L c out) o =
      if o < c.length then resetBiasRow L (siteAt c o) (rowAt out o) else rowAt out o :=
  rowAt_foldl_resetBiasPixel L c out o c.length

theorem length_resetAndBias (L : AsynSparseConvolution2D R) (c : List Site)
    (out : List (List R)) : (resetAndBias L c out).length = out.length := by
  unfold resetAndBias
  generalize c.length = n
  induction n with
  | zero => simp
  | succ n ih =>
    rw [List.range_succ, List.foldl_append]
    simp only [List.foldl_cons, List.foldl_nil]
    rw [length_resetBiasPixel, ih]

end Lemmas

/-! ## The update engine, pixel by pixel -/

section Engine

variable {R : Type} [LinearOrderedCommRing R]

/-- The engine's output buffer in terms of the rule-book step. -/
theorem forward_output (B : RuleBookBuilder) (L : AsynSparseConvolution2D R)
    (update_location : List (Int × Int)) (input_feature_map : List (List R))
    (active_sites_map : List Site) (rule_book : RuleBook) (no_update_locations : Bool)
    (c : List Site) (nl : List Int) (rb : RuleBook)
    (hstep : ruleBookStep B L update_location input_feature_map active_sites_map rule_book
      no_update_locations = (c, nl, rb)) :
    (forward B L update_location input_feature_map active_sites_map rule_book
      no_update_locations).2.2.output_feature_map =
      resetAndBias L c (accumulate L input_feature_map c rb) := by
  simp [forward, hstep]

/-- The engine persists the buffer it returns. -/
theorem forward_persisted (B : RuleBookBuilder) (L : AsynSparseConvolution2D R)
    (update_location : List (Int × Int)) (input_feature_map : List (List R))
    (active_sites_map : List Site) (rule_book : RuleBook) (no_update_locations : Bool) :
    (forward B L update_location input_feature_map active_sites_map rule_book
      no_update_locations).1.output_feature_map_ =
    (forward B L update_location input_feature_map active_sites_map rule_book
      no_update_locations).2.2.output_feature_map := by
  simp [forward]

/-- The row of a steady pixel in terms of the block products: with `c` the classification
and `rb` the rule book after the rule-book step, a pixel `o` classified `ACTIVE` or
`INACTIVE` has, in every channel, returned output = persisted output + the sum over the
kernel offsets `k` and the rules `(i, o)` of offset `k` of the block product with the
difference row; the row keeps its `nOut_` coefficients, and it is the persisted row when
no rule has output `o`. -/
theorem steady_pixel_ruleSum (B : RuleBookBuilder) (L : AsynSparseConvolution2D R)
    (update_location : List (Int × Int)) (input_feature_map : List (List R))
    (active_sites_map : List Site) (rule_book : RuleBook) (no_update_locations : Bool)
    (c : List Site) (nl : List Int) (rb : RuleBook) (o : Nat)
    (hstep : ruleBookStep B L update_location input_feature_map active_sites_map rule_book
      no_update_locations = (c, nl, rb))
    (_hrange : RulesInRange L input_feature_map c rb)
    (hshape : RowsHaveLength L.output_feature_map_ L.nOut_)
    (ho : o < L.output_feature_map_.length)
    (hc : siteAt c o = Site.ACTIVE ∨ siteAt c o = Site.INACTIVE) :
    (rowAt (forward B L update_location input_feature_map active_sites_map rule_book
        no_update_locations).2.2.output_feature_map o).length = L.nOut_ ∧
    (∀ j, chan (rowAt (forward B L update_location input_feature_map active_sites_map
        rule_book no_update_locations).2.2.output_feature_map o) j =
      chan (rowAt L.output_feature_map_ o) j +
        ruleSum L rb
          (fun i => vsub (rowAt input_feature_map i) (rowAt L.old_input_feature_map_ i)) o j) ∧
    ((∀ k, k < L.filter_volume_ → ∀ rule ∈ rb.getRules k, rule.2 ≠ o) →
      rowAt (forward B L update_location input_feature_map active_sites_map rule_book
        no_update_locations).2.2.output_feature_map o = rowAt L.output_feature_map_ o) := by
  have hne : siteAt c o ≠ Site.NEW_ACTIVE := by
    rcases hc with h | h <;> simp [h]
  have hni : siteAt c o ≠ Site.NEW_INACTIVE := by
    rcases hc with h | h <;> simp [h]
  have hrow := rowAt_length_of_shape _ _ o hshape ho
  have hfin : rowAt (forward B L update_location input_feature_map active_sites_map rule_book
      no_update_locations).2.2.output_feature_map o =
      rowAt (accumulate L input_feature_map c rb) o := by
    rw [forward_output B L _ _ _ _ _ c nl rb hstep, rowAt_resetAndBias]
    simp [resetBiasRow, hne, hni]
  obtain ⟨h1, h2⟩ := rowAt_accumulate L input_feature_map c rb o
    (fun i => vsub (rowAt input_feature_map i) (rowAt L.old_input_feature_map_ i)) hrow
    (by
      intro rule hr
      simp [deltaFeature, hr, hne])
  rw [hfin]
  refine ⟨h1, h2, fun hno => ?_⟩
  apply List.ext_getElem?
  intro j
  have hsum : ruleSum L rb
      (fun i => vsub (rowAt input_feature_map i) (rowAt L.old_input_feature_map_ i)) o j = 0 := by
    unfold ruleSum
    apply List.sum_eq_zero
    intro x hx
    obtain ⟨k, hk, rfl⟩ := List.mem_map.mp hx
    have hk' : k < L.filter_volume_ := List.mem_range.mp hk
    have : (rb.getRules k).filter (fun rule => decide (rule.2 = o)) = [] := by
      apply List.filter_eq_nil_iff.mpr
      intro rule hrule
      simpa using hno k hk' rule hrule
    simp [this]
  have h3 := h2 j
  rw [hsum, add_zero] at h3
  by_cases hj : j < L.nOut_
  · have ha : j < (rowAt (accumulate L input_feature_map c rb) o).length := h1 ▸ hj
    have hb : j < (rowAt L.output_feature_map_ o).length := hrow ▸ hj
    simp only [chan, List.getD_eq_getElem?_getD, List.getElem?_eq_getElem ha,
      List.getElem?_eq_getElem hb, Option.getD_some] at h3
    rw [List.getElem?_eq_getElem ha, List.getElem?_eq_getElem hb, h3]
  · rw [List.getElem?_eq_none (by omega), List.getElem?_eq_none (by omega)]

/-- The rule-book step does not look at the bias or at `use_bias_`. -/
theorem ruleBookStep_bias (B : RuleBookBuilder) (L : AsynSparseConvolution2D R)
    (update_location : List (Int × Int)) (input_feature_map : List (List R))
    (active_sites_map : List Site) (rule_book : RuleBook) (no_update_locations : Bool)
    (bias : List R) (use_bias : Bool) :
    ruleBookStep B { L with bias_ := bias, use_bias_ := use_bias } update_location
      input_feature_map active_sites_map rule_book no_update_locations =
    ruleBookStep B L update_location input_feature_map active_sites_map rule_book
      no_update_locations := by
  simp [ruleBookStep, boolNewActiveSite, zeroInputUpdate]

/-- The accumulation loop does not look at the bias or at `use_bias_`. -/
theorem accumulate_bias (L : AsynSparseConvolution2D R) (input_feature_map : List (List R))
    (c : List Site) (rb : RuleBook) (bias : List R) (use_bias : Bool) :
    accumulate { L with bias_ := bias, use_bias_ := use_bias } input_feature_map c rb =
      accumulate L input_feature_map c rb := by
  have hk : accumulateKernel { L with bias_ := bias, use_bias_ := use_bias }
      input_feature_map c rb = accumulateKernel L input_feature_map c rb := by
    funext out k
    rfl
  unfold accumulate
  rw [hk]

/-- C2. Full contribution and bias on activation: a pixel `o` classified `NEW_ACTIVE`
after the rule-book step has, in every channel, returned output = persisted output + the
sum over the kernel offsets `k` and the rules `(i, o)` of offset `k` of `W_k * input[i]`
(nothing subtracted) + the bias when `use_bias_` holds; and the returned row of a pixel
that is not `NEW_ACTIVE` is the same whatever the bias vector and the bias flag are. -/
theorem full_contribution_and_bias (B : RuleBookBuilder) (L : AsynSparseConvolution2D R)
    (update_location : List (Int × Int)) (input_feature_map : List (List R))
    (active_sites_map : List Site) (rule_book : RuleBook) (no_update_locations : Bool)
    (c : List Site) (nl : List Int) (rb : RuleBook) (o : Nat)
    (hstep : ruleBookStep B L update_location input_feature_map active_sites_map rule_book
      no_update_locations = (c, nl, rb))
    (_hrange : RulesInRange L input_feature_map c rb)
    (hshape : RowsHaveLength L.output_feature_map_ L.nOut_)
    (hbias : L.use_bias_ = true → L.bias_.length = L.nOut_)
    (ho : o < L.output_feature_map_.length)
    (hc : siteAt c o = Site.NEW_ACTIVE) :
    (rowAt (forward B L update_location input_feature_map active_sites_map rule_book
        no_update_locations).2.2.output_feature_map o).length = L.nOut_ ∧
    (∀ j, chan (rowAt (forward B L update_location input_feature_map active_sites_map
        rule_book no_update_locations).2.2.output_feature_map o) j =
      chan (rowAt L.output_feature_map_ o) j +
        ruleSum L rb (fun i => rowAt input_feature_map i) o j +
        (if L.use_bias_ = true then chan L.bias_ j else 0)) ∧
    (∀ (p : Nat) (bias : List R) (use_bias : Bool), siteAt c p ≠ Site.NEW_ACTIVE →
      rowAt (forward B { L with bias_ := bias, use_bias_ := use_bias } update_location
        input_feature_map active_sites_map rule_book
        no_update_locations).2.2.output_feature_map p =
      rowAt (forward B L update_location input_feature_map active_sites_map rule_book
        no_update_locations).2.2.output_feature_map p) := by
  have hrow := rowAt_length_of_shape _ _ o hshape ho
  have hoc : o < c.length := by
    by_contra hlt
    have : siteAt c o = Site.INACTIVE := by
      simp [siteAt, List.getD_eq_getElem?_getD, List.getElem?_eq_none (Nat.le_of_not_lt hlt)]
    rw [this] at hc
    exact absurd hc (by decide)
  obtain ⟨h1, h2⟩ := rowAt_accumulate L input_feature_map c rb o
    (fun i => rowAt input_feature_map i) hrow
    (by
      intro rule hr
      simp [deltaFeature, hr, hc])
  have hfin : rowAt (forward B L update_location input_feature_map active_sites_map rule_book
      no_update_locations).2.2.output_feature_map o =
      if L.use_bias_ = true then vadd (rowAt (accumulate L input_feature_map c rb) o) L.bias_
      else rowAt (accumulate L input_feature_map c rb) o := by
    rw [forward_output B L _ _ _ _ _ c nl rb hstep, rowAt_resetAndBias]
    simp [resetBiasRow, hc, hoc]
  refine ⟨?_, ?_, ?_⟩
  · rw [hfin]
    by_cases hb : L.use_bias_ = true
    · rw [if_pos hb, length_vadd _ _ (by rw [h1, hbias hb]), h1]
    · rw [if_neg hb, h1]
  · intro j
    rw [hfin]
    by_cases hb : L.use_bias_ = true
    · rw [if_pos hb, if_pos hb, chan_vadd _ _ (by rw [h1, hbias hb]), h2 j]
    · rw [if_neg hb, if_neg hb, h2 j, add_zero]
  · intro p bias use_bias hp
    have hstep2 := ruleBookStep_bias B L update_location input_feature_map active_sites_map
      rule_book no_update_locations bias use_bias
    rw [hstep] at hstep2
    rw [forward_output B _ _ _ _ _ _ c nl rb hstep2,
      forward_output B L _ _ _ _ _ c nl rb hstep, rowAt_resetAndBias, rowAt_resetAndBias,
      accumulate_bias]
    simp [resetBiasRow, hp]

/-- Full contribution and bias at pixel 1 (classified `NEW_ACTIVE`) of the sample call. -/
theorem full_contribution_and_bias_witness :
    (rowAt (forward sampleBuilder sampleLayer [(0, 1)] sampleInput
        [Site.ACTIVE, Site.ACTIVE, Site.ACTIVE] sampleBook false).2.2.output_feature_map
        1).length = 2 ∧
    (∀ j, chan (rowAt (forward sampleBuilder sampleLayer [(0, 1)] sampleInput
        [Site.ACTIVE, Site.ACTIVE, Site.ACTIVE] sampleBook false).2.2.output_feature_map 1) j =
      chan (rowAt sampleLayer.output_feature_map_ 1) j +
        ruleSum sampleLayer { W_ := 3, rules := sampleRules }
          (fun i => rowAt sampleInput i) 1 j +
        (if sampleLayer.use_bias_ = true then chan sampleLayer.bias_ j else 0)) ∧
    (∀ (p : Nat) (bias : List ℤ) (use_bias : Bool), siteAt sampleSites p ≠ Site.NEW_ACTIVE →
      rowAt (forward sampleBuilder { sampleLayer with bias_ := bias, use_bias_ := use_bias }
        [(0, 1)] sampleInput [Site.ACTIVE, Site.ACTIVE, Site.ACTIVE] sampleBook
        false).2.2.output_feature_map p =
      rowAt (forward sampleBuilder sampleLayer [(0, 1)] sampleInput
        [Site.ACTIVE, Site.ACTIVE, Site.ACTIVE] sampleBook false).2.2.output_feature_map p) :=
  full_contribution_and_bias sampleBuilder sampleLayer [(0, 1)] sampleInput
    [Site.ACTIVE, Site.ACTIVE, Site.ACTIVE] sampleBook false sampleSites [0, 1, 2]
    { W_ := 3, rules := sampleRules } 1 (by decide) (by decide) (by decide) (by decide)
    (by decide) (by decide)

/-- C3. Deactivation zeroing: a pixel `o` classified `NEW_INACTIVE` after the rule-book
step has the zero row of `nOut_` coefficients in the returned and in the persisted output,
whatever was accumulated before, whatever the rules are and whatever the bias flag is. -/
theorem deactivation_zeroing (B : RuleBookBuilder) (L : AsynSparseConvolution2D R)
    (update_location : List (Int × Int)) (input_feature_map : List (List R))
    (active_sites_map : List Site) (rule_book : RuleBook) (no_update_locations : Bool)
    (c : List Site) (nl : List Int) (rb : RuleBook) (o : Nat)
    (hstep : ruleBookStep B L update_location input_feature_map active_sites_map rule_book
      no_update_locations = (c, nl, rb))
    (hshape : RowsHaveLength L.output_feature_map_ L.nOut_)
    (ho : o < L.output_feature_map_.length)
    (hc : siteAt c o = Site.NEW_INACTIVE) :
    rowAt (forward B L update_location input_feature_map active_sites_map rule_book
        no_update_locations).2.2.output_feature_map o = List.replicate L.nOut_ 0 ∧
    rowAt (forward B L update_location input_feature_map active_sites_map rule_book
        no_update_locations).1.output_feature_map_ o = List.replicate L.nOut_ 0 := by
  have hrow := rowAt_length_of_shape _ _ o hshape ho
  have hoc : o < c.length := by
    by_contra hlt
    have : siteAt c o = Site.INACTIVE := by
      simp [siteAt, List.getD_eq_getElem?_getD, List.getElem?_eq_none (Nat.le_of_not_lt hlt)]
    rw [this] at hc
    exact absurd hc (by decide)
  have h1 := (rowAt_foldl_accumulateKernel L input_feature_map c rb o
    (List.range L.filter_volume_) L.output_feature_map_ hrow).1
  have hfin : rowAt (forward B L update_location input_feature_map active_sites_map rule_book
      no_update_locations).2.2.output_feature_map o = List.replicate L.nOut_ 0 := by
    rw [forward_output B L _ _ _ _ _ c nl rb hstep, rowAt_resetAndBias]
    simp only [hoc, if_true, resetBiasRow, hc]
    rw [accumulate, foldl_set_zero_eq_replicate _ _ h1]
    simp
  exact ⟨hfin, by rw [forward_persisted]; exact hfin⟩

/-- Zeroing at pixel 2 (classified `NEW_INACTIVE`) of the sample call. -/
theorem deactivation_zeroing_witness :
    rowAt (forward sampleBuilder sampleLayer [(0, 1)] sampleInput
        [Site.ACTIVE, Site.ACTIVE, Site.ACTIVE] sampleBook false).2.2.output_feature_map 2 =
      List.replicate sampleLayer.nOut_ 0 ∧
    rowAt (forward sampleBuilder sampleLayer [(0, 1)] sampleInput
        [Site.ACTIVE, Site.ACTIVE, Site.ACTIVE] sampleBook false).1.output_feature_map_ 2 =
      List.replicate sampleLayer.nOut_ 0 :=
  deactivation_zeroing sampleBuilder sampleLayer [(0, 1)] sampleInput
    [Site.ACTIVE, Site.ACTIVE, Site.ACTIVE] sampleBook false sampleSites [0, 1, 2]
    { W_ := 3, rules := sampleRules } 2 (by decide) (by decide) (by decide) (by decide)

/-! ## Weight layout -/

/-- Coefficient `(r, c)` of a reshaped row. -/
theorem chan_reshaped (v : List R) (nRows nCols r c : Nat) (hr : r < nRows) (hc : c < nCols) :
    chan (rowAt (reshaped v nRows nCols) r) c = chan v (r + c * nRows) := by
  simp [reshaped, rowAt, chan, List.getD_eq_getElem?_getD, List.getElem?_map,
    List.getElem?_range hr, List.getElem?_range hc]

/-- The row-major reading of the weight layout fails: with `nIn = nOut = 2` and the weight
row `[1, 2, 3, 4]`, coefficient `(0, 1)` of the block is `3`, while the row-major position
`0 * nIn + 1` of the weight row holds `2`. -/
theorem weight_layout_row_major_counterexample :
    ¬ (∀ r c, r < sampleLayer.nOut_ → c < sampleLayer.nIn_ →
        chan (rowAt (weightBlock sampleLayer 0) r) c =
          chan (rowAt sampleLayer.weights_ 0) (r * sampleLayer.nIn_ + c)) := by
  intro h
  exact absurd (h 0 1 (by decide) (by decide)) (by decide)

/-- C4 (amended). Weight layout: for every kernel offset `k` the block the engine
multiplies with has `nOut_` rows of `nIn_` coefficients and is the column-major reshape
of row `k` of `weights_`: `block[r][c] = weights[k][r + c * nOut]`. -/
theorem weight_layout_column_major (L : AsynSparseConvolution2D R) (k r c : Nat)
    (hr : r < L.nOut_) (hc : c < L.nIn_) :
    (weightBlock L k).length = L.nOut_ ∧
    (rowAt (weightBlock L k) r).length = L.nIn_ ∧
    chan (rowAt (weightBlock L k) r) c = chan (rowAt L.weights_ k) (r + c * L.nOut_) := by
  refine ⟨length_weightBlock L k, ?_, chan_reshaped _ _ _ r c hr hc⟩
  simp [weightBlock, reshaped, rowAt, List.getD_eq_getElem?_getD, List.getElem?_map,
    List.getElem?_range hr]

/-- The column-major layout at coefficient `(0, 1)` of the sample layer's block. -/
theorem weight_layout_column_major_witness :
    (weightBlock sampleLayer 0).length = sampleLayer.nOut_ ∧
    (rowAt (weightBlock sampleLayer 0) 0).length = sampleLayer.nIn_ ∧
    chan (rowAt (weightBlock sampleLayer 0) 0) 1 =
      chan (rowAt sampleLayer.weights_ 0) (0 + 1 * sampleLayer.nOut_) :=
  weight_layout_column_major sampleLayer 0 0 1 (by decide) (by decide)

/-! ## Calls that accumulate nothing -/

theorem vadd_replicate_zero (row : List R) (n : Nat) (h : row.length = n) :
    vadd row (List.replicate n 0) = row := by
  apply List.ext_getElem?
  intro j
  unfold vadd
  rw [List.getElem?_zipWith, List.getElem?_replicate]
  by_cases hj : j < n
  · have hj2 : j < row.length := h ▸ hj
    simp [hj, List.getElem?_eq_getElem hj2]
  · simp [hj, List.getElem?_eq_none (by omega : row.length ≤ j)]

theorem addToRow_replicate_zero (m : List (List R)) (n i : Nat) (hm : RowsHaveLength m n) :
    addToRow m i (List.replicate n 0) = m := by
  apply buffer_ext
  · exact length_addToRow m i _
  · intro o ho
    rw [length_addToRow] at ho
    rw [rowAt_addToRow]
    by_cases hio : i = o
    · rw [if_pos hio, vadd_replicate_zero _ _ (rowAt_length_of_shape m n o hm ho)]
    · rw [if_neg hio]

theorem foldl_accumulateRule_of_zero (L : AsynSparseConvolution2D R)
    (input_feature_map : List (List R)) (c : List Site) (matrix : List (List R)) (n : Nat)
    (rules : List (Nat × Nat)) (out : List (List R)) (hout : RowsHaveLength out n)
    (hz : ∀ rule ∈ rules,
      matVec matrix (deltaFeature L input_feature_map c rule) = List.replicate n 0) :
    rules.foldl (accumulateRule L input_feature_map c matrix) out = out := by
  induction rules with
  | nil => rfl
  | cons rule rest ih =>
    rw [List.foldl_cons]
    have h1 : accumulateRule L input_feature_map c matrix out rule = out := by
      unfold accumulateRule
      rw [hz rule (List.mem_cons_self _ _), addToRow_replicate_zero _ _ _ hout]
    rw [h1]
    exact ih (fun rule hr => hz rule (List.mem_cons_of_mem _ hr))

/-- When every rule contributes the zero row, the accumulation loop returns the persisted
buffer. -/
theorem accumulate_of_zero (L : AsynSparseConvolution2D R) (input_feature_map : List (List R))
    (c : List Site) (rb : RuleBook) (hout : RowsHaveLength L.output_feature_map_ L.nOut_)
    (hz : ∀ k, k < L.filter_volume_ → ∀ rule ∈ rb.getRules k,
      matVec (weightBlock L k) (deltaFeature L input_feature_map c rule) =
        List.replicate L.nOut_ 0) :
    accumulate L input_feature_map c rb = L.output_feature_map_ := by
  unfold accumulate
  have key : ∀ n, n ≤ L.filter_volume_ →
      (List.range n).foldl (accumulateKernel L input_feature_map c rb) L.output_feature_map_ =
        L.output_feature_map_ := by
    intro n
    induction n with
    | zero => intro _; rfl
    | succ n ih =>
      intro hn
      rw [List.range_succ, List.foldl_append, ih (by omega)]
      simp only [List.foldl_cons, List.foldl_nil]
      rw [accumulateKernel_eq_foldl]
      exact foldl_accumulateRule_of_zero L input_feature_map c _ L.nOut_ _ _ hout
        (hz n (by omega))
  exact key _ (Nat.le_refl _)

theorem dot_of_left_zero (row v : List R) (h : ∀ x ∈ row, x = 0) : dot row v = 0 := by
  unfold dot
  apply List.sum_eq_zero
  intro x hx
  obtain ⟨j, hj⟩ := List.mem_iff_getElem?.mp hx
  rw [List.getElem?_zipWith] at hj
  cases ha : row[j]? with
  | none => simp [ha] at hj
  | some a =>
    cases hb : v[j]? with
    | none => simp [ha, hb] at hj
    | some b =>
      simp [ha, hb] at hj
      have : a = 0 := h a (List.mem_iff_getElem?.mpr ⟨j, ha⟩)
      rw [← hj, this, zero_mul]

theorem dot_of_right_zero (row v : List R) (h : ∀ x ∈ v, x = 0) : dot row v = 0 := by
  unfold dot
  apply List.sum_eq_zero
  intro x hx
  obtain ⟨j, hj⟩ := List.mem_iff_getElem?.mp hx
  rw [List.getElem?_zipWith] at hj
  cases ha : row[j]? with
  | none => simp [ha] at hj
  | some a =>
    cases hb : v[j]? with
    | none => simp [ha, hb] at hj
    | some b =>
      simp [ha, hb] at hj
      have : b = 0 := h b (List.mem_iff_getElem?.mpr ⟨j, hb⟩)
      rw [← hj, this, mul_zero]

theorem matVec_of_dot_zero (matrix : List (List R)) (v : List R)
    (h : ∀ row ∈ matrix, dot row v = 0) : matVec matrix v = List.replicate matrix.length 0 := by
  unfold matVec
  apply List.ext_getElem?
  intro j
  rw [List.getElem?_map, List.getElem?_replicate]
  by_cases hj : j < matrix.length
  · simp [hj, List.getElem?_eq_getElem hj, h _ (List.getElem_mem hj)]
  · simp [hj, List.getElem?_eq_none (by omega : matrix.length ≤ j)]

/-- The block of a layer whose weights are all zero has only zero coefficients. -/
theorem weightBlock_zero (L : AsynSparseConvolution2D R) (hw : AllZero L.weights_) (k : Nat) :
    ∀ row ∈ weightBlock L k, ∀ x ∈ row, x = 0 := by
  intro row hrow x hx
  unfold weightBlock reshaped at hrow
  obtain ⟨r, _, rfl⟩ := List.mem_map.mp hrow
  obtain ⟨cc, _, rfl⟩ := List.mem_map.mp hx
  rw [List.getD_eq_getElem?_getD]
  cases hget : (rowAt L.weights_ k)[r + cc * L.nOut_]? with
  | none => rfl
  | some y =>
    have hy : y ∈ rowAt L.weights_ k := List.mem_iff_getElem?.mpr ⟨_, hget⟩
    by_cases hk : k < L.weights_.length
    · exact hw _ (rowAt_mem _ _ hk) y hy
    · rw [rowAt_of_length_le _ _ (Nat.le_of_not_lt hk)] at hy
      simp at hy

/-! ## Zero network -/

theorem rowAt_zeroMap (n m o : Nat) (ho : o < n) :
    rowAt (zeroMap n m : List (List R)) o = List.replicate m 0 := by
  simp [rowAt, zeroMap, List.getD_eq_getElem?_getD, List.getElem?_replicate, ho]

theorem rowsHaveLength_zeroMap (n m : Nat) : RowsHaveLength (zeroMap n m : List (List R)) m := by
  intro row hrow
  rw [zeroMap, List.mem_replicate] at hrow
  rw [hrow.2, List.length_replicate]

theorem resetBiasRow_replicate_zero (L : AsynSparseConvolution2D R) (s : Site)
    (hb : L.bias_ = List.replicate L.nOut_ 0) :
    resetBiasRow L s (List.replicate L.nOut_ 0) = List.replicate L.nOut_ 0 := by
  unfold resetBiasRow
  generalize (L.use_bias_ && decide (s = Site.NEW_ACTIVE)) = b
  have h0 : (List.range L.nOut_).foldl (fun r j => r.set j 0) (List.replicate L.nOut_ (0 : R))
      = List.replicate L.nOut_ 0 :=
    foldl_set_zero_eq_replicate _ _ (List.length_replicate _ _)
  have h1 : vadd (List.replicate L.nOut_ (0 : R)) L.bias_ = List.replicate L.nOut_ 0 := by
    rw [hb, vadd_replicate_zero _ _ (List.length_replicate _ _)]
  cases b <;> by_cases hs : s = Site.NEW_INACTIVE <;> simp [hs, h0, h1]

/-- One engine call of a zero network on a zero output buffer returns the zero buffer. -/
theorem forward_zero_network (B : RuleBookBuilder) (L : AsynSparseConvolution2D R) (n : Nat)
    (call : Call R) (hw : AllZero L.weights_) (hb : L.bias_ = List.replicate L.nOut_ 0)
    (hout : L.output_feature_map_ = zeroMap n L.nOut_) :
    (forward B L call.update_location call.input_feature_map call.active_sites_map
      call.rule_book call.no_update_locations).2.2.output_feature_map = zeroMap n L.nOut_ := by
  rw [forward_output B L _ _ _ _ _ _ _ _ rfl]
  have hacc : ∀ (c : List Site) (rb : RuleBook),
      accumulate L call.input_feature_map c rb = zeroMap n L.nOut_ := by
    intro c rb
    rw [accumulate_of_zero L _ c rb (hout ▸ rowsHaveLength_zeroMap n L.nOut_), hout]
    intro k _ rule _
    rw [matVec_of_dot_zero, length_weightBlock]
    intro row hrow
    exact dot_of_left_zero row _ (weightBlock_zero L hw k row hrow)
  rw [hacc]
  apply buffer_ext
  · rw [length_resetAndBias]
  · intro o ho
    rw [length_resetAndBias] at ho
    have ho' : o < n := by simpa [zeroMap] using ho
    rw [rowAt_resetAndBias, rowAt_zeroMap n _ o ho']
    split
    · rw [resetBiasRow_replicate_zero L _ hb]
    · rfl

/-- C5. Zero network: for a layer whose weights are all zero and whose bias is the zero
vector, started on freshly allocated buffers, after every sequence of engine calls (any
feature maps, update lists, classifications and rule books) the persisted output is the
zero buffer, and so is the output returned by any further call. -/
theorem zero_network (B : RuleBookBuilder) (L : AsynSparseConvolution2D R) (H W : Int)
    (calls : List (Call R)) (call : Call R)
    (hw : AllZero L.weights_) (hb : L.bias_ = List.replicate L.nOut_ 0)
    (hfresh : L.initialized_output_maps_ = false) :
    (runCalls B (initMaps L H W) calls).output_feature_map_ = zeroMap (H * W).toNat L.nOut_ ∧
    (forward B (runCalls B (initMaps L H W) calls) call.update_location
      call.input_feature_map call.active_sites_map call.rule_book
      call.no_update_locations).2.2.output_feature_map = zeroMap (H * W).toNat L.nOut_ := by
  have inv : ∀ (calls : List (Call R)) (L1 : AsynSparseConvolution2D R),
      AllZero L1.weights_ → L1.bias_ = List.replicate L1.nOut_ 0 → L1.nOut_ = L.nOut_ →
      L1.output_feature_map_ = zeroMap (H * W).toNat L.nOut_ →
      AllZero (runCalls B L1 calls).weights_ ∧
      (runCalls B L1 calls).bias_ = List.replicate (runCalls B L1 calls).nOut_ 0 ∧
      (runCalls B L1 calls).nOut_ = L.nOut_ ∧
      (runCalls B L1 calls).output_feature_map_ = zeroMap (H * W).toNat L.nOut_ := by
    intro calls
    induction calls with
    | nil => intro L1 h1 h2 h3 h4; exact ⟨h1, h2, h3, h4⟩
    | cons call0 rest ih =>
      intro L1 h1 h2 h3 h4
      unfold runCalls
      rw [List.foldl_cons]
      apply ih
      · exact h1
      · exact h2
      · exact h3
      · rw [forward_persisted, forward_zero_network B L1 (H * W).toNat call0 h1 h2 (h3 ▸ h4), h3]
  have hinit : (initMaps L H W).output_feature_map_ = zeroMap (H * W).toNat L.nOut_ := by
    simp [initMaps, hfresh]
    split <;> rfl
  have hinitw : (initMaps L H W).weights_ = L.weights_ := by
    simp [initMaps, hfresh]
    split <;> rfl
  have hinitb : (initMaps L H W).bias_ = L.bias_ := by
    simp [initMaps, hfresh]
    split <;> rfl
  have hinitn : (initMaps L H W).nOut_ = L.nOut_ := by
    simp [initMaps, hfresh]
    split <;> rfl
  obtain ⟨i1, i2, i3, i4⟩ := inv calls (initMaps L H W) (hinitw ▸ hw)
    (by rw [hinitb, hinitn]; exact hb) hinitn hinit
  refine ⟨i4, ?_⟩
  rw [forward_zero_network B _ (H * W).toNat call i1 i2 (i3 ▸ i4), i3]

/-- The zero network on a `2 × 2` image: the sample layer after one call, and the output
of a second one. -/
theorem zero_network_witness :
    (runCalls activatingBuilder (initMaps zeroLayer 2 2) [touchCall]).output_feature_map_ =
      zeroMap ((2 : Int) * 2).toNat zeroLayer.nOut_ ∧
    (forward activatingBuilder (runCalls activatingBuilder (initMaps zeroLayer 2 2) [touchCall])
      touchCall.update_location touchCall.input_feature_map touchCall.active_sites_map
      touchCall.rule_book touchCall.no_update_locations).2.2.output_feature_map =
      zeroMap ((2 : Int) * 2).toNat zeroLayer.nOut_ :=
  zero_network activatingBuilder zeroLayer 2 2 [touchCall] touchCall (by decide) (by decide)
    (by decide)

end Engine

/-! ## Concrete scenario -/

section Scenario

variable {R : Type} [LinearOrderedCommRing R]

/-- C8. Concrete scenario: on the fresh `2 × 2` layer with `weights = [[2]]`, `bias = [0]`,
feature map `[5, 0, 0, 0]` and update list `[(0, 0)]`, when the builder, asked with the
hints the engine computes, marks pixel 0 `NEW_ACTIVE`, answers with the single rule
`(0, 0)` at offset 0 and reports pixel index 0, the call returns the output
`[10, 0, 0, 0]`, the update list `[(0, 0)]` and pixel 0 classified `NEW_ACTIVE`. -/
theorem concrete_scenario (B : RuleBookBuilder) (use_bias : Bool) (rule_book : RuleBook)
    (hB : B.updateRulebooks [true] [false] [0]
        (initActiveMap (scenarioLayer use_bias : AsynSparseConvolution2D R) scenarioInput
          [(0, 0)])
        rule_book =
      ([Site.NEW_ACTIVE, Site.INACTIVE, Site.INACTIVE, Site.INACTIVE], [0],
        { W_ := 2, rules := [[(0, 0)]] })) :
    (forward B (scenarioLayer use_bias : AsynSparseConvolution2D R) [(0, 0)] scenarioInput
      (initActiveMap (scenarioLayer use_bias : AsynSparseConvolution2D R) scenarioInput [(0, 0)])
      rule_book false).2.2.output_feature_map = [[10], [0], [0], [0]] ∧
    (forward B (scenarioLayer use_bias : AsynSparseConvolution2D R) [(0, 0)] scenarioInput
      (initActiveMap (scenarioLayer use_bias : AsynSparseConvolution2D R) scenarioInput [(0, 0)])
      rule_book false).2.2.new_update_location = [(0, 0)] ∧
    siteAt (forward B (scenarioLayer use_bias : AsynSparseConvolution2D R) [(0, 0)]
      scenarioInput
      (initActiveMap (scenarioLayer use_bias : AsynSparseConvolution2D R) scenarioInput [(0, 0)])
      rule_book false).2.2.active_sites_map 0 = Site.NEW_ACTIVE := by
  have hstep : ruleBookStep B (scenarioLayer use_bias : AsynSparseConvolution2D R) [(0, 0)]
      scenarioInput
      (initActiveMap (scenarioLayer use_bias : AsynSparseConvolution2D R) scenarioInput [(0, 0)])
      rule_book false =
      ([Site.NEW_ACTIVE, Site.INACTIVE, Site.INACTIVE, Site.INACTIVE], [0],
        { W_ := 2, rules := [[(0, 0)]] }) := by
    rw [← hB]
    simp [ruleBookStep, linearize, boolNewActiveSite, zeroInputUpdate, scenarioLayer,
      initMaps, setParameters, construct, rowAtInt, rowAt, l1norm, scenarioInput, zeroMap]
  refine ⟨?_, ?_, ?_⟩
  · rw [forward_output B _ _ _ _ _ _ _ _ _ hstep]
    have hacc : accumulate (scenarioLayer use_bias : AsynSparseConvolution2D R) scenarioInput
        [Site.NEW_ACTIVE, Site.INACTIVE, Site.INACTIVE, Site.INACTIVE]
        { W_ := 2, rules := [[(0, 0)]] } = [[10], [0], [0], [0]] := by
      have hr : List.range 1 = [0] := rfl
      have h4 : Int.toNat 4 = 4 := rfl
      simp only [accumulate, scenarioLayer, initMaps, setParameters, construct, zeroMap,
        scenarioInput]
      norm_num [hr, h4, accumulateKernel, accumulateRule, RuleBook.nrules,
        RuleBook.getRules, weightBlock, reshaped, deltaFeature, siteAt, rowAt, addToRow, matVec,
        dot, vadd, List.replicate]
    rw [hacc]
    cases use_bias <;>
    simp [resetAndBias, resetBiasPixel, siteAt, scenarioLayer, initMaps, setParameters,
      construct, rowAt, addToRow, vadd, List.range_succ]
  · simp only [forward, hstep, delinearize]
    decide
  · simp only [forward, hstep, siteAt]
    decide

/-- The concrete scenario over `ℤ` with the scripted builder. -/
theorem concrete_scenario_witness :
    (forward activatingBuilder (scenarioLayer true : AsynSparseConvolution2D ℤ) [(0, 0)]
      scenarioInput
      (initActiveMap (scenarioLayer true : AsynSparseConvolution2D ℤ) scenarioInput [(0, 0)])
      { W_ := 2, rules := [] } false).2.2.output_feature_map = [[10], [0], [0], [0]] ∧
    (forward activatingBuilder (scenarioLayer true : AsynSparseConvolution2D ℤ) [(0, 0)]
      scenarioInput
      (initActiveMap (scenarioLayer true : AsynSparseConvolution2D ℤ) scenarioInput [(0, 0)])
      { W_ := 2, rules := [] } false).2.2.new_update_location = [(0, 0)] ∧
    siteAt (forward activatingBuilder (scenarioLayer true : AsynSparseConvolution2D ℤ) [(0, 0)]
      scenarioInput
      (initActiveMap (scenarioLayer true : AsynSparseConvolution2D ℤ) scenarioInput [(0, 0)])
      { W_ := 2, rules := [] } false).2.2.active_sites_map 0 = Site.NEW_ACTIVE :=
  concrete_scenario activatingBuilder true { W_ := 2, rules := [] } (by decide)

end Scenario

/-! ## Calls with an empty update list -/

section EmptyUpdate

variable {R : Type} [LinearOrderedCommRing R]

theorem rowsHaveLength_accumulate (L : AsynSparseConvolution2D R)
    (input_feature_map : List (List R)) (c : List Site) (rb : RuleBook)
    (hshape : RowsHaveLength L.output_feature_map_ L.nOut_) :
    RowsHaveLength (accumulate L input_feature_map c rb) L.nOut_ := by
  apply rowsHaveLength_of_rowAt
  intro o ho
  unfold accumulate at ho ⊢
  rw [length_accumulate_kernels] at ho
  exact (rowAt_foldl_accumulateKernel L input_feature_map c rb o _ _
    (rowAt_length_of_shape _ _ o hshape ho)).1

/-- The final loop on a row of `nOut_` coefficients of a pixel that is not `NEW_ACTIVE`:
the zero row for `NEW_INACTIVE`, the row itself otherwise. -/
theorem resetBiasRow_of_ne (L : AsynSparseConvolution2D R) (s : Site) (row : List R)
    (hs : s ≠ Site.NEW_ACTIVE) (hrow : row.length = L.nOut_) :
    resetBiasRow L s row =
      if s = Site.NEW_INACTIVE then List.replicate L.nOut_ 0 else row := by
  unfold resetBiasRow
  by_cases h : s = Site.NEW_INACTIVE
  · simp [h, foldl_set_zero_eq_replicate _ _ hrow]
  · simp [h, hs]

/-- The engine's output when the rule-book step is skipped and no pixel of the incoming
classification is `NEW_ACTIVE`, row by row. -/
theorem rowAt_resetAndBias_of_ne (L : AsynSparseConvolution2D R) (c : List Site)
    (out : List (List R)) (hc : ∀ s ∈ c, s ≠ Site.NEW_ACTIVE)
    (hout : RowsHaveLength out L.nOut_) (o : Nat) (ho : o < out.length) :
    rowAt (resetAndBias L c out) o =
      if o < c.length ∧ siteAt c o = Site.NEW_INACTIVE then List.replicate L.nOut_ 0
      else rowAt out o := by
  rw [rowAt_resetAndBias]
  by_cases h1 : o < c.length
  · rw [if_pos h1, resetBiasRow_of_ne L _ _ (siteAt_ne_of_forall c _ (by decide) hc o)
      (rowAt_length_of_shape _ _ o hout ho)]
    by_cases h2 : siteAt c o = Site.NEW_INACTIVE <;> simp [h1, h2]
  · simp [h1]

theorem vsub_self_zero (v : List R) : ∀ x ∈ vsub v v, x = 0 := by
  intro x hx
  unfold vsub at hx
  obtain ⟨j, hj⟩ := List.mem_iff_getElem?.mp hx
  rw [List.getElem?_zipWith] at hj
  cases ha : v[j]? with
  | none => simp [ha] at hj
  | some a =>
    simp [ha] at hj
    exact hj.symm

/-- The claim fails on a downstream layer with bias `[1]` whose single pixel arrives
classified `NEW_ACTIVE`: with an empty update list, an empty rule book and the same
feature map, the first call returns `[[1]]` and the second `[[2]]`. -/
theorem noop_idempotence_counterexample :
    (forward activatingBuilder biasLayer [] [[0]] [Site.NEW_ACTIVE] { W_ := 1, rules := [] }
      true).2.2.output_feature_map = [[1]] ∧
    (forward activatingBuilder
      (forward activatingBuilder biasLayer [] [[0]] [Site.NEW_ACTIVE] { W_ := 1, rules := [] }
        true).1
      [] [[0]] [Site.NEW_ACTIVE] { W_ := 1, rules := [] } true).2.2.output_feature_map = [[2]] ∧
    (forward activatingBuilder
      (forward activatingBuilder biasLayer [] [[0]] [Site.NEW_ACTIVE] { W_ := 1, rules := [] }
        true).1
      [] [[0]] [Site.NEW_ACTIVE] { W_ := 1, rules := [] } true).2.2.output_feature_map ≠
    (forward activatingBuilder biasLayer [] [[0]] [Site.NEW_ACTIVE] { W_ := 1, rules := [] }
      true).2.2.output_feature_map := by
  decide

/-- C6 (amended). No-op idempotence: for every layer, every persisted state whose output
rows have `nOut_` coefficients, every rule book and every incoming classification without
a `NEW_ACTIVE` pixel, two engine calls in a row with an empty update list, the no-updates
flag set and the same feature map return the same output map and the same classification
(the incoming one), the rule book stays as it is, and the accumulation loop of the second
call leaves the persisted output as the first call stored it. -/
theorem noop_idempotence (B : RuleBookBuilder) (L : AsynSparseConvolution2D R)
    (input_feature_map : List (List R)) (c : List Site) (rb : RuleBook)
    (hshape : RowsHaveLength L.output_feature_map_ L.nOut_)
    (hc : ∀ s ∈ c, s ≠ Site.NEW_ACTIVE) :
    (forward B (forward B L [] input_feature_map c rb true).1 [] input_feature_map c rb
        true).2.2.output_feature_map =
      (forward B L [] input_feature_map c rb true).2.2.output_feature_map ∧
    (forward B (forward B L [] input_feature_map c rb true).1 [] input_feature_map c rb
        true).2.2.active_sites_map =
      (forward B L [] input_feature_map c rb true).2.2.active_sites_map ∧
    (forward B L [] input_feature_map c rb true).2.2.active_sites_map = c ∧
    (forward B L [] input_feature_map c rb true).2.1 = rb ∧
    accumulate (forward B L [] input_feature_map c rb true).1 input_feature_map c rb =
      (forward B L [] input_feature_map c rb true).1.output_feature_map_ := by
  have hstep : ∀ L0 : AsynSparseConvolution2D R,
      ruleBookStep B L0 [] input_feature_map c rb true = (c, [], rb) := by
    intro L0
    simp [ruleBookStep]
  have hout1 : (forward B L [] input_feature_map c rb true).2.2.output_feature_map =
      resetAndBias L c (accumulate L input_feature_map c rb) :=
    forward_output B L _ _ _ _ _ c [] rb (hstep L)
  have hL1 : (forward B L [] input_feature_map c rb true).1 =
      { L with
        old_input_feature_map_ := input_feature_map
        output_feature_map_ := resetAndBias L c (accumulate L input_feature_map c rb) } := by
    simp [forward, hstep]
  have hacc1 := rowsHaveLength_accumulate L input_feature_map c rb hshape
  have hrows1 : RowsHaveLength (resetAndBias L c (accumulate L input_feature_map c rb))
      L.nOut_ := by
    apply rowsHaveLength_of_rowAt
    intro o ho
    rw [length_resetAndBias] at ho
    rw [rowAt_resetAndBias_of_ne L c _ hc hacc1 o ho]
    split
    · rw [List.length_replicate]
    · exact rowAt_length_of_shape _ _ o hacc1 ho
  have hacc2 : accumulate (forward B L [] input_feature_map c rb true).1 input_feature_map c rb
      = resetAndBias L c (accumulate L input_feature_map c rb) := by
    rw [hL1]
    apply accumulate_of_zero _ input_feature_map c rb hrows1
    intro k _ rule _
    rw [matVec_of_dot_zero, length_weightBlock]
    intro row _
    apply dot_of_right_zero
    have hne := siteAt_ne_of_forall c _ (by decide) hc rule.2
    simp only [deltaFeature, hne, ne_eq, not_false_eq_true, if_true]
    exact vsub_self_zero _
  refine ⟨?_, ?_, ?_, ?_, ?_⟩
  · rw [forward_output B _ _ _ _ _ _ c [] rb (hstep _), hacc2, hout1]
    have hfin : resetAndBias (forward B L [] input_feature_map c rb true).1 c
        (resetAndBias L c (accumulate L input_feature_map c rb)) =
        resetAndBias L c (resetAndBias L c (accumulate L input_feature_map c rb)) := by
      rw [hL1]
      rfl
    rw [hfin]
    apply buffer_ext
    · rw [length_resetAndBias]
    · intro o ho
      rw [length_resetAndBias] at ho
      have ho' := ho
      rw [length_resetAndBias] at ho'
      rw [rowAt_resetAndBias_of_ne L c _ hc hrows1 o ho,
        rowAt_resetAndBias_of_ne L c _ hc hacc1 o ho']
      split <;> rfl
  · simp [forward, hstep]
  · simp [forward, hstep]
  · simp [forward, hstep]
  · rw [hacc2, hL1]

/-- Two empty-update calls on the sample layer with a stale rule book and a classification
holding a `NEW_INACTIVE` pixel. -/
theorem noop_idempotence_witness :
    (forward sampleBuilder
        (forward sampleBuilder sampleLayer [] sampleInput
          [Site.ACTIVE, Site.INACTIVE, Site.NEW_INACTIVE] { W_ := 3, rules := sampleRules }
          true).1
        [] sampleInput [Site.ACTIVE, Site.INACTIVE, Site.NEW_INACTIVE]
        { W_ := 3, rules := sampleRules } true).2.2.output_feature_map =
      (forward sampleBuilder sampleLayer [] sampleInput
        [Site.ACTIVE, Site.INACTIVE, Site.NEW_INACTIVE] { W_ := 3, rules := sampleRules }
        true).2.2.output_feature_map ∧
    (forward sampleBuilder
        (forward sampleBuilder sampleLayer [] sampleInput
          [Site.ACTIVE, Site.INACTIVE, Site.NEW_INACTIVE] { W_ := 3, rules := sampleRules }
          true).1
        [] sampleInput [Site.ACTIVE, Site.INACTIVE, Site.NEW_INACTIVE]
        { W_ := 3, rules := sampleRules } true).2.2.active_sites_map =
      (forward sampleBuilder sampleLayer [] sampleInput
        [Site.ACTIVE, Site.INACTIVE, Site.NEW_INACTIVE] { W_ := 3, rules := sampleRules }
        true).2.2.active_sites_map ∧
    (forward sampleBuilder sampleLayer [] sampleInput
        [Site.ACTIVE, Site.INACTIVE, Site.NEW_INACTIVE] { W_ := 3, rules := sampleRules }
        true).2.2.active_sites_map = [Site.ACTIVE, Site.INACTIVE, Site.NEW_INACTIVE] ∧
    (forward sampleBuilder sampleLayer [] sampleInput
        [Site.ACTIVE, Site.INACTIVE, Site.NEW_INACTIVE] { W_ := 3, rules := sampleRules }
        true).2.1 = { W_ := 3, rules := sampleRules } ∧
    accumulate
        (forward sampleBuilder sampleLayer [] sampleInput
          [Site.ACTIVE, Site.INACTIVE, Site.NEW_INACTIVE] { W_ := 3, rules := sampleRules }
          true).1
        sampleInput [Site.ACTIVE, Site.INACTIVE, Site.NEW_INACTIVE]
        { W_ := 3, rules := sampleRules } =
      (forward sampleBuilder sampleLayer [] sampleInput
        [Site.ACTIVE, Site.INACTIVE, Site.NEW_INACTIVE] { W_ := 3, rules := sampleRules }
        true).1.output_feature_map_ :=
  noop_idempotence sampleBuilder sampleLayer sampleInput
    [Site.ACTIVE, Site.INACTIVE, Site.NEW_INACTIVE] { W_ := 3, rules := sampleRules }
    (by decide) (by decide)

end EmptyUpdate

/-! ## Additivity under the builder's contract -/

section Additivity

variable {R : Type} [LinearOrderedCommRing R]

theorem dot_vsub (row x y : List R) (h : x.length = y.length) :
    dot row (vsub x y) = dot row x - dot row y := by
  induction row generalizing x y with
  | nil => simp [dot]
  | cons r rs ih =>
    cases x with
    | nil =>
      cases y with
      | nil => simp [dot, vsub]
      | cons y0 ys => simp at h
    | cons x0 xs =>
      cases y with
      | nil => simp at h
      | cons y0 ys =>
        have hrec := ih xs ys (by simpa using h)
        simp only [dot, vsub, List.zipWith_cons_cons, List.sum_cons] at hrec ⊢
        rw [hrec]
        ring

theorem chan_matVec (matrix : List (List R)) (v : List R) (j : Nat) :
    chan (matVec matrix v) j = if j < matrix.length then dot (rowAt matrix j) v else 0 := by
  unfold chan matVec rowAt
  rw [List.getD_eq_getElem?_getD, List.getElem?_map, List.getD_eq_getElem?_getD]
  by_cases hj : j < matrix.length
  · simp [hj, List.getElem?_eq_getElem hj]
  · simp [hj, List.getElem?_eq_none (Nat.le_of_not_lt hj)]

/-- The block acts linearly on a difference of rows of equal length. -/
theorem chan_matVec_vsub (matrix : List (List R)) (x y : List R) (j : Nat)
    (h : x.length = y.length) :
    chan (matVec matrix x) j =
      chan (matVec matrix y) j + chan (matVec matrix (vsub x y)) j := by
  rw [chan_matVec, chan_matVec, chan_matVec]
  by_cases hj : j < matrix.length
  · simp only [hj, if_true]
    rw [dot_vsub _ _ _ h]
    ring
  · simp [hj]

/-- Splitting a sum over the pairs that end in `o` along a filter. -/
theorem sum_split_filter (o : Nat) (diff : Nat × Nat → Bool) (g h e : Nat × Nat → R)
    (fl : List (Nat × Nat))
    (hsplit : ∀ rule ∈ fl, rule.2 = o →
      g rule = h rule + (if diff rule = true then e rule else 0)) :
    ((fl.filter fun rule => decide (rule.2 = o)).map g).sum =
      ((fl.filter fun rule => decide (rule.2 = o)).map h).sum +
        (((fl.filter diff).filter fun rule => decide (rule.2 = o)).map e).sum := by
  induction fl with
  | nil => simp
  | cons rule rest ih =>
    have ih' := ih (fun r hr => hsplit r (List.mem_cons_of_mem _ hr))
    by_cases ho : rule.2 = o
    · have hr := hsplit rule (List.mem_cons_self _ _) ho
      by_cases hd : diff rule = true
      · rw [if_pos hd] at hr
        rw [List.filter_cons_of_pos (by simpa using ho), List.filter_cons_of_pos hd,
          List.filter_cons_of_pos (by simpa using ho)]
        simp only [List.map_cons, List.sum_cons]
        rw [ih', hr]
        ring
      · rw [if_neg hd, add_zero] at hr
        rw [List.filter_cons_of_pos (by simpa using ho), List.filter_cons_of_neg hd]
        simp only [List.map_cons, List.sum_cons]
        rw [ih', hr]
        ring
    · by_cases hd : diff rule = true
      · rw [List.filter_cons_of_neg (by simpa using ho), List.filter_cons_of_pos hd,
          List.filter_cons_of_neg (by simpa using ho)]
        exact ih'
      · rw [List.filter_cons_of_neg (by simpa using ho), List.filter_cons_of_neg hd]
        exact ih'

/-- The rules of a rule book that meets the contract sum like the differing pairs of the
receptive-field relation. -/
theorem ruleSum_of_perm (L : AsynSparseConvolution2D R) (rb field : RuleBook)
    (diff : Nat → Nat × Nat → Bool) (d : Nat → List R) (o j : Nat)
    (hperm : ∀ k, k < L.filter_volume_ →
      List.Perm (rb.getRules k) ((field.getRules k).filter (diff k))) :
    ruleSum L rb d o j =
      ((List.range L.filter_volume_).map fun k =>
        ((((field.getRules k).filter (diff k)).filter fun rule => decide (rule.2 = o)).map
          fun rule => chan (matVec (weightBlock L k) (d rule.1)) j).sum).sum := by
  unfold ruleSum
  congr 1
  apply List.map_congr_left
  intro k hk
  exact (((hperm k (List.mem_range.mp hk)).filter _).map _).sum_eq

/-- The sum over the receptive field under the new input, split into the sum under the
old input and the sum of what the differing pairs add. -/
theorem ruleSum_split (L : AsynSparseConvolution2D R) (field : RuleBook)
    (diff : Nat → Nat × Nat → Bool) (dg dh de : Nat → List R) (o j : Nat)
    (hsplit : ∀ k, k < L.filter_volume_ → ∀ rule ∈ field.getRules k, rule.2 = o →
      chan (matVec (weightBlock L k) (dg rule.1)) j =
        chan (matVec (weightBlock L k) (dh rule.1)) j +
          (if diff k rule = true then chan (matVec (weightBlock L k) (de rule.1)) j else 0)) :
    ruleSum L field dg o j =
      ruleSum L field dh o j +
        ((List.range L.filter_volume_).map fun k =>
          ((((field.getRules k).filter (diff k)).filter fun rule => decide (rule.2 = o)).map
            fun rule => chan (matVec (weightBlock L k) (de rule.1)) j).sum).sum := by
  unfold ruleSum
  rw [← List.sum_map_add]
  congr 1
  apply List.map_congr_left
  intro k hk
  exact sum_split_filter o (diff k) _ _ _ (field.getRules k)
    (hsplit k (List.mem_range.mp hk))

theorem chan_matVec_nil (matrix : List (List R)) (j : Nat) :
    chan (matVec matrix ([] : List R)) j = 0 := by
  rw [chan_matVec]
  split
  · simp [dot]
  · rfl

theorem chan_replicate_zero (n j : Nat) : chan (List.replicate n (0 : R)) j = 0 := by
  unfold chan
  rw [List.getD_eq_getElem?_getD, List.getElem?_replicate]
  split <;> rfl

theorem siteAt_map_range (f : Nat → Site) (n o : Nat) (ho : o < n) :
    siteAt ((List.range n).map f) o = f o := by
  simp [siteAt, List.getD_eq_getElem?_getD, List.getElem?_map, List.getElem?_range ho]

/-- One engine step keeps the running invariant when the builder's answer meets the
contract. -/
theorem consistent_step (field : RuleBook) (act : List (List R) → Nat → Bool)
    (L : AsynSparseConvolution2D R) (F : List (List R)) (c : List Site) (rb : RuleBook)
    (hcons : Consistent field act L)
    (hlen : ∀ i, (rowAt F i).length = (rowAt L.old_input_feature_map_ i).length)
    (hbias : L.use_bias_ = true → L.bias_.length = L.nOut_)
    (hcontract : MeetsContract field act L F c rb) :
    Consistent field act
      { L with
        old_input_feature_map_ := F
        output_feature_map_ := resetAndBias L c (accumulate L F c rb) } := by
  intro o ho
  have ho' : o < L.output_feature_map_.length := by
    have h := ho
    simp only [length_resetAndBias] at h
    unfold accumulate at h
    rw [length_accumulate_kernels] at h
    exact h
  obtain ⟨hrow0, hch0⟩ := hcons o ho'
  obtain ⟨hc, hrules⟩ := hcontract
  have hcl : o < c.length := by
    rw [hc]
    simpa using ho'
  have hsite : siteAt c o =
      transition (act L.old_input_feature_map_ o) (act F o) := by
    rw [hc]
    exact siteAt_map_range _ _ o ho'
  have hperm : ∀ k, k < L.filter_volume_ →
      List.Perm (rb.getRules k)
        ((field.getRules k).filter fun rule =>
          decide (contribution act L L.old_input_feature_map_ k rule ≠
            contribution act L F k rule)) :=
    fun k hk => (hrules k hk).2
  have hacclen := (rowAt_foldl_accumulateKernel L F c rb o (List.range L.filter_volume_)
    L.output_feature_map_ hrow0).1
  show (rowAt (resetAndBias L c (accumulate L F c rb)) o).length = L.nOut_ ∧
    ∀ j, j < L.nOut_ →
      chan (rowAt (resetAndBias L c (accumulate L F c rb)) o) j =
        if act F o then
          ruleSum L field (fun i => rowAt F i) o j +
            (if L.use_bias_ then chan L.bias_ j else 0)
        else 0
  rw [rowAt_resetAndBias, if_pos hcl, hsite]
  cases hp : act L.old_input_feature_map_ o <;> cases hq : act F o
  · -- steady inactive
    have hne : siteAt c o ≠ Site.NEW_ACTIVE := by rw [hsite, hp, hq]; decide
    obtain ⟨h1, h2⟩ := rowAt_accumulate L F c rb o
      (fun i => vsub (rowAt F i) (rowAt L.old_input_feature_map_ i)) hrow0
      (by intro rule hr; simp [deltaFeature, hr, hne])
    have hid : resetBiasRow L (transition false false) (rowAt (accumulate L F c rb) o) =
        rowAt (accumulate L F c rb) o := by
      simp [resetBiasRow, transition]
    rw [hid]
    refine ⟨h1, fun j hj => ?_⟩
    have hsplit := ruleSum_split L field
      (fun k rule => decide (contribution act L L.old_input_feature_map_ k rule ≠
        contribution act L F k rule))
      (fun _ => ([] : List R)) (fun _ => ([] : List R))
      (fun i => vsub (rowAt F i) (rowAt L.old_input_feature_map_ i)) o j
      (by
        intro k _ rule _ hr
        have hd : contribution act L L.old_input_feature_map_ k rule =
            contribution act L F k rule := by
          simp [contribution, hr, hp, hq]
        simp [hd])
    have hzero := self_eq_add_right.mp hsplit
    rw [h2 j, ruleSum_of_perm L rb field _ _ o j hperm, hzero, add_zero, hch0 j hj, hp]
    simp
  · -- newly active
    have hna : siteAt c o = Site.NEW_ACTIVE := by rw [hsite, hp, hq]; rfl
    obtain ⟨h1, h2⟩ := rowAt_accumulate L F c rb o (fun i => rowAt F i) hrow0
      (by intro rule hr; simp [deltaFeature, hr, hna])
    have hsplit : ∀ j, ruleSum L field (fun i => rowAt F i) o j =
        ruleSum L rb (fun i => rowAt F i) o j := by
      intro j
      have h := ruleSum_split L field
        (fun k rule => decide (contribution act L L.old_input_feature_map_ k rule ≠
          contribution act L F k rule))
        (fun i => rowAt F i) (fun _ => ([] : List R)) (fun i => rowAt F i) o j
        (by
          intro k _ rule _ hr
          rw [chan_matVec_nil, zero_add]
          by_cases hd : contribution act L L.old_input_feature_map_ k rule =
              contribution act L F k rule
          · have hz : matVec (weightBlock L k) (rowAt F rule.1) =
                List.replicate L.nOut_ 0 := by
              simp only [contribution, hr, hp, hq] at hd
              simpa using hd.symm
            simp [hd, hz, chan_replicate_zero]
          · simp [hd])
      have h0 : ruleSum L field (fun _ => ([] : List R)) o j = 0 := by
        unfold ruleSum
        apply List.sum_eq_zero
        intro x hx
        obtain ⟨k, _, rfl⟩ := List.mem_map.mp hx
        apply List.sum_eq_zero
        intro y hy
        obtain ⟨rule, _, rfl⟩ := List.mem_map.mp hy
        exact chan_matVec_nil _ _
      rw [h, h0, zero_add, ruleSum_of_perm L rb field _ _ o j hperm]
    have hrb : resetBiasRow L (transition false true) (rowAt (accumulate L F c rb) o) =
        if L.use_bias_ = true then vadd (rowAt (accumulate L F c rb) o) L.bias_
        else rowAt (accumulate L F c rb) o := by
      simp [resetBiasRow, transition]
    rw [hrb]
    by_cases hb : L.use_bias_ = true
    · rw [if_pos hb]
      have hbl : (rowAt (accumulate L F c rb) o).length = L.bias_.length := by
        rw [h1, hbias hb]
      refine ⟨by rw [length_vadd _ _ hbl, h1], fun j hj => ?_⟩
      rw [chan_vadd _ _ hbl, h2 j, hch0 j hj, hp, hsplit j]
      simp [hb]
    · rw [if_neg hb]
      refine ⟨h1, fun j hj => ?_⟩
      rw [h2 j, hch0 j hj, hp, hsplit j]
      simp [hb]
  · -- newly inactive
    have hz : resetBiasRow L (transition true false) (rowAt (accumulate L F c rb) o) =
        List.replicate L.nOut_ 0 := by
      have := foldl_set_zero_eq_replicate L.nOut_ (rowAt (accumulate L F c rb) o) hacclen
      simp [resetBiasRow, transition, this]
    rw [hz]
    refine ⟨List.length_replicate _ _, fun j _ => ?_⟩
    rw [chan_replicate_zero]
    simp
  · -- steady active
    have hne : siteAt c o ≠ Site.NEW_ACTIVE := by rw [hsite, hp, hq]; decide
    obtain ⟨h1, h2⟩ := rowAt_accumulate L F c rb o
      (fun i => vsub (rowAt F i) (rowAt L.old_input_feature_map_ i)) hrow0
      (by intro rule hr; simp [deltaFeature, hr, hne])
    have hid : resetBiasRow L (transition true true) (rowAt (accumulate L F c rb) o) =
        rowAt (accumulate L F c rb) o := by
      simp [resetBiasRow, transition]
    rw [hid]
    refine ⟨h1, fun j hj => ?_⟩
    have hsplit := ruleSum_split L field
      (fun k rule => decide (contribution act L L.old_input_feature_map_ k rule ≠
        contribution act L F k rule))
      (fun i => rowAt F i) (fun i => rowAt L.old_input_feature_map_ i)
      (fun i => vsub (rowAt F i) (rowAt L.old_input_feature_map_ i)) o j
      (by
        intro k _ rule _ hr
        by_cases hd : contribution act L L.old_input_feature_map_ k rule =
            contribution act L F k rule
        · have hz : matVec (weightBlock L k) (rowAt L.old_input_feature_map_ rule.1) =
              matVec (weightBlock L k) (rowAt F rule.1) := by
            simpa [contribution, hr, hp, hq] using hd
          simp [hd, hz]
        · simp only [ne_eq, hd, not_false_eq_true, decide_True, if_true]
          exact chan_matVec_vsub _ _ _ j (hlen rule.1))
    rw [h2 j, ruleSum_of_perm L rb field _ _ o j hperm, hch0 j hj, hp, hsplit]
    simp only [if_true]
    ring

theorem row_ext_chan (x y : List R) (n : Nat) (hx : x.length = n) (hy : y.length = n)
    (h : ∀ j, j < n → chan x j = chan y j) : x = y := by
  apply List.ext_getElem?
  intro j
  by_cases hj : j < n
  · have hjx : j < x.length := hx ▸ hj
    have hjy : j < y.length := hy ▸ hj
    have := h j hj
    simp only [chan, List.getD_eq_getElem?_getD, List.getElem?_eq_getElem hjx,
      List.getElem?_eq_getElem hjy, Option.getD_some] at this
    rw [List.getElem?_eq_getElem hjx, List.getElem?_eq_getElem hjy, this]
  · rw [List.getElem?_eq_none (by omega), List.getElem?_eq_none (by omega)]

/-- The engine's new state in terms of the rule-book step. -/
theorem forward_state (B : RuleBookBuilder) (L : AsynSparseConvolution2D R)
    (update_location : List (Int × Int)) (input_feature_map : List (List R))
    (active_sites_map : List Site) (rule_book : RuleBook) (no_update_locations : Bool) :
    (forward B L update_location input_feature_map active_sites_map rule_book
      no_update_locations).1 =
      { L with
        old_input_feature_map_ := input_feature_map
        output_feature_map_ :=
          resetAndBias L
            (ruleBookStep B L update_location input_feature_map active_sites_map rule_book
              no_update_locations).1
            (accumulate L input_feature_map
              (ruleBookStep B L update_location input_feature_map active_sites_map rule_book
                no_update_locations).1
              (ruleBookStep B L update_location input_feature_map active_sites_map rule_book
                no_update_locations).2.2) } := by
  simp [forward]

/-- An engine call whose rule-book step meets the contract keeps the running invariant. -/
theorem consistent_forward (B : RuleBookBuilder) (field : RuleBook)
    (act : List (List R) → Nat → Bool) (L : AsynSparseConvolution2D R)
    (update_location : List (Int × Int)) (F : List (List R)) (active_sites_map : List Site)
    (rule_book : RuleBook) (no_update_locations : Bool)
    (hcons : Consistent field act L)
    (hlen : ∀ i, (rowAt F i).length = (rowAt L.old_input_feature_map_ i).length)
    (hbias : L.use_bias_ = true → L.bias_.length = L.nOut_)
    (hcontract : MeetsContract field act L F
      (ruleBookStep B L update_location F active_sites_map rule_book no_update_locations).1
      (ruleBookStep B L update_location F active_sites_map rule_book
        no_update_locations).2.2) :
    Consistent field act
      (forward B L update_location F active_sites_map rule_book no_update_locations).1 := by
  rw [forward_state]
  exact consistent_step field act L F _ _ hcons hlen hbias hcontract

theorem length_forward_output (B : RuleBookBuilder) (L : AsynSparseConvolution2D R)
    (update_location : List (Int × Int)) (F : List (List R)) (active_sites_map : List Site)
    (rule_book : RuleBook) (no_update_locations : Bool) :
    (forward B L update_location F active_sites_map rule_book
      no_update_locations).1.output_feature_map_.length = L.output_feature_map_.length := by
  rw [forward_state]
  show (resetAndBias L _ (accumulate L F _ _)).length = _
  rw [length_resetAndBias]
  unfold accumulate
  rw [length_accumulate_kernels]

/-- Freshly allocated buffers are consistent when no pixel of the zero feature map is
active. -/
theorem consistent_fresh (field : RuleBook) (act : List (List R) → Nat → Bool)
    (L : AsynSparseConvolution2D R) (H W : Int)
    (hin : L.initialized_input_maps_ = false) (hout : L.initialized_output_maps_ = false)
    (hact : ∀ o, act (zeroMap (H * W).toNat L.nIn_) o = false) :
    Consistent field act (initMaps L H W) := by
  have h1 : (initMaps L H W).output_feature_map_ = zeroMap (H * W).toNat L.nOut_ := by
    simp [initMaps, hin, hout]
  have h2 : (initMaps L H W).old_input_feature_map_ = zeroMap (H * W).toNat L.nIn_ := by
    simp [initMaps, hin, hout]
  have h3 : (initMaps L H W).nOut_ = L.nOut_ := by
    simp [initMaps, hin, hout]
  intro o ho
  rw [h1] at ho
  have ho' : o < (H * W).toNat := by simpa [zeroMap] using ho
  rw [h1, h2, h3, rowAt_zeroMap _ _ o ho', hact o]
  exact ⟨List.length_replicate _ _, fun j _ => by simp [chan_replicate_zero]⟩

/-- C7. Additivity: let the builder meet its interface contract (as `MeetsContract` models
it from the spec) in the calls below, and let the starting state be consistent, as every
state reached from fresh buffers under the contract is.  Then, for every feature map `F`
and update locations `a` and `b`, the call with `[a]` (on any feature map `F1` of the same
shape, `F` itself included) followed by the call with `[b]` on `F` leaves the same
persisted output map as the single call with `[a, b]` on `F` from the same state. -/
theorem additivity (B : RuleBookBuilder) (field : RuleBook) (act : List (List R) → Nat → Bool)
    (L : AsynSparseConvolution2D R) (a b : Int × Int) (F1 F : List (List R))
    (c1 c2 c12 : List Site) (rb0 : RuleBook)
    (hstart : Consistent field act L)
    (hbias : L.use_bias_ = true → L.bias_.length = L.nOut_)
    (hP : RowsHaveLength L.old_input_feature_map_ L.nIn_)
    (hF1 : RowsHaveLength F1 L.nIn_ ∧ F1.length = L.old_input_feature_map_.length)
    (hF : RowsHaveLength F L.nIn_ ∧ F.length = L.old_input_feature_map_.length)
    (hfirst : MeetsContract field act L F1
      (ruleBookStep B L [a] F1 c1 rb0 false).1 (ruleBookStep B L [a] F1 c1 rb0 false).2.2)
    (hsecond : MeetsContract field act (forward B L [a] F1 c1 rb0 false).1 F
      (ruleBookStep B (forward B L [a] F1 c1 rb0 false).1 [b] F c2
        (forward B L [a] F1 c1 rb0 false).2.1 false).1
      (ruleBookStep B (forward B L [a] F1 c1 rb0 false).1 [b] F c2
        (forward B L [a] F1 c1 rb0 false).2.1 false).2.2)
    (hboth : MeetsContract field act L F
      (ruleBookStep B L [a, b] F c12 rb0 false).1
      (ruleBookStep B L [a, b] F c12 rb0 false).2.2) :
    (forward B (forward B L [a] F1 c1 rb0 false).1 [b] F c2
        (forward B L [a] F1 c1 rb0 false).2.1 false).1.output_feature_map_ =
      (forward B L [a, b] F c12 rb0 false).1.output_feature_map_ := by
  have hold1 : (forward B L [a] F1 c1 rb0 false).1.old_input_feature_map_ = F1 := by
    rw [forward_state]
  have hcons1 := consistent_forward B field act L [a] F1 c1 rb0 false hstart
    (rowAt_length_of_rows _ _ _ hF1.2 hF1.1 hP) hbias hfirst
  have hcons2 := consistent_forward B field act (forward B L [a] F1 c1 rb0 false).1 [b] F c2
    (forward B L [a] F1 c1 rb0 false).2.1 false hcons1
    (by
      rw [hold1]
      exact rowAt_length_of_rows _ _ _ (hF.2.trans hF1.2.symm) hF.1 hF1.1)
    (by
      rw [forward_state]
      exact hbias)
    hsecond
  have hcons12 := consistent_forward B field act L [a, b] F c12 rb0 false hstart
    (rowAt_length_of_rows _ _ _ hF.2 hF.1 hP) hbias hboth
  have hlen2 : (forward B (forward B L [a] F1 c1 rb0 false).1 [b] F c2
      (forward B L [a] F1 c1 rb0 false).2.1 false).1.output_feature_map_.length =
      L.output_feature_map_.length := by
    rw [length_forward_output, length_forward_output]
  have hlen12 := length_forward_output B L [a, b] F c12 rb0 false
  apply buffer_ext _ _ (hlen2.trans hlen12.symm)
  intro o ho
  obtain ⟨r2, ch2⟩ := hcons2 o ho
  obtain ⟨r12, ch12⟩ := hcons12 o (by rw [hlen12, ← hlen2]; exact ho)
  rw [forward_state B (forward B L [a] F1 c1 rb0 false).1, forward_state B L [a]] at r2 ch2
  rw [forward_state B L [a, b]] at r12 ch12
  refine row_ext_chan _ _ L.nOut_ ?_ ?_ ?_
  · rw [forward_state B (forward B L [a] F1 c1 rb0 false).1, forward_state B L [a]]
    exact r2
  · rw [forward_state B L [a, b]]
    exact r12
  · intro j hj
    rw [forward_state B (forward B L [a] F1 c1 rb0 false).1, forward_state B L [a],
      forward_state B L [a, b]]
    exact (ch2 j hj).trans (ch12 j hj).symm

/-- Additivity on the two-pixel image: pixel 0 then pixel 1, against both at once. -/
theorem additivity_witness :
    (forward pairBuilder (forward pairBuilder pairLayer [(0, 0)] [[5], [0]] [] pairField
        false).1 [(0, 1)] [[5], [3]] []
        (forward pairBuilder pairLayer [(0, 0)] [[5], [0]] [] pairField false).2.1
        false).1.output_feature_map_ =
      (forward pairBuilder pairLayer [(0, 0), (0, 1)] [[5], [3]] [] pairField
        false).1.output_feature_map_ :=
  additivity pairBuilder pairField nonzeroActive pairLayer (0, 0) (0, 1) [[5], [0]]
    [[5], [3]] [] [] [] pairField (by decide) (by decide) (by decide) (by decide)
    (by decide) (by decide) (by decide) (by decide)

end Additivity

/-! ## Initial classification -/

section Classifier

variable {R : Type} [LinearOrderedCommRing R]

theorem l1norm_nonneg (v : List R) : 0 ≤ l1norm v := by
  unfold l1norm
  apply List.sum_nonneg
  intro x hx
  obtain ⟨y, _, rfl⟩ := List.mem_map.mp hx
  exact abs_nonneg y

theorem l1norm_pos_iff (v : List R) : 0 < l1norm v ↔ l1norm v ≠ 0 :=
  ⟨fun h => ne_of_gt h, fun h => lt_of_le_of_ne (l1norm_nonneg v) (Ne.symm h)⟩

theorem length_foldl_markNonzero (input_feature_map : List (List R)) (n : Nat)
    (cs : List Site) :
    ((List.range n).foldl
      (fun m i => if 0 < l1norm (rowAt input_feature_map i) then m.set i Site.ACTIVE else m)
      cs).length = cs.length := by
  induction n with
  | zero => simp
  | succ n ih =>
    rw [List.range_succ, List.foldl_append]
    simp only [List.foldl_cons, List.foldl_nil]
    split
    · rw [List.length_set, ih]
    · exact ih

theorem getElem?_foldl_markNonzero (input_feature_map : List (List R)) (n p : Nat)
    (cs : List Site) :
    ((List.range n).foldl
      (fun m i => if 0 < l1norm (rowAt input_feature_map i) then m.set i Site.ACTIVE else m)
      cs)[p]? =
      if p < n ∧ 0 < l1norm (rowAt input_feature_map p) then
        (if p < cs.length then some Site.ACTIVE else none)
      else cs[p]? := by
  induction n with
  | zero => simp
  | succ n ih =>
    rw [List.range_succ, List.foldl_append]
    simp only [List.foldl_cons, List.foldl_nil]
    by_cases hpos : 0 < l1norm (rowAt input_feature_map n)
    · rw [if_pos hpos, List.getElem?_set, length_foldl_markNonzero, ih]
      by_cases hnp : n = p
      · subst hnp
        simp [hpos]
      · by_cases h1 : p < n
        · have h2 : p < n + 1 := by omega
          simp [hnp, h1, h2]
        · have h2 : ¬ p < n + 1 := by omega
          simp [hnp, h1, h2]
    · rw [if_neg hpos, ih]
      by_cases hnp : n = p
      · subst hnp
        simp [hpos]
      · by_cases h1 : p < n
        · have h2 : p < n + 1 := by omega
          simp [h1, h2]
        · have h2 : ¬ p < n + 1 := by omega
          simp [h1, h2]

theorem length_setSiteInt (cs : List Site) (i : Int) (s : Site) :
    (setSiteInt cs i s).length = cs.length := by
  unfold setSiteInt
  split
  · rfl
  · rw [List.length_set]

theorem length_markUpdated (lin : List Int) (cs : List Site) :
    (markUpdated lin cs).length = cs.length := by
  induction lin generalizing cs with
  | nil => rfl
  | cons i rest ih =>
    unfold markUpdated at ih ⊢
    rw [List.foldl_cons, ih, length_setSiteInt]

theorem getElem?_setSiteInt (cs : List Site) (i : Int) (s : Site) (p : Nat) :
    (setSiteInt cs i s)[p]? = if i = (p : Int) then (if p < cs.length then some s else none)
      else cs[p]? := by
  unfold setSiteInt
  by_cases hneg : i < 0
  · have hne : i ≠ (p : Int) := by omega
    rw [if_pos hneg, if_neg hne]
  · rw [if_neg hneg, List.getElem?_set]
    by_cases hip : i = (p : Int)
    · have : i.toNat = p := by omega
      simp [hip, this]
    · have : i.toNat ≠ p := by omega
      simp [hip, this]

theorem getElem?_markUpdated (lin : List Int) (cs : List Site) (p : Nat) :
    (markUpdated lin cs)[p]? =
      if (p : Int) ∈ lin then (if p < cs.length then some Site.ACTIVE else none) else cs[p]? := by
  induction lin generalizing cs with
  | nil => simp [markUpdated]
  | cons i rest ih =>
    unfold markUpdated at ih ⊢
    rw [List.foldl_cons, ih, length_setSiteInt, getElem?_setSiteInt]
    by_cases h1 : (p : Int) ∈ rest
    · simp [h1]
    · by_cases h2 : i = (p : Int)
      · simp [h2]
      · have h3 : ¬ (p : Int) = i := fun h => h2 h.symm
        simp [h1, h2, h3]

theorem initMaps_dims (L : AsynSparseConvolution2D R) (H W : Int) :
    (initMaps L H W).W_ = W ∧ (initMaps L H W).num_pixels_ = H * W ∧
      (initMaps L H W).H_ = H := by
  unfold initMaps
  simp only
  split <;> split <;> exact ⟨rfl, rfl, rfl⟩

/-- C9. Initial classification: on an instance whose dimensions are `H` and `W`, for a
feature map of `H * W` rows and an update list with coordinates in `[0,H) × [0,W)`,
`initActiveMap` returns `H * W` sites; pixel `p` is `ACTIVE` exactly when its feature row
has a non-zero L1 norm or `p = row * W + col` for an update location `(row, col)`, it is
`INACTIVE` otherwise, and no site is `NEW_ACTIVE` or `NEW_INACTIVE`. -/
theorem initial_classification (L : AsynSparseConvolution2D R) (H W : Nat)
    (input_feature_map : List (List R)) (update_location : List (Int × Int))
    (hin : input_feature_map.length = H * W)
    (_hupd : ∀ q ∈ update_location,
      0 ≤ q.1 ∧ q.1 < (H : Int) ∧ 0 ≤ q.2 ∧ q.2 < (W : Int)) :
    (initActiveMap (initMaps L H W) input_feature_map update_location).length = H * W ∧
    (∀ p, p < H * W →
      (siteAt (initActiveMap (initMaps L H W) input_feature_map update_location) p =
          Site.ACTIVE ↔
        (l1norm (rowAt input_feature_map p) ≠ 0 ∨
          ∃ q ∈ update_location, (p : Int) = q.1 * W + q.2))) ∧
    (∀ p, p < H * W →
      ¬ (l1norm (rowAt input_feature_map p) ≠ 0 ∨
          ∃ q ∈ update_location, (p : Int) = q.1 * W + q.2) →
      siteAt (initActiveMap (initMaps L H W) input_feature_map update_location) p =
        Site.INACTIVE) ∧
    (∀ s ∈ initActiveMap (initMaps L H W) input_feature_map update_location,
      s = Site.ACTIVE ∨ s = Site.INACTIVE) := by
  obtain ⟨hW, hN, _⟩ := initMaps_dims L (H : Int) (W : Int)
  have hn : ((H : Int) * (W : Int)).toNat = H * W := by
    rw [← Nat.cast_mul, Int.toNat_natCast]
  have hget : ∀ p : Nat,
      (initActiveMap (initMaps L H W) input_feature_map update_location)[p]? =
      if (p : Int) ∈ linearize (W : Int) update_location then
        (if p < H * W then some Site.ACTIVE else none)
      else if p < input_feature_map.length ∧ 0 < l1norm (rowAt input_feature_map p) then
        (if p < H * W then some Site.ACTIVE else none)
      else (if p < H * W then some Site.INACTIVE else none) := by
    intro p
    unfold initActiveMap markNonzero
    simp only [hW, hN, hn]
    rw [getElem?_markUpdated, length_foldl_markNonzero, getElem?_foldl_markNonzero,
      List.length_replicate, List.getElem?_replicate]
  have hmem : ∀ p : Nat, (p : Int) ∈ linearize (W : Int) update_location ↔
      ∃ q ∈ update_location, (p : Int) = q.1 * W + q.2 := by
    intro p
    unfold linearize
    rw [List.mem_map]
    constructor
    · rintro ⟨q, hq, h⟩
      exact ⟨q, hq, by rw [← h]; ring⟩
    · rintro ⟨q, hq, h⟩
      exact ⟨q, hq, by rw [h]; ring⟩
  have hlen : (initActiveMap (initMaps L H W) input_feature_map update_location).length
      = H * W := by
    unfold initActiveMap markNonzero
    simp only [hN, hn]
    rw [length_markUpdated, length_foldl_markNonzero, List.length_replicate]
  refine ⟨hlen, ?_, ?_, ?_⟩
  · intro p hp
    have hp' : p < input_feature_map.length := by omega
    unfold siteAt
    rw [List.getD_eq_getElem?_getD, hget p, ← hmem p, ← l1norm_pos_iff]
    by_cases h1 : (p : Int) ∈ linearize (W : Int) update_location
    · simp [h1, hp]
    · by_cases h2 : 0 < l1norm (rowAt input_feature_map p)
      · simp [h1, h2, hp, hp']
      · simp [h1, h2, hp]
  · intro p hp hnot
    rw [← hmem p, ← l1norm_pos_iff] at hnot
    have h1 : ¬ (p : Int) ∈ linearize (W : Int) update_location := fun h => hnot (Or.inr h)
    have h2 : ¬ 0 < l1norm (rowAt input_feature_map p) := fun h => hnot (Or.inl h)
    unfold siteAt
    rw [List.getD_eq_getElem?_getD, hget p]
    simp [h1, h2, hp]
  · intro s hs
    obtain ⟨p, hp⟩ := List.mem_iff_getElem?.mp hs
    rw [hget p] at hp
    by_cases hlt : p < H * W
    · simp only [hlt, if_true] at hp
      split at hp
      · left; exact (Option.some.inj hp).symm
      · split at hp
        · left; exact (Option.some.inj hp).symm
        · right; exact (Option.some.inj hp).symm
    · simp [hlt] at hp

/-- The initial classification of a `2 × 2` image with feature map `[5, 0, 0, 0]` and
update list `[(1, 1)]`. -/
theorem initial_classification_witness :
    (initActiveMap (initMaps zeroLayer (2 : Nat) (2 : Nat)) [[5], [0], [0], [0]]
      [(1, 1)]).length = 2 * 2 ∧
    (∀ p, p < 2 * 2 →
      (siteAt (initActiveMap (initMaps zeroLayer (2 : Nat) (2 : Nat)) [[5], [0], [0], [0]]
          [(1, 1)]) p = Site.ACTIVE ↔
        (l1norm (rowAt ([[5], [0], [0], [0]] : List (List ℤ)) p) ≠ 0 ∨
          ∃ q ∈ ([(1, 1)] : List (Int × Int)), (p : Int) = q.1 * (2 : Nat) + q.2))) ∧
    (∀ p, p < 2 * 2 →
      ¬ (l1norm (rowAt ([[5], [0], [0], [0]] : List (List ℤ)) p) ≠ 0 ∨
          ∃ q ∈ ([(1, 1)] : List (Int × Int)), (p : Int) = q.1 * (2 : Nat) + q.2) →
      siteAt (initActiveMap (initMaps zeroLayer (2 : Nat) (2 : Nat)) [[5], [0], [0], [0]]
        [(1, 1)]) p = Site.INACTIVE) ∧
    (∀ s ∈ initActiveMap (initMaps zeroLayer (2 : Nat) (2 : Nat)) [[5], [0], [0], [0]]
        [(1, 1)],
      s = Site.ACTIVE ∨ s = Site.INACTIVE) :=
  initial_classification zeroLayer 2 2 [[5], [0], [0], [0]] [(1, 1)] (by decide) (by decide)

end Classifier

/-! ## Parameters -/

section Parameters

variable {R : Type}

/-- A bias of the wrong length is stored all the same: on the sample layer (`nOut = 2`,
one kernel offset, `nIn * nOut = 4`) a bias of length 1 and a `2 × 1` weight buffer replace
the stored parameters, so the stored parameters are not left unchanged. -/
theorem setParameters_mismatch_counterexample :
    ¬ (∀ (bias : List ℤ) (weights : List (List ℤ)),
        (bias.length ≠ sampleLayer.nOut_ ∨
          ¬ (weights.length = sampleLayer.filter_volume_ ∧
            RowsHaveLength weights (sampleLayer.nIn_ * sampleLayer.nOut_))) →
        (setParameters sampleLayer bias weights).bias_ = sampleLayer.bias_ ∧
        (setParameters sampleLayer bias weights).weights_ = sampleLayer.weights_) := by
  intro h
  exact absurd (h [7] [[1], [1]] (Or.inl (by decide))).1 (by decide)

/-- C10 (amended). `setParameters(bias, weights)` checks no shape and cannot fail: for
every bias and every weight buffer, of whatever shape, the stored bias and weights
afterwards are the arguments, and every other member of the instance (the configuration,
the padding and kernel-offset table, the allocation flags, the recorded dimensions and
both feature-map buffers) is as before. -/
theorem setParameters_stores (L : AsynSparseConvolution2D R) (bias : List R)
    (weights : List (List R)) :
    (setParameters L bias weights).bias_ = bias ∧
    (setParameters L bias weights).weights_ = weights ∧
    (setParameters L bias weights).dimension_ = L.dimension_ ∧
    (setParameters L bias weights).nIn_ = L.nIn_ ∧
    (setParameters L bias weights).nOut_ = L.nOut_ ∧
    (setParameters L bias weights).filter_size_ = L.filter_size_ ∧
    (setParameters L bias weights).first_layer_ = L.first_layer_ ∧
    (setParameters L bias weights).use_bias_ = L.use_bias_ ∧
    (setParameters L bias weights).filter_volume_ = L.filter_volume_ ∧
    (setParameters L bias weights).padding_ = L.padding_ ∧
    (setParameters L bias weights).kernel_indices_ = L.kernel_indices_ ∧
    (setParameters L bias weights).initialized_input_maps_ = L.initialized_input_maps_ ∧
    (setParameters L bias weights).initialized_output_maps_ = L.initialized_output_maps_ ∧
    (setParameters L bias weights).H_ = L.H_ ∧
    (setParameters L bias weights).W_ = L.W_ ∧
    (setParameters L bias weights).num_pixels_ = L.num_pixels_ ∧
    (setParameters L bias weights).old_input_feature_map_ = L.old_input_feature_map_ ∧
    (setParameters L bias weights).output_feature_map_ = L.output_feature_map_ ∧
    setParameters (setParameters L bias weights) L.bias_ L.weights_ = L :=
  ⟨rfl, rfl, rfl, rfl, rfl, rfl, rfl, rfl, rfl, rfl, rfl, rfl, rfl, rfl, rfl, rfl, rfl, rfl,
    rfl⟩

end Parameters

/-! ## Coordinates -/

section Coordinates

variable {R : Type} [LinearOrderedCommRing R]

/-- The engine sees the update coordinates only through their linear indices. -/
theorem ruleBookStep_linear (B : RuleBookBuilder) (L : AsynSparseConvolution2D R)
    (update_location update_location' : List (Int × Int)) (input_feature_map : List (List R))
    (active_sites_map : List Site) (rule_book : RuleBook) (no_update_locations : Bool)
    (hlin : linearize rule_book.W_ update_location = linearize rule_book.W_ update_location') :
    ruleBookStep B L update_location input_feature_map active_sites_map rule_book
      no_update_locations =
    ruleBookStep B L update_location' input_feature_map active_sites_map rule_book
      no_update_locations := by
  unfold ruleBookStep
  rw [hlin]

/-- A coordinate outside the image is processed: on the fresh `2 × 2` layer of the concrete
scenario (`W = 2`), the engine call with the update location `(0, 2)`, whose column is not
below `W`, completes, replaces `previous_input` and the persisted output, and revises the
classification, instead of failing before any change. -/
theorem coordinate_validation_counterexample :
    (forward activatingBuilder (scenarioLayer true : AsynSparseConvolution2D ℤ) [(0, 2)]
      scenarioInput [Site.INACTIVE, Site.INACTIVE, Site.INACTIVE, Site.INACTIVE]
      { W_ := 2, rules := [] } false).1.old_input_feature_map_ = scenarioInput ∧
    (forward activatingBuilder (scenarioLayer true : AsynSparseConvolution2D ℤ) [(0, 2)]
      scenarioInput [Site.INACTIVE, Site.INACTIVE, Site.INACTIVE, Site.INACTIVE]
      { W_ := 2, rules := [] } false).1.old_input_feature_map_ ≠
      (scenarioLayer true : AsynSparseConvolution2D ℤ).old_input_feature_map_ ∧
    (forward activatingBuilder (scenarioLayer true : AsynSparseConvolution2D ℤ) [(0, 2)]
      scenarioInput [Site.INACTIVE, Site.INACTIVE, Site.INACTIVE, Site.INACTIVE]
      { W_ := 2, rules := [] } false).1.output_feature_map_ ≠
      (scenarioLayer true : AsynSparseConvolution2D ℤ).output_feature_map_ ∧
    (forward activatingBuilder (scenarioLayer true : AsynSparseConvolution2D ℤ) [(0, 2)]
      scenarioInput [Site.INACTIVE, Site.INACTIVE, Site.INACTIVE, Site.INACTIVE]
      { W_ := 2, rules := [] } false).2.2.active_sites_map ≠
      [Site.INACTIVE, Site.INACTIVE, Site.INACTIVE, Site.INACTIVE] ∧
    initActiveMap (scenarioLayer true : AsynSparseConvolution2D ℤ) scenarioInput [(0, 2)] =
      [Site.ACTIVE, Site.INACTIVE, Site.ACTIVE, Site.INACTIVE] := by
  decide

/-- C11 (amended). No call validates its update coordinates: a coordinate `(row, col)` is
only linearised to `col + W * row`, and both the engine and the classifier depend on the
update list through these linear indices alone.  So two update lists with the same
linear indices (for instance one with `col ≥ W` and the in-range one naming the same
pixel) give the same engine result and the same initial classification, and the engine
call completes and stores the feature map of the call as `previous_input`. -/
theorem coordinates_only_linearised (B : RuleBookBuilder) (L : AsynSparseConvolution2D R)
    (update_location update_location' : List (Int × Int)) (input_feature_map : List (List R))
    (active_sites_map : List Site) (rule_book : RuleBook) (no_update_locations : Bool)
    (hbook : linearize rule_book.W_ update_location = linearize rule_book.W_ update_location')
    (hlayer : linearize L.W_ update_location = linearize L.W_ update_location') :
    forward B L update_location input_feature_map active_sites_map rule_book
        no_update_locations =
      forward B L update_location' input_feature_map active_sites_map rule_book
        no_update_locations ∧
    initActiveMap L input_feature_map update_location =
      initActiveMap L input_feature_map update_location' ∧
    (forward B L update_location input_feature_map active_sites_map rule_book
        no_update_locations).1.old_input_feature_map_ = input_feature_map := by
  refine ⟨?_, ?_, rfl⟩
  · unfold forward
    rw [ruleBookStep_linear B L update_location update_location' input_feature_map
      active_sites_map rule_book no_update_locations hbook]
  · unfold initActiveMap
    rw [hlayer]

/-- The coordinate `(0, 2)` and the in-range coordinate `(1, 0)` of the `2 × 2` image. -/
theorem coordinates_only_linearised_witness :
    forward activatingBuilder (scenarioLayer true : AsynSparseConvolution2D ℤ) [(0, 2)]
        scenarioInput [Site.INACTIVE, Site.INACTIVE, Site.INACTIVE, Site.INACTIVE]
        { W_ := 2, rules := [] } false =
      forward activatingBuilder (scenarioLayer true : AsynSparseConvolution2D ℤ) [(1, 0)]
        scenarioInput [Site.INACTIVE, Site.INACTIVE, Site.INACTIVE, Site.INACTIVE]
        { W_ := 2, rules := [] } false ∧
    initActiveMap (scenarioLayer true : AsynSparseConvolution2D ℤ) scenarioInput [(0, 2)] =
      initActiveMap (scenarioLayer true : AsynSparseConvolution2D ℤ) scenarioInput [(1, 0)] ∧
    (forward activatingBuilder (scenarioLayer true : AsynSparseConvolution2D ℤ) [(0, 2)]
        scenarioInput [Site.INACTIVE, Site.INACTIVE, Site.INACTIVE, Site.INACTIVE]
        { W_ := 2, rules := [] } false).1.old_input_feature_map_ = scenarioInput :=
  coordinates_only_linearised activatingBuilder (scenarioLayer true) [(0, 2)] [(1, 0)]
    scenarioInput [Site.INACTIVE, Site.INACTIVE, Site.INACTIVE, Site.INACTIVE]
    { W_ := 2, rules := [] } false (by decide) (by decide)

theorem tdiv_linear (W row col : Int) (hW : 0 < W) (hrow : 0 ≤ row) (hcol : 0 ≤ col)
    (hlt : col < W) : (col + W * row).tdiv W = row ∧ (col + W * row).tmod W = col := by
  have hnn : 0 ≤ col + W * row := by positivity
  constructor
  · rw [Int.tdiv_eq_ediv hnn (le_of_lt hW), Int.add_mul_ediv_left _ _ (ne_of_gt hW),
      Int.ediv_eq_zero_of_lt hcol hlt, zero_add]
  · rw [Int.tmod_eq_emod hnn (le_of_lt hW), Int.add_mul_emod_self_left,
      Int.emod_eq_of_lt hcol hlt]

/-- The round trip in exact integer arithmetic: for a width `W > 0`, converting the linear
indices of coordinates `(row, col)` with `row ≥ 0` and `0 ≤ col < W` back with
`(x / W, x % W)` gives the coordinates again; and for pixel indices `x ≥ 0` the coordinates
`(x / W, x % W)` linearise to `x` again and have their column in `[0, W)`. -/
theorem round_trip_exact (W : Int) (update_location : List (Int × Int))
    (new_update_location_linear : List Int) (hW : 0 < W)
    (hcoord : ∀ q ∈ update_location, 0 ≤ q.1 ∧ 0 ≤ q.2 ∧ q.2 < W)
    (hidx : ∀ x ∈ new_update_location_linear, 0 ≤ x) :
    delinearize W (linearize W update_location) = update_location ∧
    linearize W (delinearize W new_update_location_linear) = new_update_location_linear ∧
    ∀ q ∈ delinearize W new_update_location_linear, 0 ≤ q.1 ∧ 0 ≤ q.2 ∧ q.2 < W := by
  refine ⟨?_, ?_, ?_⟩
  · unfold delinearize linearize
    rw [List.map_map]
    conv_rhs => rw [← List.map_id update_location]
    apply List.map_congr_left
    intro q hq
    obtain ⟨h1, h2, h3⟩ := hcoord q hq
    obtain ⟨hd, hm⟩ := tdiv_linear W q.1 q.2 hW h1 h2 h3
    simp only [Function.comp_apply, hd, hm, id_eq]
  · unfold delinearize linearize
    rw [List.map_map]
    conv_rhs => rw [← List.map_id new_update_location_linear]
    apply List.map_congr_left
    intro x _
    simp only [Function.comp_apply, id_eq]
    exact Int.tmod_add_tdiv x W
  · intro q hq
    unfold delinearize at hq
    obtain ⟨x, hx, rfl⟩ := List.mem_map.mp hq
    have hx0 := hidx x hx
    refine ⟨?_, Int.tmod_nonneg W hx0, Int.tmod_lt_of_pos x hW⟩
    rw [Int.tdiv_eq_ediv hx0 (le_of_lt hW)]
    exact Int.ediv_nonneg hx0 (le_of_lt hW)

theorem wrapInt32_of_bounds (x : Int) (h1 : -2147483648 ≤ x) (h2 : x < 2147483648) :
    wrapInt32 x = x := by
  unfold wrapInt32
  rw [Int.emod_eq_of_lt (by omega) (by omega)]
  omega

/-- The 32-bit linearisation is the exact one when the linear indices fit. -/
theorem linearize32_eq_linearize (W : Int) (update_location : List (Int × Int))
    (hW : 0 ≤ W)
    (hfit : ∀ q ∈ update_location, 0 ≤ q.1 ∧ 0 ≤ q.2 ∧ q.2 + W * q.1 < 2147483648) :
    linearize32 W update_location = linearize W update_location := by
  unfold linearize32 linearize
  apply List.map_congr_left
  intro q hq
  obtain ⟨h1, h2, h3⟩ := hfit q hq
  have hprod : 0 ≤ W * q.1 := mul_nonneg hW h1
  rw [wrapInt32_of_bounds (W * q.1) (by omega) (by omega),
    wrapInt32_of_bounds (q.2 + W * q.1) (by omega) h3]

/-- The round trip fails when the 32-bit linear index wraps: for the width `W = 65536` the
coordinate `(65536, 1)` has `row ≥ 0` and `0 ≤ col < W`, its linear index `65536 * 65536 + 1`
wraps to `1`, and the back-conversion gives `(0, 1)`. -/
theorem coordinate_round_trip_counterexample :
    (0 : Int) < 65536 ∧
    (∀ q ∈ [((65536 : Int), (1 : Int))], 0 ≤ q.1 ∧ 0 ≤ q.2 ∧ q.2 < 65536) ∧
    linearize32 65536 [(65536, 1)] = [1] ∧
    delinearize 65536 (linearize32 65536 [(65536, 1)]) = [(0, 1)] ∧
    delinearize 65536 (linearize32 65536 [(65536, 1)]) ≠ [(65536, 1)] := by
  decide

/-- C19 (amended). Coordinate round trip: for every width `W > 0`, coordinates `(row, col)`
with `row ≥ 0`, `0 ≤ col < W` and a linear index `row * W + col` below `2^31` (so that the
32-bit index does not wrap) are given back by `(x / W, x % W)` applied to their linear
indices; the update engine returns as `new_update_locations` exactly the coordinates
`(x / W, x % W)` of the pixel indices `x` the rule-book builder reported, with `W` the
width of the rule book; and when that width is positive and the reported indices lie in
`[0, 2^31)`, each returned coordinate linearises to the reported index again and has
`row ≥ 0` and `0 ≤ col < W`. -/
theorem coordinate_round_trip (B : RuleBookBuilder) (L : AsynSparseConvolution2D R)
    (update_location : List (Int × Int)) (input_feature_map : List (List R))
    (active_sites_map : List Site) (rule_book : RuleBook) (no_update_locations : Bool)
    (c : List Site) (nl : List Int) (rb : RuleBook)
    (W : Int) (coordinates : List (Int × Int))
    (hW : 0 < W)
    (hcoord : ∀ q ∈ coordinates,
      0 ≤ q.1 ∧ 0 ≤ q.2 ∧ q.2 < W ∧ q.1 * W + q.2 < 2147483648)
    (hstep : ruleBookStep B L update_location input_feature_map active_sites_map rule_book
      no_update_locations = (c, nl, rb))
    (hbook : 0 < rb.W_)
    (hidx : ∀ x ∈ nl, 0 ≤ x ∧ x < 2147483648) :
    delinearize W (linearize32 W coordinates) = coordinates ∧
    (forward B L update_location input_feature_map active_sites_map rule_book
      no_update_locations).2.2.new_update_location =
      nl.map (fun x => (Int.tdiv x rb.W_, Int.tmod x rb.W_)) ∧
    linearize32 rb.W_ (forward B L update_location input_feature_map active_sites_map
      rule_book no_update_locations).2.2.new_update_location = nl ∧
    (∀ q ∈ (forward B L update_location input_feature_map active_sites_map rule_book
      no_update_locations).2.2.new_update_location, 0 ≤ q.1 ∧ 0 ≤ q.2 ∧ q.2 < rb.W_) := by
  have hret : (forward B L update_location input_feature_map active_sites_map rule_book
      no_update_locations).2.2.new_update_location = delinearize rb.W_ nl := by
    simp [forward, hstep]
  have hexact := round_trip_exact W coordinates [] hW
    (fun q hq => ⟨(hcoord q hq).1, (hcoord q hq).2.1, (hcoord q hq).2.2.1⟩)
    (fun x hx => absurd hx (List.not_mem_nil x))
  have hback := round_trip_exact rb.W_ [] nl hbook
    (fun q hq => absurd hq (List.not_mem_nil q)) (fun x hx => (hidx x hx).1)
  refine ⟨?_, ?_, ?_, ?_⟩
  · rw [linearize32_eq_linearize W coordinates (le_of_lt hW)]
    · exact hexact.1
    · intro q hq
      obtain ⟨h1, h2, _, h4⟩ := hcoord q hq
      refine ⟨h1, h2, ?_⟩
      rw [mul_comm W q.1, add_comm]
      exact h4
  · rw [hret]
    rfl
  · rw [hret, linearize32_eq_linearize rb.W_ _ (le_of_lt hbook)]
    · exact hback.2.1
    · intro q hq
      obtain ⟨g1, g2, _⟩ := hback.2.2 q hq
      refine ⟨g1, g2, ?_⟩
      unfold delinearize at hq
      obtain ⟨x, hx, rfl⟩ := List.mem_map.mp hq
      have hx2 := (hidx x hx).2
      have hsum : Int.tmod x rb.W_ + rb.W_ * Int.tdiv x rb.W_ = x := Int.tmod_add_tdiv x rb.W_
      simp only
      rw [hsum]
      exact hx2
  · rw [hret]
    exact hback.2.2

/-- The round trip for the width 3 and two coordinates, and for the three pixel indices
the builder of the sample call reports. -/
theorem coordinate_round_trip_witness :
    delinearize 3 (linearize32 3 [(0, 2), (4, 1)]) = [(0, 2), (4, 1)] ∧
    (forward sampleBuilder sampleLayer [(0, 1)] sampleInput
      [Site.ACTIVE, Site.ACTIVE, Site.ACTIVE] sampleBook false).2.2.new_update_location =
      [(0 : Int), 1, 2].map (fun x => (Int.tdiv x 3, Int.tmod x 3)) ∧
    linearize32 3 (forward sampleBuilder sampleLayer [(0, 1)] sampleInput
      [Site.ACTIVE, Site.ACTIVE, Site.ACTIVE] sampleBook false).2.2.new_update_location =
      [0, 1, 2] ∧
    (∀ q ∈ (forward sampleBuilder sampleLayer [(0, 1)] sampleInput
      [Site.ACTIVE, Site.ACTIVE, Site.ACTIVE] sampleBook false).2.2.new_update_location,
      0 ≤ q.1 ∧ 0 ≤ q.2 ∧ q.2 < 3) :=
  coordinate_round_trip sampleBuilder sampleLayer [(0, 1)] sampleInput
    [Site.ACTIVE, Site.ACTIVE, Site.ACTIVE] sampleBook false sampleSites [0, 1, 2]
    { W_ := 3, rules := sampleRules } 3 [(0, 2), (4, 1)] (by decide) (by decide) (by decide)
    (by decide) (by decide)

end Coordinates

/-! ## Feature-map state -/

section State

variable {R : Type} [LinearOrderedCommRing R]

theorem initMaps_flags (L : AsynSparseConvolution2D R) (H W : Int) :
    (initMaps L H W).initialized_input_maps_ = true ∧
      (initMaps L H W).initialized_output_maps_ = true := by
  unfold initMaps
  simp only
  split <;> split <;> simp_all

theorem initMaps_of_initialized (L : AsynSparseConvolution2D R) (H W : Int)
    (hin : L.initialized_input_maps_ = true) (hout : L.initialized_output_maps_ = true) :
    initMaps L H W = { L with H_ := H, W_ := W, num_pixels_ := H * W } := by
  simp [initMaps, hin, hout]

/-- A later call with other dimensions is not a no-op: after `initMaps(2, 2)`, the call
`initMaps(3, 3)` records the width 3, the height 3 and 9 pixels, while the buffers keep
their 4 rows. -/
theorem initMaps_later_call_counterexample :
    (initMaps (initMaps zeroLayer 2 2) 3 3).W_ = 3 ∧
    (initMaps zeroLayer 2 2).W_ = 2 ∧
    (initMaps (initMaps zeroLayer 2 2) 3 3).H_ ≠ (initMaps zeroLayer 2 2).H_ ∧
    (initMaps (initMaps zeroLayer 2 2) 3 3).num_pixels_ = 9 ∧
    (initMaps zeroLayer 2 2).num_pixels_ = 4 ∧
    (initMaps (initMaps zeroLayer 2 2) 3 3).output_feature_map_.length = 4 := by
  decide

/-- C12 (amended). The method `initMaps` allocates the zero-filled buffers only on the
first call of an instance: a first call on a fresh instance leaves the `H * W × nIn` and
`H * W × nOut` zero buffers, and every later call `initMaps(H', W')` leaves both buffers
and both allocation flags exactly as they were.  It records `H'`, `W'` and `H' * W'` as
the dimensions on every call, so it is a no-op when called again with the recorded
dimensions. -/
theorem initMaps_allocates_once (L : AsynSparseConvolution2D R) (H W H' W' : Int) :
    (L.initialized_input_maps_ = false →
      (initMaps L H W).old_input_feature_map_ = zeroMap (H * W).toNat L.nIn_) ∧
    (L.initialized_output_maps_ = false →
      (initMaps L H W).output_feature_map_ = zeroMap (H * W).toNat L.nOut_) ∧
    (initMaps (initMaps L H W) H' W').old_input_feature_map_ =
      (initMaps L H W).old_input_feature_map_ ∧
    (initMaps (initMaps L H W) H' W').output_feature_map_ =
      (initMaps L H W).output_feature_map_ ∧
    (initMaps (initMaps L H W) H' W').initialized_input_maps_ =
      (initMaps L H W).initialized_input_maps_ ∧
    (initMaps (initMaps L H W) H' W').initialized_output_maps_ =
      (initMaps L H W).initialized_output_maps_ ∧
    (initMaps (initMaps L H W) H' W').H_ = H' ∧
    (initMaps (initMaps L H W) H' W').W_ = W' ∧
    (initMaps (initMaps L H W) H' W').num_pixels_ = H' * W' ∧
    initMaps (initMaps L H W) H W = initMaps L H W := by
  obtain ⟨f1, f2⟩ := initMaps_flags L H W
  obtain ⟨d1, d2, d3⟩ := initMaps_dims L H W
  have hlater := initMaps_of_initialized (initMaps L H W) H' W' f1 f2
  have hsame := initMaps_of_initialized (initMaps L H W) H W f1 f2
  refine ⟨?_, ?_, ?_, ?_, ?_, ?_, ?_, ?_, ?_, ?_⟩
  · intro h
    cases h2 : L.initialized_output_maps_ <;> simp [initMaps, h, h2]
  · intro h
    cases h2 : L.initialized_input_maps_ <;> simp [initMaps, h, h2]
  · rw [hlater]
  · rw [hlater]
  · rw [hlater]
  · rw [hlater]
  · rw [hlater]
  · rw [hlater]
  · rw [hlater]
  · rw [hsame]
    cases hL : initMaps L H W
    rw [hL] at d1 d2 d3
    simp only at d1 d2 d3
    simp [d1, d2, d3]

/-- The first call `initMaps(2, 2)` on the fresh zero layer and the later call
`initMaps(3, 3)`. -/
theorem initMaps_allocates_once_witness :
    (initMaps (zeroLayer : AsynSparseConvolution2D ℤ) 2 2).old_input_feature_map_ =
      zeroMap ((2 : Int) * 2).toNat (zeroLayer : AsynSparseConvolution2D ℤ).nIn_ ∧
    (initMaps (zeroLayer : AsynSparseConvolution2D ℤ) 2 2).output_feature_map_ =
      zeroMap ((2 : Int) * 2).toNat (zeroLayer : AsynSparseConvolution2D ℤ).nOut_ ∧
    (initMaps (initMaps (zeroLayer : AsynSparseConvolution2D ℤ) 2 2) 3 3).output_feature_map_ =
      (initMaps (zeroLayer : AsynSparseConvolution2D ℤ) 2 2).output_feature_map_ ∧
    (initMaps (initMaps (zeroLayer : AsynSparseConvolution2D ℤ) 2 2) 3 3).W_ = 3 :=
  ⟨(initMaps_allocates_once (zeroLayer : AsynSparseConvolution2D ℤ) 2 2 3 3).1 (by decide),
    (initMaps_allocates_once (zeroLayer : AsynSparseConvolution2D ℤ) 2 2 3 3).2.1 (by decide),
    (initMaps_allocates_once (zeroLayer : AsynSparseConvolution2D ℤ) 2 2 3 3).2.2.2.1,
    (initMaps_allocates_once (zeroLayer : AsynSparseConvolution2D ℤ) 2 2 3 3).2.2.2.2.2.2.2.1⟩

/-- C14. State persistence: after every engine call the stored `previous_input` is the
feature map of that call, at every pixel, and the stored output is the output map the
call returned. -/
theorem state_persistence (B : RuleBookBuilder) (L : AsynSparseConvolution2D R)
    (update_location : List (Int × Int)) (input_feature_map : List (List R))
    (active_sites_map : List Site) (rule_book : RuleBook) (no_update_locations : Bool) :
    (forward B L update_location input_feature_map active_sites_map rule_book
      no_update_locations).1.old_input_feature_map_ = input_feature_map ∧
    (∀ i, rowAt (forward B L update_location input_feature_map active_sites_map rule_book
      no_update_locations).1.old_input_feature_map_ i = rowAt input_feature_map i) ∧
    (forward B L update_location input_feature_map active_sites_map rule_book
      no_update_locations).1.output_feature_map_ =
    (forward B L update_location input_feature_map active_sites_map rule_book
      no_update_locations).2.2.output_feature_map :=
  ⟨rfl, fun _ => rfl, rfl⟩

end State

/-! ## What an empty update list skips -/

section EmptyUpdateOutput

variable {R : Type} [LinearOrderedCommRing R]

/-- Accumulation is performed on an empty update list: on the sample layer with the rules
of an earlier call still in the rule book, a new feature map and every pixel `ACTIVE`,
the call with an empty update list returns an output map that differs from the persisted
one. -/
theorem empty_update_counterexample :
    sampleLayer.output_feature_map_ = [[5, 6], [7, 8], [9, 10]] ∧
    (forward sampleBuilder sampleLayer [] sampleInput [Site.ACTIVE, Site.ACTIVE, Site.ACTIVE]
      { W_ := 3, rules := sampleRules } true).2.2.output_feature_map =
      [[18, 24], [19, 24], [12, 14]] ∧
    (forward sampleBuilder sampleLayer [] sampleInput [Site.ACTIVE, Site.ACTIVE, Site.ACTIVE]
      { W_ := 3, rules := sampleRules } true).2.2.output_feature_map ≠
      sampleLayer.output_feature_map_ := by
  decide

/-- C15 (amended). On a call with an empty update list and the no-updates flag set the
rule-book update is skipped: the classification and the rule book stay as passed in and
no update location is returned.  The accumulation loop and the final loop still run over
them; the returned output map is the persisted one whenever every rule left in the rule
book names an input pixel whose feature row is unchanged (in particular when no rule is
left) and the classification holds only `ACTIVE` and `INACTIVE` pixels. -/
theorem empty_update_output (B : RuleBookBuilder) (L : AsynSparseConvolution2D R)
    (input_feature_map : List (List R)) (c : List Site) (rb : RuleBook)
    (hshape : RowsHaveLength L.output_feature_map_ L.nOut_)
    (hsteady : ∀ s ∈ c, s = Site.ACTIVE ∨ s = Site.INACTIVE)
    (hrules : ∀ k, k < L.filter_volume_ → ∀ rule ∈ rb.getRules k,
      rowAt input_feature_map rule.1 = rowAt L.old_input_feature_map_ rule.1) :
    ruleBookStep B L [] input_feature_map c rb true = (c, [], rb) ∧
    (forward B L [] input_feature_map c rb true).2.2.new_update_location = [] ∧
    (forward B L [] input_feature_map c rb true).2.2.active_sites_map = c ∧
    (forward B L [] input_feature_map c rb true).2.1 = rb ∧
    (forward B L [] input_feature_map c rb true).2.2.output_feature_map =
      L.output_feature_map_ := by
  have hstep : ruleBookStep B L [] input_feature_map c rb true = (c, [], rb) := by
    simp [ruleBookStep]
  have hna : ∀ s ∈ c, s ≠ Site.NEW_ACTIVE := by
    intro s hs
    rcases hsteady s hs with h | h <;> simp [h]
  have hni : ∀ s ∈ c, s ≠ Site.NEW_INACTIVE := by
    intro s hs
    rcases hsteady s hs with h | h <;> simp [h]
  have hacc : accumulate L input_feature_map c rb = L.output_feature_map_ := by
    apply accumulate_of_zero L input_feature_map c rb hshape
    intro k hk rule hrule
    rw [matVec_of_dot_zero, length_weightBlock]
    intro row _
    apply dot_of_right_zero
    have hne := siteAt_ne_of_forall c _ (by decide) hna rule.2
    simp only [deltaFeature, hne, ne_eq, not_false_eq_true, if_true, hrules k hk rule hrule]
    exact vsub_self_zero _
  refine ⟨hstep, ?_, ?_, ?_, ?_⟩
  · simp [forward, hstep, delinearize]
  · simp [forward, hstep]
  · simp [forward, hstep]
  · rw [forward_output B L _ _ _ _ _ c [] rb hstep, hacc]
    apply buffer_ext
    · rw [length_resetAndBias]
    · intro o ho
      rw [length_resetAndBias] at ho
      rw [rowAt_resetAndBias_of_ne L c _ hna hshape o ho]
      have hno := siteAt_ne_of_forall c _ (by decide) hni o
      simp [hno]

/-- An empty update list on the sample layer with an unchanged feature map and the stale
rule book. -/
theorem empty_update_output_witness :
    ruleBookStep sampleBuilder sampleLayer [] sampleLayer.old_input_feature_map_
        [Site.ACTIVE, Site.INACTIVE, Site.ACTIVE] { W_ := 3, rules := sampleRules } true =
      ([Site.ACTIVE, Site.INACTIVE, Site.ACTIVE], [], { W_ := 3, rules := sampleRules }) ∧
    (forward sampleBuilder sampleLayer [] sampleLayer.old_input_feature_map_
        [Site.ACTIVE, Site.INACTIVE, Site.ACTIVE] { W_ := 3, rules := sampleRules }
        true).2.2.new_update_location = [] ∧
    (forward sampleBuilder sampleLayer [] sampleLayer.old_input_feature_map_
        [Site.ACTIVE, Site.INACTIVE, Site.ACTIVE] { W_ := 3, rules := sampleRules }
        true).2.2.active_sites_map = [Site.ACTIVE, Site.INACTIVE, Site.ACTIVE] ∧
    (forward sampleBuilder sampleLayer [] sampleLayer.old_input_feature_map_
        [Site.ACTIVE, Site.INACTIVE, Site.ACTIVE] { W_ := 3, rules := sampleRules }
        true).2.1 = { W_ := 3, rules := sampleRules } ∧
    (forward sampleBuilder sampleLayer [] sampleLayer.old_input_feature_map_
        [Site.ACTIVE, Site.INACTIVE, Site.ACTIVE] { W_ := 3, rules := sampleRules }
        true).2.2.output_feature_map = sampleLayer.output_feature_map_ :=
  empty_update_output sampleBuilder sampleLayer sampleLayer.old_input_feature_map_
    [Site.ACTIVE, Site.INACTIVE, Site.ACTIVE] { W_ := 3, rules := sampleRules }
    (by decide) (by decide) (by decide)

end EmptyUpdateOutput

/-! ## Order of accumulation -/

section Order

variable {R : Type} [LinearOrderedCommRing R]

/-- The sum the rules of offset `k` add to channel `j` of pixel `o`. -/
theorem kernelSum_perm (L : AsynSparseConvolution2D R) (input_feature_map : List (List R))
    (c : List Site) (rb rb' : RuleBook) (o j k : Nat)
    (hperm : List.Perm (rb.getRules k) (rb'.getRules k)) :
    (((rb'.getRules k).filter fun rule => decide (rule.2 = o)).map fun rule =>
      chan (matVec (weightBlock L k) (deltaFeature L input_feature_map c rule)) j).sum =
    (((rb.getRules k).filter fun rule => decide (rule.2 = o)).map fun rule =>
      chan (matVec (weightBlock L k) (deltaFeature L input_feature_map c rule)) j).sum :=
  (((hperm.symm).filter _).map _).sum_eq

theorem length_addBuffers (a b : List (List R)) (h : a.length = b.length) :
    (addBuffers a b).length = a.length := by
  simp [addBuffers, List.length_zipWith, h]

theorem rowAt_addBuffers (a b : List (List R)) (h : a.length = b.length) (o : Nat) :
    rowAt (addBuffers a b) o = vadd (rowAt a o) (rowAt b o) := by
  unfold rowAt addBuffers
  rw [List.getD_eq_getElem?_getD, List.getD_eq_getElem?_getD, List.getD_eq_getElem?_getD,
    List.getElem?_zipWith]
  by_cases ho : o < a.length
  · have ho2 : o < b.length := h ▸ ho
    simp [List.getElem?_eq_getElem ho, List.getElem?_eq_getElem ho2]
  · have h1 : a.length ≤ o := Nat.le_of_not_lt ho
    have h2 : b.length ≤ o := h ▸ h1
    simp [List.getElem?_eq_none h1, List.getElem?_eq_none h2, vadd]

theorem length_partialBuffer (L : AsynSparseConvolution2D R)
    (input_feature_map : List (List R)) (c : List Site) (rb : RuleBook) (k : Nat) :
    (partialBuffer L input_feature_map c rb k).length = L.output_feature_map_.length := by
  unfold partialBuffer
  rw [accumulateKernel_eq_foldl, length_foldl_accumulateRule]
  simp [zeroMap]

/-- Row `o` of the partial sum of offset `k`. -/
theorem rowAt_partialBuffer (L : AsynSparseConvolution2D R)
    (input_feature_map : List (List R)) (c : List Site) (rb : RuleBook) (k o : Nat)
    (ho : o < L.output_feature_map_.length) :
    (rowAt (partialBuffer L input_feature_map c rb k) o).length = L.nOut_ ∧
    ∀ j, chan (rowAt (partialBuffer L input_feature_map c rb k) o) j =
      (((rb.getRules k).filter fun rule => decide (rule.2 = o)).map fun rule =>
        chan (matVec (weightBlock L k) (deltaFeature L input_feature_map c rule)) j).sum := by
  unfold partialBuffer
  rw [accumulateKernel_eq_foldl]
  have hz : (rowAt (zeroMap L.output_feature_map_.length L.nOut_ : List (List R)) o).length
      = L.nOut_ := by
    rw [rowAt_zeroMap _ _ o ho, List.length_replicate]
  obtain ⟨h1, h2⟩ := rowAt_foldl_accumulateRule L input_feature_map c (weightBlock L k)
    L.nOut_ o (length_weightBlock L k) (rb.getRules k) _ hz
  refine ⟨h1, fun j => ?_⟩
  rw [h2 j, rowAt_zeroMap _ _ o ho, chan_replicate_zero, zero_add]

theorem length_foldl_merge (L : AsynSparseConvolution2D R)
    (input_feature_map : List (List R)) (c : List Site) (rb : RuleBook) (ks : List Nat)
    (m : List (List R)) (hm : m.length = L.output_feature_map_.length) :
    (ks.foldl (fun m k => addBuffers m (partialBuffer L input_feature_map c rb k)) m).length
      = L.output_feature_map_.length := by
  induction ks generalizing m with
  | nil => exact hm
  | cons k rest ih =>
    rw [List.foldl_cons]
    apply ih
    rw [length_addBuffers _ _ (by rw [hm, length_partialBuffer]), hm]

/-- Row `o` after merging the partial sums of the offsets `ks` into a buffer. -/
theorem rowAt_foldl_merge (L : AsynSparseConvolution2D R) (input_feature_map : List (List R))
    (c : List Site) (rb : RuleBook) (o : Nat) (ho : o < L.output_feature_map_.length)
    (ks : List Nat) (m : List (List R)) (hm : m.length = L.output_feature_map_.length)
    (hrow : (rowAt m o).length = L.nOut_) :
    (ks.foldl (fun m k => addBuffers m (partialBuffer L input_feature_map c rb k)) m).length
        = L.output_feature_map_.length ∧
    (rowAt (ks.foldl (fun m k => addBuffers m (partialBuffer L input_feature_map c rb k)) m)
        o).length = L.nOut_ ∧
    ∀ j, chan (rowAt
        (ks.foldl (fun m k => addBuffers m (partialBuffer L input_feature_map c rb k)) m) o) j =
      chan (rowAt m o) j +
        (ks.map fun k =>
          (((rb.getRules k).filter fun rule => decide (rule.2 = o)).map fun rule =>
            chan (matVec (weightBlock L k) (deltaFeature L input_feature_map c rule))
              j).sum).sum := by
  induction ks generalizing m with
  | nil => exact ⟨hm, hrow, fun j => by simp⟩
  | cons k rest ih =>
    rw [List.foldl_cons]
    have hlen : m.length = (partialBuffer L input_feature_map c rb k).length := by
      rw [hm, length_partialBuffer]
    obtain ⟨p1, p2⟩ := rowAt_partialBuffer L input_feature_map c rb k o ho
    have hrl : (rowAt m o).length =
        (rowAt (partialBuffer L input_feature_map c rb k) o).length := by
      rw [hrow, p1]
    have hrow' : (rowAt (addBuffers m (partialBuffer L input_feature_map c rb k)) o).length
        = L.nOut_ := by
      rw [rowAt_addBuffers _ _ hlen, length_vadd _ _ hrl, hrow]
    obtain ⟨i1, i2, i3⟩ := ih (addBuffers m (partialBuffer L input_feature_map c rb k))
      (by rw [length_addBuffers _ _ hlen, hm]) hrow'
    refine ⟨i1, i2, fun j => ?_⟩
    rw [i3 j, rowAt_addBuffers _ _ hlen, chan_vadd _ _ hrl, p2 j, List.map_cons,
      List.sum_cons, add_assoc]

/-- What the rules add to channel `j` of pixel `o` does not depend on the visiting order of
the offsets nor on the order of the rules inside them. -/
theorem orderSum_perm (L : AsynSparseConvolution2D R)
    (input_feature_map : List (List R)) (c : List Site) (rb rb' : RuleBook) (ks : List Nat)
    (o j : Nat)
    (hperm : ∀ k, k < L.filter_volume_ → List.Perm (rb.getRules k) (rb'.getRules k))
    (hks : List.Perm ks (List.range L.filter_volume_)) :
    (ks.map fun k =>
      (((rb'.getRules k).filter fun rule => decide (rule.2 = o)).map fun rule =>
        chan (matVec (weightBlock L k) (deltaFeature L input_feature_map c rule)) j).sum).sum =
    ((List.range L.filter_volume_).map fun k =>
      (((rb.getRules k).filter fun rule => decide (rule.2 = o)).map fun rule =>
        chan (matVec (weightBlock L k) (deltaFeature L input_feature_map c rule)) j).sum).sum := by
  rw [(hks.map _).sum_eq]
  congr 1
  apply List.map_congr_left
  intro k hk
  exact kernelSum_perm L input_feature_map c rb rb' o j k (hperm k (List.mem_range.mp hk))

/-- C20. Order independence of accumulation: for a fixed persisted state (output rows of
`nOut_` coefficients), input and classification `c` after the rule-book step, the output
map the engine returns is also obtained when the rules inside each kernel offset are
permuted (`rb'`) and the offsets are visited in any order `ks`, and also when the
per-offset partial sums are accumulated separately and merged into the persisted output
afterwards. -/
theorem accumulation_order_independent (B : RuleBookBuilder) (L : AsynSparseConvolution2D R)
    (update_location : List (Int × Int)) (input_feature_map : List (List R))
    (active_sites_map : List Site) (rule_book : RuleBook) (no_update_locations : Bool)
    (c : List Site) (nl : List Int) (rb rb' : RuleBook) (ks : List Nat)
    (hstep : ruleBookStep B L update_location input_feature_map active_sites_map rule_book
      no_update_locations = (c, nl, rb))
    (hshape : RowsHaveLength L.output_feature_map_ L.nOut_)
    (hperm : ∀ k, k < L.filter_volume_ → List.Perm (rb.getRules k) (rb'.getRules k))
    (hks : List.Perm ks (List.range L.filter_volume_)) :
    resetAndBias L c (accumulateInOrder L input_feature_map c rb' ks) =
      (forward B L update_location input_feature_map active_sites_map rule_book
        no_update_locations).2.2.output_feature_map ∧
    resetAndBias L c (mergePartials L input_feature_map c rb' ks) =
      (forward B L update_location input_feature_map active_sites_map rule_book
        no_update_locations).2.2.output_feature_map := by
  rw [forward_output B L _ _ _ _ _ c nl rb hstep]
  have hacc : accumulateInOrder L input_feature_map c rb' ks =
      accumulate L input_feature_map c rb := by
    apply buffer_ext
    · unfold accumulateInOrder accumulate
      rw [length_accumulate_kernels, length_accumulate_kernels]
    · intro o ho
      unfold accumulateInOrder at ho
      rw [length_accumulate_kernels] at ho
      have hrow := rowAt_length_of_shape _ _ o hshape ho
      obtain ⟨a1, a2⟩ := rowAt_foldl_accumulateKernel L input_feature_map c rb' o ks
        L.output_feature_map_ hrow
      obtain ⟨b1, b2⟩ := rowAt_foldl_accumulateKernel L input_feature_map c rb o
        (List.range L.filter_volume_) L.output_feature_map_ hrow
      apply row_ext_chan _ _ L.nOut_ a1 b1
      intro j _
      rw [a2 j, b2 j, orderSum_perm L input_feature_map c rb rb' ks o j hperm hks]
  have hmerge : mergePartials L input_feature_map c rb' ks =
      accumulate L input_feature_map c rb := by
    have hlen : (mergePartials L input_feature_map c rb' ks).length =
        L.output_feature_map_.length :=
      length_foldl_merge L input_feature_map c rb' ks L.output_feature_map_ rfl
    apply buffer_ext
    · rw [hlen]
      unfold accumulate
      rw [length_accumulate_kernels]
    · intro o ho
      rw [hlen] at ho
      have hrow := rowAt_length_of_shape _ _ o hshape ho
      obtain ⟨_, a1, a2⟩ := rowAt_foldl_merge L input_feature_map c rb' o ho ks
        L.output_feature_map_ rfl hrow
      obtain ⟨b1, b2⟩ := rowAt_foldl_accumulateKernel L input_feature_map c rb o
        (List.range L.filter_volume_) L.output_feature_map_ hrow
      apply row_ext_chan _ _ L.nOut_ a1 b1
      intro j _
      rw [a2 j, b2 j, orderSum_perm L input_feature_map c rb rb' ks o j hperm hks]
  rw [hacc, hmerge]
  exact ⟨rfl, rfl⟩

/-- Order independence on the layer with two offsets: rules permuted inside both
offsets, offset 1 visited before offset 0. -/
theorem accumulation_order_independent_witness :
    resetAndBias orderLayer [Site.ACTIVE, Site.NEW_ACTIVE, Site.NEW_INACTIVE]
        (accumulateInOrder orderLayer [[4], [5], [6]]
          [Site.ACTIVE, Site.NEW_ACTIVE, Site.NEW_INACTIVE]
          { W_ := 3, rules := orderRulesPermuted } [1, 0]) =
      (forward
        (scriptedBuilder [Site.ACTIVE, Site.NEW_ACTIVE, Site.NEW_INACTIVE] [0, 1, 2] orderRules)
        orderLayer [(0, 1)] [[4], [5], [6]] [Site.ACTIVE, Site.ACTIVE, Site.ACTIVE]
        { W_ := 3, rules := [] } false).2.2.output_feature_map ∧
    resetAndBias orderLayer [Site.ACTIVE, Site.NEW_ACTIVE, Site.NEW_INACTIVE]
        (mergePartials orderLayer [[4], [5], [6]]
          [Site.ACTIVE, Site.NEW_ACTIVE, Site.NEW_INACTIVE]
          { W_ := 3, rules := orderRulesPermuted } [1, 0]) =
      (forward
        (scriptedBuilder [Site.ACTIVE, Site.NEW_ACTIVE, Site.NEW_INACTIVE] [0, 1, 2] orderRules)
        orderLayer [(0, 1)] [[4], [5], [6]] [Site.ACTIVE, Site.ACTIVE, Site.ACTIVE]
        { W_ := 3, rules := [] } false).2.2.output_feature_map :=
  accumulation_order_independent
    (scriptedBuilder [Site.ACTIVE, Site.NEW_ACTIVE, Site.NEW_INACTIVE] [0, 1, 2] orderRules)
    orderLayer [(0, 1)] [[4], [5], [6]] [Site.ACTIVE, Site.ACTIVE, Site.ACTIVE]
    { W_ := 3, rules := [] } false [Site.ACTIVE, Site.NEW_ACTIVE, Site.NEW_INACTIVE] [0, 1, 2]
    { W_ := 3, rules := orderRules } { W_ := 3, rules := orderRulesPermuted } [1, 0]
    (by decide) (by decide) (by decide) (by decide)

end Order

/-! ## Buffer shapes -/

section Shapes

variable {R : Type} [LinearOrderedCommRing R]

theorem length_resetBiasRow (L : AsynSparseConvolution2D R) (s : Site) (row : List R)
    (hrow : row.length = L.nOut_) (hbias : L.use_bias_ = true → L.bias_.length = L.nOut_) :
    (resetBiasRow L s row).length = L.nOut_ := by
  unfold resetBiasRow
  have h0 : ((List.range L.nOut_).foldl (fun r j => r.set j 0) row).length = L.nOut_ := by
    rw [foldl_set_zero_eq_replicate _ _ hrow, List.length_replicate]
  have h1 : (if s = Site.NEW_INACTIVE then
      (List.range L.nOut_).foldl (fun r j => r.set j 0) row else row).length = L.nOut_ := by
    split
    · exact h0
    · exact hrow
  simp only []
  split
  · rename_i hc
    have hb : L.use_bias_ = true := by
      cases hu : L.use_bias_
      · rw [hu] at hc
        simp at hc
      · rfl
    rw [length_vadd _ _ (by rw [h1, hbias hb]), h1]
  · exact h1

theorem rowsHaveLength_resetAndBias (L : AsynSparseConvolution2D R) (c : List Site)
    (out : List (List R)) (hout : RowsHaveLength out L.nOut_)
    (hbias : L.use_bias_ = true → L.bias_.length = L.nOut_) :
    RowsHaveLength (resetAndBias L c out) L.nOut_ := by
  apply rowsHaveLength_of_rowAt
  intro o ho
  rw [length_resetAndBias] at ho
  rw [rowAt_resetAndBias]
  have hrow := rowAt_length_of_shape _ _ o hout ho
  split
  · exact length_resetBiasRow L _ _ hrow hbias
  · exact hrow

/-- One engine call keeps the shape of the output buffer. -/
theorem forward_output_shape (B : RuleBookBuilder) (L : AsynSparseConvolution2D R)
    (update_location : List (Int × Int)) (input_feature_map : List (List R))
    (active_sites_map : List Site) (rule_book : RuleBook) (no_update_locations : Bool)
    (hshape : RowsHaveLength L.output_feature_map_ L.nOut_)
    (hbias : L.use_bias_ = true → L.bias_.length = L.nOut_) :
    (forward B L update_location input_feature_map active_sites_map rule_book
      no_update_locations).1.output_feature_map_.length = L.output_feature_map_.length ∧
    RowsHaveLength (forward B L update_location input_feature_map active_sites_map rule_book
      no_update_locations).1.output_feature_map_ L.nOut_ := by
  refine ⟨length_forward_output B L _ _ _ _ _, ?_⟩
  rw [forward_state]
  exact rowsHaveLength_resetAndBias L _ _ (rowsHaveLength_accumulate L _ _ _ hshape) hbias

/-- A later call with a map of another shape changes the shape of `previous_input`: a first
layer with `nIn = 1` is first called on a `2 × 1` image and then on a `3 × 1` image (one
column, so the reshaping of the map changes nothing); `previous_input` then has 3 rows
although the buffers were allocated for 2 pixels, and the output buffer keeps its 2 rows. -/
theorem buffer_shape_counterexample :
    (forwardTopLevel activatingBuilder (fun _ _ => 0) zeroLayer [] [[1], [2]] []
      { W_ := 0, rules := [] }).1.old_input_feature_map_.length = 2 ∧
    (forwardTopLevel activatingBuilder (fun _ _ => 0)
      (forwardTopLevel activatingBuilder (fun _ _ => 0) zeroLayer [] [[1], [2]] []
        { W_ := 0, rules := [] }).1
      [] [[1], [2], [3]] [] { W_ := 0, rules := [] }).1.old_input_feature_map_ =
      [[1], [2], [3]] ∧
    (forwardTopLevel activatingBuilder (fun _ _ => 0)
      (forwardTopLevel activatingBuilder (fun _ _ => 0) zeroLayer [] [[1], [2]] []
        { W_ := 0, rules := [] }).1
      [] [[1], [2], [3]] [] { W_ := 0, rules := [] }).1.output_feature_map_.length = 2 := by
  decide

/-- Engine calls keep the shapes: after `initMaps(H, W)` on a fresh instance and every
sequence of engine calls whose feature maps have `H * W` rows of `nIn` coefficients, both
buffers have their `H * W` rows, of `nIn` and of `nOut` coefficients. -/
theorem engine_shapes_kept (B : RuleBookBuilder) (L : AsynSparseConvolution2D R) (H W : Int)
    (calls : List (Call R))
    (hin : L.initialized_input_maps_ = false) (hout : L.initialized_output_maps_ = false)
    (hbias : L.use_bias_ = true → L.bias_.length = L.nOut_)
    (hcalls : ∀ call ∈ calls, call.input_feature_map.length = (H * W).toNat ∧
      RowsHaveLength call.input_feature_map L.nIn_) :
    (runCalls B (initMaps L H W) calls).old_input_feature_map_.length = (H * W).toNat ∧
    RowsHaveLength (runCalls B (initMaps L H W) calls).old_input_feature_map_ L.nIn_ ∧
    (runCalls B (initMaps L H W) calls).output_feature_map_.length = (H * W).toNat ∧
    RowsHaveLength (runCalls B (initMaps L H W) calls).output_feature_map_ L.nOut_ := by
  have inv : ∀ (calls : List (Call R)) (S : AsynSparseConvolution2D R),
      (∀ call ∈ calls, call.input_feature_map.length = (H * W).toNat ∧
        RowsHaveLength call.input_feature_map L.nIn_) →
      S.nOut_ = L.nOut_ → S.use_bias_ = L.use_bias_ → S.bias_ = L.bias_ →
      S.old_input_feature_map_.length = (H * W).toNat →
      RowsHaveLength S.old_input_feature_map_ L.nIn_ →
      S.output_feature_map_.length = (H * W).toNat →
      RowsHaveLength S.output_feature_map_ L.nOut_ →
      (runCalls B S calls).old_input_feature_map_.length = (H * W).toNat ∧
      RowsHaveLength (runCalls B S calls).old_input_feature_map_ L.nIn_ ∧
      (runCalls B S calls).output_feature_map_.length = (H * W).toNat ∧
      RowsHaveLength (runCalls B S calls).output_feature_map_ L.nOut_ := by
    intro calls
    induction calls with
    | nil => intro S _ _ _ _ h1 h2 h3 h4; exact ⟨h1, h2, h3, h4⟩
    | cons call rest ih =>
      intro S hc hn hu hb _ _ h3 h4
      unfold runCalls
      rw [List.foldl_cons]
      obtain ⟨c1, c2⟩ := hc call (List.mem_cons_self _ _)
      obtain ⟨s1, s2⟩ := forward_output_shape B S call.update_location call.input_feature_map
        call.active_sites_map call.rule_book call.no_update_locations (hn ▸ h4)
        (by rw [hu, hb, hn]; exact hbias)
      apply ih
      · exact fun x hx => hc x (List.mem_cons_of_mem _ hx)
      · rw [forward_state]
        exact hn
      · rw [forward_state]
        exact hu
      · rw [forward_state]
        exact hb
      · rw [forward_state]
        exact c1
      · rw [forward_state]
        exact c2
      · rw [s1, h3]
      · rw [← hn]
        exact s2
  have h1 : (initMaps L H W).output_feature_map_ = zeroMap (H * W).toNat L.nOut_ := by
    simp [initMaps, hin, hout]
  have h2 : (initMaps L H W).old_input_feature_map_ = zeroMap (H * W).toNat L.nIn_ := by
    simp [initMaps, hin, hout]
  apply inv calls (initMaps L H W) hcalls
  · simp [initMaps, hin, hout]
  · simp [initMaps, hin, hout]
  · simp [initMaps, hin, hout]
  · rw [h2]
    simp [zeroMap]
  · rw [h2]
    exact rowsHaveLength_zeroMap _ _
  · rw [h1]
    simp [zeroMap]
  · rw [h1]
    exact rowsHaveLength_zeroMap _ _

end Shapes

/-! ## The top-level entry -/

section TopLevel

theorem length_resizeNoChange {R : Type} (fresh : Nat → Nat → R) (m : List (List R)) (cols : Nat) :
    (resizeNoChange fresh m cols).length = m.length := by
  unfold resizeNoChange
  split <;> simp

variable {R : Type} [LinearOrderedCommRing R]

theorem engineArguments_input (B : RuleBookBuilder) (fresh : Nat → Nat → R)
    (L : AsynSparseConvolution2D R) (update_location : List (Int × Int))
    (feature_map : List (List R)) (active_sites_map : List Site) (rulebook : RuleBook) :
    (engineArguments B fresh L update_location feature_map active_sites_map
      rulebook).2.input_feature_map = resizeNoChange fresh feature_map L.nIn_ := by
  unfold engineArguments
  cases L.first_layer_ <;> simp

/-- C16. Input layout, as the code has it: the buffer handed to the update engine has the
`H` rows of the given map, not `H * W`; for the `1 × 2` image `[[1, 2]]` of a layer with
`nIn = 1` (`H = 1`, `W = 2`) the engine receives one row holding an unspecified value,
whatever that value is, and not the two rows `[[1], [2]]` of the two pixels. -/
theorem input_layout_keeps_rows :
    (∀ (B : RuleBookBuilder) (fresh : Nat → Nat → R) (L : AsynSparseConvolution2D R)
      (update_location : List (Int × Int)) (feature_map : List (List R))
      (active_sites_map : List Site) (rulebook : RuleBook),
      (engineArguments B fresh L update_location feature_map active_sites_map
        rulebook).2.input_feature_map.length = feature_map.length) ∧
    (∀ (B : RuleBookBuilder) (fresh : Nat → Nat → ℤ) (rulebook : RuleBook),
      (engineArguments B fresh zeroLayer [] [[1, 2]] [] rulebook).2.input_feature_map =
        [[fresh 0 0]] ∧
      (engineArguments B fresh zeroLayer [] [[1, 2]] [] rulebook).2.input_feature_map ≠
        [[1], [2]]) := by
  refine ⟨?_, ?_⟩
  · intro B fresh L update_location feature_map active_sites_map rulebook
    rw [engineArguments_input, length_resizeNoChange]
  · intro B fresh rulebook
    have h : (engineArguments B fresh zeroLayer [] [[1, 2]] [] rulebook).2.input_feature_map =
        [[fresh 0 0]] := rfl
    rw [h]
    exact ⟨rfl, by simp⟩

/-- A first-processing layer classifies again on its second call: after a first call on the
`1 × 1` image `[[3]]`, a second call that passes the classification `[NEW_INACTIVE]` hands
`[ACTIVE]` to the engine. -/
theorem classifier_later_call_counterexample :
    (engineArguments activatingBuilder (fun _ _ => (0 : ℤ))
      (forwardTopLevel activatingBuilder (fun _ _ => (0 : ℤ)) zeroLayer [] [[3]] []
        { W_ := 0, rules := [] }).1
      [] [[3]] [Site.NEW_INACTIVE] { W_ := 0, rules := [] }).2.active_sites_map =
      [Site.ACTIVE] ∧
    (forwardTopLevel activatingBuilder (fun _ _ => (0 : ℤ)) zeroLayer [] [[3]] []
      { W_ := 0, rules := [] }).1.initialized_input_maps_ = true := by
  decide

/-- C17 (amended). Classifier runs on every call: on a first-processing layer every
top-level forward call, whatever the state of the layer, computes the classification
handed to the update engine with `initActiveMap` from the reshaped feature map and the
update list (the placeholder `(0, 0)` when the list is empty), so that the classification
passed in by the caller has no influence; only on a layer that is not first-processing
does the classification passed in reach the update engine unchanged. -/
theorem classifier_runs_every_call (B : RuleBookBuilder) (fresh : Nat → Nat → R)
    (L : AsynSparseConvolution2D R) (update_location : List (Int × Int))
    (feature_map : List (List R)) (active_sites_map active_sites_map' : List Site)
    (rulebook : RuleBook) :
    (L.first_layer_ = true →
      (engineArguments B fresh L update_location feature_map active_sites_map
        rulebook).2.active_sites_map =
        initActiveMap
          (initMaps L feature_map.length (Int.tdiv (colsOf feature_map) L.nIn_))
          (resizeNoChange fresh feature_map L.nIn_)
          (if update_location.length = 0 then [(0, 0)] else update_location) ∧
      (engineArguments B fresh L update_location feature_map active_sites_map
        rulebook).2.active_sites_map =
      (engineArguments B fresh L update_location feature_map active_sites_map'
        rulebook).2.active_sites_map) ∧
    (L.first_layer_ = false →
      (engineArguments B fresh L update_location feature_map active_sites_map
        rulebook).2.active_sites_map = active_sites_map) := by
  refine ⟨?_, ?_⟩
  · intro h
    unfold engineArguments
    simp [h]
  · intro h
    unfold engineArguments
    simp [h]

/-- The first-processing zero layer on the `1 × 1` image `[[3]]` with two different
classifications passed in. -/
theorem classifier_runs_every_call_witness :
    (engineArguments activatingBuilder (fun _ _ => (0 : ℤ)) zeroLayer [] [[3]]
      [Site.NEW_INACTIVE] { W_ := 0, rules := [] }).2.active_sites_map =
    (engineArguments activatingBuilder (fun _ _ => (0 : ℤ)) zeroLayer [] [[3]]
      [Site.INACTIVE] { W_ := 0, rules := [] }).2.active_sites_map :=
  ((classifier_runs_every_call activatingBuilder (fun _ _ => (0 : ℤ)) zeroLayer [] [[3]]
    [Site.NEW_INACTIVE] [Site.INACTIVE] { W_ := 0, rules := [] }).1 (by decide)).2

/-- C18. Placeholder location, as the code has it: for the `1 × 2` image `[[0, 5]]` of a
first-processing layer with `nIn = 1` and an empty update list, pixel `(0, 0)` is marked
`ACTIVE` and the engine is invoked with the empty list and the no-updates flag set, but
pixel `(0, 1)`, whose feature `5` has a non-zero L1 norm, is left `INACTIVE`, whatever
values the reshaped buffer holds. -/
theorem placeholder_classification_failing_input (B : RuleBookBuilder)
    (fresh : Nat → Nat → ℤ) (rulebook : RuleBook) :
    (engineArguments B fresh zeroLayer [] [[0, 5]] [] rulebook).2.active_sites_map =
      [Site.ACTIVE, Site.INACTIVE] ∧
    l1norm [(5 : ℤ)] ≠ 0 ∧
    (engineArguments B fresh zeroLayer [] [[0, 5]] [] rulebook).2.update_location = [] ∧
    (engineArguments B fresh zeroLayer [] [[0, 5]] [] rulebook).2.no_update_locations =
      true := by
  refine ⟨?_, by decide, rfl, rfl⟩
  have h : (engineArguments B fresh zeroLayer [] [[0, 5]] [] rulebook).2.active_sites_map =
      initActiveMap (initMaps zeroLayer 1 2) [[fresh 0 0]] [(0, 0)] := rfl
  rw [h]
  have hrow : rowAt [[fresh 0 0]] 0 = [fresh 0 0] := rfl
  by_cases hz : 0 < l1norm [fresh 0 0]
  · simp [initActiveMap, markNonzero, markUpdated, initMaps, zeroLayer, setParameters,
      construct, linearize, setSiteInt, List.range_succ, hrow, hz]
  · simp [initActiveMap, markNonzero, markUpdated, initMaps, zeroLayer, setParameters,
      construct, linearize, setSiteInt, List.range_succ, hrow, hz]

end TopLevel

/-! ## The delta rule in scalars -/

section DeltaRule

variable {R : Type} [LinearOrderedCommRing R]

theorem dot_eq_sum_range (row v : List R) :
    dot row v = ((List.range row.length).map fun c => row.getD c 0 * v.getD c 0).sum := by
  induction row generalizing v with
  | nil => simp [dot]
  | cons r rs ih =>
    cases v with
    | nil => simp [dot]
    | cons x xs =>
      have h := ih xs
      unfold dot at h
      simp only [dot, List.zipWith_cons_cons, List.sum_cons, List.length_cons,
        List.range_succ_eq_map, List.map_cons, List.map_map, List.getD_cons_zero]
      rw [h]
      rfl

theorem getD_vsub (a b : List R) (h : a.length = b.length) (c : Nat) :
    (vsub a b).getD c 0 = a.getD c 0 - b.getD c 0 := by
  unfold vsub
  simp only [List.getD_eq_getElem?_getD, List.getElem?_zipWith]
  by_cases hc : c < a.length
  · have hb : c < b.length := h ▸ hc
    simp [List.getElem?_eq_getElem hc, List.getElem?_eq_getElem hb]
  · have hb : ¬ c < b.length := h ▸ hc
    simp [List.getElem?_eq_none (Nat.le_of_not_lt hc),
      List.getElem?_eq_none (Nat.le_of_not_lt hb)]

/-- Channel `j` of a block product, in scalars. -/
theorem chan_matVec_weightBlock (L : AsynSparseConvolution2D R) (k j : Nat) (d : List R)
    (hj : j < L.nOut_) :
    chan (matVec (weightBlock L k) d) j =
      ((List.range L.nIn_).map fun c =>
        (L.weights_.getD k []).getD (j + c * L.nOut_) 0 * d.getD c 0).sum := by
  rw [chan_matVec, length_weightBlock, if_pos hj, dot_eq_sum_range]
  have hrow : rowAt (weightBlock L k) j =
      (List.range L.nIn_).map fun c => (L.weights_.getD k []).getD (j + c * L.nOut_) 0 := by
    simp [weightBlock, reshaped, rowAt, List.getD_eq_getElem?_getD, List.getElem?_map,
      List.getElem?_range hj]
  rw [hrow, List.length_map, List.length_range]
  congr 1
  apply List.map_congr_left
  intro c hc
  have hc' : c < L.nIn_ := List.mem_range.mp hc
  simp [List.getD_eq_getElem?_getD, List.getElem?_map, List.getElem?_range hc']

/-- The sum of block products with the difference rows is the scalar delta sum. -/
theorem ruleSum_vsub_eq (L : AsynSparseConvolution2D R) (rb : RuleBook)
    (input_feature_map : List (List R)) (c : List Site) (o j : Nat)
    (hrange : RulesInRange L input_feature_map c rb)
    (hin : RowsHaveLength input_feature_map L.nIn_)
    (hold : RowsHaveLength L.old_input_feature_map_ L.nIn_)
    (hj : j < L.nOut_) :
    ruleSum L rb
      (fun i => vsub (rowAt input_feature_map i) (rowAt L.old_input_feature_map_ i)) o j =
    steadyDeltaSum L rb input_feature_map o j := by
  unfold ruleSum steadyDeltaSum
  congr 1
  apply List.map_congr_left
  intro k hk
  have hk' : k < L.filter_volume_ := List.mem_range.mp hk
  congr 1
  apply List.map_congr_left
  intro rule hrule
  have hmem : rule ∈ rb.getRules k := (List.mem_filter.mp hrule).1
  obtain ⟨r1, r2, _, _⟩ := hrange k hk' rule hmem
  have l1 := rowAt_length_of_shape _ _ rule.1 hin r1
  have l2 := rowAt_length_of_shape _ _ rule.1 hold r2
  rw [chan_matVec_weightBlock L k j _ hj]
  congr 1
  apply List.map_congr_left
  intro ch _
  rw [getD_vsub _ _ (l1.trans l2.symm)]
  rfl

/-- C1. Delta rule for steady pixels: in a call of the update engine whose rule indices are
all in range (feature rows of `nIn_` coefficients, output rows of `nOut_`), with `c` the
classification and `rb` the rule book after the rule-book step, a pixel `o` classified
`ACTIVE` or `INACTIVE` has, in every channel `j` below `nOut_`, returned output(o, j) =
persisted output(o, j) + the sum over the kernel offsets `k`, the rules `(i, o)` of offset
`k` and the input channels `c` of `W_k(j, c) * (input(i, c) - previous_input(i, c))`; the
returned row has `nOut_` coefficients, and it is the persisted row when no rule has
output `o`. -/
theorem delta_rule_steady_pixels (B : RuleBookBuilder) (L : AsynSparseConvolution2D R)
    (update_location : List (Int × Int)) (input_feature_map : List (List R))
    (active_sites_map : List Site) (rule_book : RuleBook) (no_update_locations : Bool)
    (c : List Site) (nl : List Int) (rb : RuleBook) (o : Nat)
    (hstep : ruleBookStep B L update_location input_feature_map active_sites_map rule_book
      no_update_locations = (c, nl, rb))
    (hrange : RulesInRange L input_feature_map c rb)
    (hin : RowsHaveLength input_feature_map L.nIn_)
    (hold : RowsHaveLength L.old_input_feature_map_ L.nIn_)
    (hshape : RowsHaveLength L.output_feature_map_ L.nOut_)
    (ho : o < L.output_feature_map_.length)
    (hc : siteAt c o = Site.ACTIVE ∨ siteAt c o = Site.INACTIVE) :
    (((forward B L update_location input_feature_map active_sites_map rule_book
        no_update_locations).2.2.output_feature_map).getD o []).length = L.nOut_ ∧
    (∀ j, j < L.nOut_ →
      (((forward B L update_location input_feature_map active_sites_map rule_book
        no_update_locations).2.2.output_feature_map).getD o []).getD j 0 =
      (L.output_feature_map_.getD o []).getD j 0 +
        ((List.range L.filter_volume_).map fun k =>
          (((rb.getRules k).filter fun rule => decide (rule.2 = o)).map fun rule =>
            ((List.range L.nIn_).map fun ch =>
              (L.weights_.getD k []).getD (j + ch * L.nOut_) 0 *
                ((input_feature_map.getD rule.1 []).getD ch 0 -
                  (L.old_input_feature_map_.getD rule.1 []).getD ch 0)).sum).sum).sum) ∧
    ((∀ k, k < L.filter_volume_ → ∀ rule ∈ rb.getRules k, rule.2 ≠ o) →
      ((forward B L update_location input_feature_map active_sites_map rule_book
        no_update_locations).2.2.output_feature_map).getD o [] =
        L.output_feature_map_.getD o []) := by
  obtain ⟨h1, h2, h3⟩ := steady_pixel_ruleSum B L update_location input_feature_map
    active_sites_map rule_book no_update_locations c nl rb o hstep hrange hshape ho hc
  refine ⟨h1, ?_, h3⟩
  intro j hj
  have h := h2 j
  rw [ruleSum_vsub_eq L rb input_feature_map c o j hrange hin hold hj] at h
  exact h

/-- The delta rule at pixel 0 (classified `ACTIVE`) of the sample call, whose returned
row is `[5 + 1 * (2 - 1) + 3 * (1 - 0), 6 + 2 * (2 - 1) + 4 * (1 - 0)]`. -/
theorem delta_rule_steady_pixels_witness :
    (((forward sampleBuilder sampleLayer [(0, 1)] sampleInput
        [Site.ACTIVE, Site.ACTIVE, Site.ACTIVE] sampleBook false).2.2.output_feature_map).getD
        0 []).length = 2 ∧
    (∀ j, j < 2 →
      (((forward sampleBuilder sampleLayer [(0, 1)] sampleInput
        [Site.ACTIVE, Site.ACTIVE, Site.ACTIVE] sampleBook false).2.2.output_feature_map).getD
        0 []).getD j 0 =
      (([[5, 6], [7, 8], [9, 10]] : List (List ℤ)).getD 0 []).getD j 0 +
        ((List.range 1).map fun k =>
          (((RuleBook.getRules { W_ := 3, rules := sampleRules } k).filter
              fun rule => decide (rule.2 = 0)).map fun rule =>
            ((List.range 2).map fun ch =>
              (([[1, 2, 3, 4]] : List (List ℤ)).getD k []).getD (j + ch * 2) 0 *
                ((([[2, 1], [0, 5], [3, 4]] : List (List ℤ)).getD rule.1 []).getD ch 0 -
                  (([[1, 0], [0, 2], [3, 3]] : List (List ℤ)).getD rule.1 []).getD ch
                    0)).sum).sum).sum) ∧
    ((∀ k, k < 1 →
        ∀ rule ∈ RuleBook.getRules { W_ := 3, rules := sampleRules } k, rule.2 ≠ 0) →
      ((forward sampleBuilder sampleLayer [(0, 1)] sampleInput
        [Site.ACTIVE, Site.ACTIVE, Site.ACTIVE] sampleBook false).2.2.output_feature_map).getD
        0 [] = ([[5, 6], [7, 8], [9, 10]] : List (List ℤ)).getD 0 []) :=
  delta_rule_steady_pixels sampleBuilder sampleLayer [(0, 1)] sampleInput
    [Site.ACTIVE, Site.ACTIVE, Site.ACTIVE] sampleBook false sampleSites [0, 1, 2]
    { W_ := 3, rules := sampleRules } 0 (by decide) (by decide) (by decide) (by decide)
    (by decide) (by decide) (by decide)

end DeltaRule

/-! ## Buffer shapes across top-level calls -/

section TopLevelShapes

variable {R : Type} [LinearOrderedCommRing R]

theorem initMaps_config (L : AsynSparseConvolution2D R) (H W : Int) :
    (initMaps L H W).nIn_ = L.nIn_ ∧ (initMaps L H W).nOut_ = L.nOut_ ∧
    (initMaps L H W).use_bias_ = L.use_bias_ ∧ (initMaps L H W).bias_ = L.bias_ := by
  unfold initMaps
  simp only
  split <;> split <;> exact ⟨rfl, rfl, rfl, rfl⟩

theorem engineArguments_layer (B : RuleBookBuilder) (fresh : Nat → Nat → R)
    (L : AsynSparseConvolution2D R) (update_location : List (Int × Int))
    (feature_map : List (List R)) (active_sites_map : List Site) (rulebook : RuleBook) :
    (engineArguments B fresh L update_location feature_map active_sites_map rulebook).1 =
      initMaps L feature_map.length (Int.tdiv (colsOf feature_map) L.nIn_) := by
  unfold engineArguments
  cases L.first_layer_ <;> simp

/-- One top-level call: the configuration stays, both flags are set, `previous_input` is
the reshaped buffer of the call and the output keeps the shape `initMaps` left. -/
theorem forwardTopLevel_step (B : RuleBookBuilder) (fresh : Nat → Nat → R)
    (S : AsynSparseConvolution2D R) (call : TopCall R)
    (hshape : RowsHaveLength
      (initMaps S call.feature_map.length
        (Int.tdiv (colsOf call.feature_map) S.nIn_)).output_feature_map_ S.nOut_)
    (hbias : S.use_bias_ = true → S.bias_.length = S.nOut_) :
    (forwardTopLevel B fresh S call.update_location call.feature_map call.active_sites_map
      call.rulebook).1.nIn_ = S.nIn_ ∧
    (forwardTopLevel B fresh S call.update_location call.feature_map call.active_sites_map
      call.rulebook).1.nOut_ = S.nOut_ ∧
    (forwardTopLevel B fresh S call.update_location call.feature_map call.active_sites_map
      call.rulebook).1.use_bias_ = S.use_bias_ ∧
    (forwardTopLevel B fresh S call.update_location call.feature_map call.active_sites_map
      call.rulebook).1.bias_ = S.bias_ ∧
    (forwardTopLevel B fresh S call.update_location call.feature_map call.active_sites_map
      call.rulebook).1.initialized_input_maps_ = true ∧
    (forwardTopLevel B fresh S call.update_location call.feature_map call.active_sites_map
      call.rulebook).1.initialized_output_maps_ = true ∧
    (forwardTopLevel B fresh S call.update_location call.feature_map call.active_sites_map
      call.rulebook).1.old_input_feature_map_ =
      resizeNoChange fresh call.feature_map S.nIn_ ∧
    (forwardTopLevel B fresh S call.update_location call.feature_map call.active_sites_map
      call.rulebook).1.output_feature_map_.length =
      (initMaps S call.feature_map.length
        (Int.tdiv (colsOf call.feature_map) S.nIn_)).output_feature_map_.length ∧
    RowsHaveLength (forwardTopLevel B fresh S call.update_location call.feature_map
      call.active_sites_map call.rulebook).1.output_feature_map_ S.nOut_ := by
  obtain ⟨c1, c2, c3, c4⟩ := initMaps_config S call.feature_map.length
    (Int.tdiv (colsOf call.feature_map) S.nIn_)
  obtain ⟨f1, f2⟩ := initMaps_flags S call.feature_map.length
    (Int.tdiv (colsOf call.feature_map) S.nIn_)
  have hlayer := engineArguments_layer B fresh S call.update_location call.feature_map
    call.active_sites_map call.rulebook
  have hinput := engineArguments_input B fresh S call.update_location call.feature_map
    call.active_sites_map call.rulebook
  unfold forwardTopLevel
  simp only
  rw [hlayer, hinput]
  obtain ⟨s1, s2⟩ := forward_output_shape B
    (initMaps S call.feature_map.length (Int.tdiv (colsOf call.feature_map) S.nIn_))
    (engineArguments B fresh S call.update_location call.feature_map call.active_sites_map
      call.rulebook).2.update_location
    (resizeNoChange fresh call.feature_map S.nIn_)
    (engineArguments B fresh S call.update_location call.feature_map call.active_sites_map
      call.rulebook).2.active_sites_map
    (engineArguments B fresh S call.update_location call.feature_map call.active_sites_map
      call.rulebook).2.rule_book
    (engineArguments B fresh S call.update_location call.feature_map call.active_sites_map
      call.rulebook).2.no_update_locations
    (by rw [c2]; exact hshape) (by rw [c3, c4, c2]; exact hbias)
  rw [c2] at s2
  refine ⟨?_, ?_, ?_, ?_, ?_, ?_, ?_, s1, s2⟩
  · rw [forward_state]
    exact c1
  · rw [forward_state]
    exact c2
  · rw [forward_state]
    exact c3
  · rw [forward_state]
    exact c4
  · rw [forward_state]
    exact f1
  · rw [forward_state]
    exact f2
  · rw [forward_state]

/-- Later top-level calls on an allocated instance keep the shape of the output and leave
the reshaped buffer of the last call as `previous_input`. -/
theorem runTopLevel_shapes (B : RuleBookBuilder) (fresh : Nat → Nat → R)
    (L : AsynSparseConvolution2D R) (n : Nat) (calls : List (TopCall R)) :
    ∀ (S : AsynSparseConvolution2D R) (last : TopCall R),
      S.nIn_ = L.nIn_ → S.nOut_ = L.nOut_ → S.use_bias_ = L.use_bias_ → S.bias_ = L.bias_ →
      S.initialized_input_maps_ = true → S.initialized_output_maps_ = true →
      S.old_input_feature_map_ = resizeNoChange fresh last.feature_map L.nIn_ →
      S.output_feature_map_.length = n → RowsHaveLength S.output_feature_map_ L.nOut_ →
      (L.use_bias_ = true → L.bias_.length = L.nOut_) →
      (runTopLevel B fresh S calls).output_feature_map_.length = n ∧
      RowsHaveLength (runTopLevel B fresh S calls).output_feature_map_ L.nOut_ ∧
      (runTopLevel B fresh S calls).old_input_feature_map_ =
        resizeNoChange fresh
          ((last :: calls).getLast (List.cons_ne_nil last calls)).feature_map L.nIn_ := by
  induction calls with
  | nil =>
    intro S last _ _ _ _ _ _ hold hlen hrows _
    exact ⟨hlen, hrows, hold⟩
  | cons call rest ih =>
    intro S last h1 h2 h3 h4 h5 h6 _ hlen hrows hbias
    have hinit := initMaps_of_initialized S call.feature_map.length
      (Int.tdiv (colsOf call.feature_map) S.nIn_) h5 h6
    have hout : (initMaps S call.feature_map.length
        (Int.tdiv (colsOf call.feature_map) S.nIn_)).output_feature_map_ =
        S.output_feature_map_ := by rw [hinit]
    obtain ⟨t1, t2, t3, t4, t5, t6, t7, t8, t9⟩ := forwardTopLevel_step B fresh S call
      (by rw [hout, h2]; exact hrows) (by rw [h3, h4, h2]; exact hbias)
    unfold runTopLevel
    rw [List.foldl_cons, List.getLast_cons_cons]
    apply ih _ call (t1.trans h1) (t2.trans h2) (t3.trans h3) (t4.trans h4) t5 t6
    · rw [t7, h1]
    · rw [t8, hout, hlen]
    · rw [← h2]
      exact t9
    · exact hbias

/-- C13 (amended). Buffer shape invariant: once the buffers have been allocated by the
first top-level forward call with dimensions `(H, W)` (`H` the number of rows of its
feature map, `W` its number of columns divided by `nIn`), after every further sequence of
top-level forward calls, whatever their feature maps, the persisted output still has
shape `(H * W) × nOut` (the bias having `nOut` coefficients when it is enabled), while
`previous_input` is the buffer that the last call handed to the update engine, so that
its shape is the shape of that buffer. -/
theorem buffer_shapes_kept (B : RuleBookBuilder) (fresh : Nat → Nat → R)
    (L : AsynSparseConvolution2D R) (first : TopCall R) (calls : List (TopCall R))
    (hin : L.initialized_input_maps_ = false) (hout : L.initialized_output_maps_ = false)
    (hbias : L.use_bias_ = true → L.bias_.length = L.nOut_) :
    (runTopLevel B fresh L (first :: calls)).output_feature_map_.length =
      ((first.feature_map.length : Int) *
        Int.tdiv (colsOf first.feature_map) L.nIn_).toNat ∧
    RowsHaveLength (runTopLevel B fresh L (first :: calls)).output_feature_map_ L.nOut_ ∧
    (runTopLevel B fresh L (first :: calls)).old_input_feature_map_ =
      resizeNoChange fresh
        ((first :: calls).getLast (List.cons_ne_nil first calls)).feature_map L.nIn_ := by
  have hzero : (initMaps L first.feature_map.length
      (Int.tdiv (colsOf first.feature_map) L.nIn_)).output_feature_map_ =
      zeroMap ((first.feature_map.length : Int) *
        Int.tdiv (colsOf first.feature_map) L.nIn_).toNat L.nOut_ := by
    simp [initMaps, hin, hout]
  obtain ⟨t1, t2, t3, t4, t5, t6, t7, t8, t9⟩ := forwardTopLevel_step B fresh L first
    (by rw [hzero]; exact rowsHaveLength_zeroMap _ _) hbias
  have hrun : runTopLevel B fresh L (first :: calls) =
      runTopLevel B fresh (forwardTopLevel B fresh L first.update_location first.feature_map
        first.active_sites_map first.rulebook).1 calls := by
    unfold runTopLevel
    rw [List.foldl_cons]
  rw [hrun]
  apply runTopLevel_shapes B fresh L _ calls _ first t1 t2 t3 t4 t5 t6 t7 _ t9 hbias
  rw [t8, hzero]
  simp [zeroMap]

/-- The `2 × 1` image followed by a `3 × 1` image on the fresh zero layer: the output keeps
its 2 rows of one coefficient, and `previous_input` is the buffer of the second call. -/
theorem buffer_shapes_kept_witness :
    (runTopLevel activatingBuilder (fun _ _ => (0 : ℤ)) zeroLayer
      [{ update_location := [], feature_map := [[1], [2]], active_sites_map := [],
         rulebook := { W_ := 0, rules := [] } },
       { update_location := [], feature_map := [[1], [2], [3]], active_sites_map := [],
         rulebook := { W_ := 0, rules := [] } }]).output_feature_map_.length =
      (((2 : Nat) : Int) * Int.tdiv ((1 : Nat) : Int) ((1 : Nat) : Int)).toNat ∧
    RowsHaveLength (runTopLevel activatingBuilder (fun _ _ => (0 : ℤ)) zeroLayer
      [{ update_location := [], feature_map := [[1], [2]], active_sites_map := [],
         rulebook := { W_ := 0, rules := [] } },
       { update_location := [], feature_map := [[1], [2], [3]], active_sites_map := [],
         rulebook := { W_ := 0, rules := [] } }]).output_feature_map_ 1 ∧
    (runTopLevel activatingBuilder (fun _ _ => (0 : ℤ)) zeroLayer
      [{ update_location := [], feature_map := [[1], [2]], active_sites_map := [],
         rulebook := { W_ := 0, rules := [] } },
       { update_location := [], feature_map := [[1], [2], [3]], active_sites_map := [],
         rulebook := { W_ := 0, rules := [] } }]).old_input_feature_map_ =
      resizeNoChange (fun _ _ => (0 : ℤ)) [[1], [2], [3]] 1 :=
  buffer_shapes_kept activatingBuilder (fun _ _ => (0 : ℤ)) zeroLayer
    { update_location := [], feature_map := [[1], [2]], active_sites_map := [],
      rulebook := { W_ := 0, rules := [] } }
    [{ update_location := [], feature_map := [[1], [2], [3]], active_sites_map := [],
       rulebook := { W_ := 0, rules := [] } }]
    (by decide) (by decide) (by decide)

end TopLevelShapes

end AsynSparseConv
